import Mathlib

/-! macOS QEMU guest agent: gating state, registry, dispatch, transport and loop

A shallow embedding of the protocol engine of the guest agent
(`internal/agent`, `internal/commands`, `internal/protocol`,
`internal/communication`) together with theorems about the gating state, the
command registry, the dispatcher, the device and test transports, the
supervisory loop, the channel write path, the memory block arithmetic and
the parsers of `diskutil` and `who` output.

Conventions of the embedding:

* a Go `*T` that may be `nil` is an `Option T`;
* a Go `interface{}` is a `GoValue` (`GoValue.nil` is the nil interface);
* an `int64` is an `Int` kept in range by `wrapInt64`;
* a Go map with string keys is an association list with first-match lookup;
* a Go `error` is an `Option String`: `none` is nil, `some msg` an error whose
  text is `msg`;
* a JSON text is the JSON value it parses to, with integer numbers;
* locks are not modelled: every embedded method runs under its own lock in
  the source, so each call is one atomic step on the state.
-/

namespace GuestAgent

/-! ## Gating state (`internal/agent/state.go`) -/

/-- Two's complement wrap-around of a Go `int64` after an arithmetic step. -/
def wrapInt64 (x : Int) : Int := (x + 2 ^ 63) % 2 ^ 64 - 2 ^ 63

/-- The persisted part of the agent state: `PersistentState` of state.go. -/
structure PersistentState where
  FdCounter : Int
  deriving DecidableEq, Repr

/-- The flags, lists and counter of `GAState` (state.go, lines 12-36). The
parser, main loop, channel and command-state components play no part in the
methods embedded here and are left out. -/
structure GAState where
  LoggingEnabled : Bool
  DelimitResponse : Bool
  Frozen : Bool
  ForceExit : Bool
  BlockedRPCs : List String
  AllowedRPCs : List String
  PersistentState : Option PersistentState
  deriving DecidableEq, Repr

/-- The state built by `NewGAState` (state.go, lines 83-94): the counter
starts at 1000, logging is on, every other field has its zero value. -/
def NewGAState : GAState :=
  { LoggingEnabled := true
    DelimitResponse := false
    Frozen := false
    ForceExit := false
    BlockedRPCs := []
    AllowedRPCs := []
    PersistentState := some { FdCounter := 1000 } }

/-- The method `SetFrozen` (state.go, lines 141-145). -/
def SetFrozen (s : GAState) (frozen : Bool) : GAState :=
  { s with Frozen := frozen }

/-- The method `IsFrozen` (state.go, lines 134-138). -/
def IsFrozen (s : GAState) : Bool := s.Frozen

/-- The method `GetFdHandle` (state.go, lines 162-167): increment the
counter, return the new value. `none` is the nil-pointer fault of a state
without a `PersistentState`. -/
def GetFdHandle (s : GAState) : Option (Int × GAState) :=
  match s.PersistentState with
  | none => none
  | some p =>
    let c := wrapInt64 (p.FdCounter + 1)
    some (c, { s with PersistentState := some { FdCounter := c } })

/-- The values returned by `n` calls of `GetFdHandle` made one after the
other, oldest first, and the state they leave. -/
def GetFdHandleTimes : Nat → GAState → Option (List Int × GAState)
  | 0, s => some ([], s)
  | n + 1, s =>
    match GetFdHandle s with
    | none => none
    | some (v, s1) =>
      match GetFdHandleTimes n s1 with
      | none => none
      | some (vs, s2) => some (v :: vs, s2)

/-- The loop `for _, x := range xs { if cmdName == x { return ... } }` of
`IsCommandAllowed`: whether the loop reaches its `return`. -/
def rangeFinds (cmdName : String) : List String → Bool
  | [] => false
  | x :: xs => if cmdName = x then true else rangeFinds cmdName xs

/-- The literal `allowedWhenFrozen` of `IsCommandAllowed` (state.go, lines
176-183). -/
def allowedWhenFrozen : List String :=
  [ "guest-ping",
    "guest-info",
    "guest-sync",
    "guest-sync-delimited",
    "guest-fsfreeze-status",
    "guest-fsfreeze-thaw" ]

/-- The method `IsCommandAllowed` (state.go, lines 170-210). -/
def IsCommandAllowed (s : GAState) (cmdName : String) : Bool :=
  if s.Frozen then
    if rangeFinds cmdName allowedWhenFrozen then true else false
  else if rangeFinds cmdName s.BlockedRPCs then false
  else if s.AllowedRPCs.length > 0 then
    if rangeFinds cmdName s.AllowedRPCs then true else false
  else true

/-! ## JSON texts and Go values (`encoding/json` as the agent uses it)

`encoding/json` is a library, not code of the agent. It is embedded at the
level of JSON values: a message is either no JSON text at all or the text of
a `JSON` value, and a Go value of type `interface{}` is a `GoValue`. Numbers
are the integer-valued ones; the member order of a marshalled Go map is not
modelled (members keep their stored order). -/

/-- A JSON value, as written in a JSON text. `num n` is any number literal
whose value is the integer `n`. -/
inductive JSON where
  | null
  | bool (b : Bool)
  | num (n : Int)
  | str (s : String)
  | arr (xs : List JSON)
  | obj (kvs : List (String × JSON))

/-- A Go value held in an `interface{}`. `nil` is the nil interface,
`typedNil` a nil pointer, slice or map inside a non-nil interface, `number`
a numeric value (a `float64` after decoding, an integer type from a
handler), `array` a slice, `object` a map with string keys (or a struct
without fields), `raw` a `json.RawMessage` holding a JSON text, and
`unsupported` a value `json.Marshal` rejects (a channel, a function, a
NaN). -/
inductive GoValue where
  | nil
  | typedNil
  | bool (b : Bool)
  | number (n : Int)
  | str (s : String)
  | array (xs : List GoValue)
  | object (kvs : List (String × GoValue))
  | raw (j : JSON)
  | unsupported

/-- The member of an object with the given name, if the value is an object
that has one. -/
def JSON.member (name : String) : JSON → Option JSON
  | .obj kvs => kvs.lookup name
  | _ => none

/-- The integer nearest to `n` that a `float64` holds, ties to the even
significand: what `strconv.ParseFloat` makes of an integer literal. -/
def roundFloat64 (n : Nat) : Nat :=
  if n < 2 ^ 53 then n
  else
    let e := Nat.log2 n - 52
    let q := n / 2 ^ e
    let r := n % 2 ^ e
    let half := 2 ^ (e - 1)
    if r < half then q * 2 ^ e
    else if half < r then (q + 1) * 2 ^ e
    else if q % 2 = 0 then q * 2 ^ e
    else (q + 1) * 2 ^ e

/-- Decoding of a number literal into an `interface{}`: the `float64`
nearest to it, or `none` when that is out of the range of `float64`. -/
def float64OfInt (n : Int) : Option Int :=
  let m := roundFloat64 n.natAbs
  if m < 2 ^ 1024 then some (if n < 0 then -(m : Int) else (m : Int)) else none

mutual
/-- Decoding of a JSON value into an `interface{}` by `json.Unmarshal`;
`none` is a decoding error. -/
def decodeValue : JSON → Option GoValue
  | .null => some .nil
  | .bool b => some (.bool b)
  | .num n => (float64OfInt n).map .number
  | .str s => some (.str s)
  | .arr xs => (decodeList xs).map .array
  | .obj kvs => (decodeMembers kvs).map .object
/-- Decoding of the elements of an array into a `[]interface{}`. -/
def decodeList : List JSON → Option (List GoValue)
  | [] => some []
  | x :: xs =>
    match decodeValue x, decodeList xs with
    | some g, some gs => some (g :: gs)
    | _, _ => none
/-- Decoding of the members of an object into a `map[string]interface{}`:
of two members of one name the later one stays. -/
def decodeMembers : List (String × JSON) → Option (List (String × GoValue))
  | [] => some []
  | (k, x) :: xs =>
    match decodeValue x, decodeMembers xs with
    | some g, some gs => if gs.any (fun p => p.1 = k) then some gs else some ((k, g) :: gs)
    | _, _ => none
end

/-- The order of Go strings on their characters: `true` when the first list
is before the second. Go compares strings byte by byte, which on UTF-8 text
is the order of the code points. -/
def ltChars : List Char → List Char → Bool
  | _, [] => false
  | [], _ :: _ => true
  | a :: as, b :: bs =>
    if a.toNat < b.toNat then true
    else if b.toNat < a.toNat then false
    else ltChars as bs

/-- The Go comparison `a < b` of two strings. -/
def stringLt (a b : String) : Prop := ltChars a.data b.data = true

/-- The Go comparison `a <= b` of two strings. -/
def stringLe (a b : String) : Prop := ltChars b.data a.data = false

instance : DecidableRel stringLt := fun a b => inferInstanceAs (Decidable (ltChars a.data b.data = true))

instance : DecidableRel stringLe := fun a b => inferInstanceAs (Decidable (ltChars b.data a.data = false))

/-- The members of a JSON object in ascending order of their keys, the order
in which `json.Marshal` writes the entries of a map. -/
def sortMembers (members : List (String × JSON)) : List (String × JSON) :=
  members.insertionSort fun a b => stringLe a.1 b.1

mutual
/-- The JSON value `json.Marshal` writes for a Go value; `none` is a
marshalling error. The entries of a map are written in ascending order of
their keys. A number is written as the integer it is: that is what
`json.Marshal` writes for an integer type, and for a `float64` of magnitude
up to 2^53; for a larger `float64` it writes the shortest digits that read
back as the same `float64`, which this embedding does not follow. -/
def marshalValue : GoValue → Option JSON
  | .nil => some .null
  | .typedNil => some .null
  | .bool b => some (.bool b)
  | .number n => some (.num n)
  | .str s => some (.str s)
  | .array xs => (marshalList xs).map .arr
  | .object kvs => (marshalMembers kvs).map fun members => .obj (sortMembers members)
  | .raw j => some j
  | .unsupported => none
/-- Marshalling of the elements of a slice. -/
def marshalList : List GoValue → Option (List JSON)
  | [] => some []
  | x :: xs =>
    match marshalValue x, marshalList xs with
    | some j, some js => some (j :: js)
    | _, _ => none
/-- Marshalling of the members of a map. -/
def marshalMembers : List (String × GoValue) → Option (List (String × JSON))
  | [] => some []
  | (k, x) :: xs =>
    match marshalValue x, marshalMembers xs with
    | some j, some js => some ((k, j) :: js)
    | _, _ => none
end

/-! ## Protocol types (`internal/protocol/types.go`) -/

/-- The struct `QMPRequest` (types.go, lines 8-12). -/
structure QMPRequest where
  Execute : String
  Arguments : GoValue
  ID : GoValue

/-- The struct `QMPError` (types.go, lines 22-25). -/
structure QMPError where
  Class : String
  Desc : String
  deriving DecidableEq, Repr

/-- The struct `QMPResponse` (types.go, lines 15-19). -/
structure QMPResponse where
  Return : GoValue
  Error : Option QMPError
  ID : GoValue

/-- The function `NewErrorResponse` (types.go, lines 271-278). -/
def NewErrorResponse (cls desc : String) : QMPResponse :=
  { Return := .nil, Error := some { Class := cls, Desc := desc }, ID := .nil }

/-- The bytes of a message as `encoding/json` sees them: no JSON text at
all, or the text of a JSON value. -/
inductive Payload where
  | invalid
  | json (j : JSON)

/-- Case folding of one character of an object key, as `json.Unmarshal`
folds it to match a field name: the ASCII letters, and the two characters
outside ASCII whose case orbit holds an ASCII letter (U+017F, U+212A). -/
def foldRune (c : Char) : Char :=
  if c = Char.ofNat 0x17F then Char.ofNat 0x73
  else if c = Char.ofNat 0x212A then Char.ofNat 0x6B
  else c.toLower

/-- Case folding of an object key. -/
def foldKey (k : String) : String := String.mk (k.data.map foldRune)

/-- One member of the request object decoded into the struct: its key is
matched to a field of `QMPRequest` by its tag; a `null` leaves a string
field alone and resets an `interface{}` field; a value of the wrong type is
an error; a member of another name is skipped. -/
def decodeMember (req : QMPRequest) (k : String) (v : JSON) : Option QMPRequest :=
  if foldKey k = "execute" then
    match v with
    | .str s => some { req with Execute := s }
    | .null => some req
    | _ => none
  else if foldKey k = "arguments" then
    (decodeValue v).map fun g => { req with Arguments := g }
  else if foldKey k = "id" then
    (decodeValue v).map fun g => { req with ID := g }
  else some req

/-- The members of the request object decoded one after the other. -/
def decodeMembersInto : QMPRequest → List (String × JSON) → Option QMPRequest
  | req, [] => some req
  | req, (k, v) :: rest =>
    match decodeMember req k v with
    | none => none
    | some r => decodeMembersInto r rest

/-- The function `ParseRequest` (types.go, lines 302-308):
`json.Unmarshal(data, &request)` on a zero `QMPRequest`. `none` is the
return `(nil, err)`. A text that is `null` decodes to the zero request; a
text that is neither `null` nor an object is an error. -/
def ParseRequest (data : Payload) : Option QMPRequest :=
  let request : QMPRequest := { Execute := "", Arguments := .nil, ID := .nil }
  match data with
  | .invalid => none
  | .json .null => some request
  | .json (.obj kvs) => decodeMembersInto request kvs
  | .json _ => none

/-- One field of type `interface{}` tagged `omitempty`: left out when the
interface is nil. -/
def marshalOmitEmpty (name : String) (v : GoValue) : Option (List (String × JSON)) :=
  match v with
  | .nil => some []
  | v => (marshalValue v).map fun j => [(name, j)]

/-- The field `error` of a response, tagged `omitempty`: left out when the
pointer is nil. -/
def marshalError : Option QMPError → List (String × JSON)
  | none => []
  | some e => [("error", .obj [("class", .str e.Class), ("desc", .str e.Desc)])]

/-- The function `MarshalResponse` (types.go, lines 311-313):
`json.Marshal` of a `QMPResponse`. -/
def MarshalResponse (response : QMPResponse) : Option JSON :=
  match marshalOmitEmpty "return" response.Return, marshalOmitEmpty "id" response.ID with
  | some r, some i => some (.obj (r ++ marshalError response.Error ++ i))
  | _, _ => none

/-! ## Command registry and dispatch (`internal/commands/handler.go`) -/

/-- What a call of a handler `func(json.RawMessage) (interface{}, error)`
comes to: it returns a result and an error (`none` is the nil error, `some
msg` an error whose `Error()` is `msg`), or it panics. -/
inductive HandlerOutcome where
  | returns (result : GoValue) (err : Option String)
  | panics

/-- The struct `Command` (handler.go, lines 14-25). The argument of a
handler is the `json.RawMessage` it is given: `none` is the nil slice,
`some j` the text of `j`. A `Handler` of `none` is the nil function. -/
structure Command where
  Name : String
  Handler : Option (Option JSON → HandlerOutcome)
  Enabled : Bool

/-- The type of `CommandRegistry`, a `map[string]*Command` (handler.go, line
29): an association list read by its first entry of a name. An entry of
`none` is a nil pointer stored under the name. -/
abbrev Registry := List (String × Option Command)

/-- The map read `CommandRegistry[name]`: `none` when the name has no entry. -/
def Registry.get (reg : Registry) (name : String) : Option (Option Command) :=
  match reg with
  | [] => none
  | (k, v) :: rest => if k = name then some v else Registry.get rest name

/-- The map write `CommandRegistry[name] = cmd`. -/
def Registry.set (reg : Registry) (name : String) (cmd : Option Command) : Registry :=
  match reg with
  | [] => [(name, cmd)]
  | (k, v) :: rest =>
    if k = name then (name, cmd) :: rest else (k, v) :: Registry.set rest name cmd

/-- The initial value of `CommandRegistry`: `make(map[string]*Command)`. -/
def emptyRegistry : Registry := []

/-- The function `RegisterCommand` (handler.go, lines 33-39). -/
def RegisterCommand (reg : Registry) (cmd : Option Command) : Registry :=
  match cmd with
  | none => reg
  | some c => if c.Name = "" then reg else reg.set c.Name (some c)

/-- One call of a handler: the command it was registered under and the
argument it was given. -/
structure HandlerCall where
  name : String
  args : Option JSON

/-- The result of `HandleCommand`: the handler calls it made and the
response it returned; a `response` of `none` is a panic. -/
structure Dispatch where
  calls : List HandlerCall
  response : Option QMPResponse

/-- The `json.RawMessage` that `HandleCommand` builds from the arguments of a
request (handler.go, lines 63-78): the nil slice for nil arguments, the raw
message itself when the arguments are one, else their marshalling. The outer
`none` is the marshalling error. -/
def argsJSON (req : QMPRequest) : Option (Option JSON) :=
  match req.Arguments with
  | .nil => some none
  | .raw j => some (some j)
  | v => (marshalValue v).map some

/-- The function `HandleCommand` (handler.go, lines 42-95), reading the
registry it is given. -/
def HandleCommand (reg : Registry) (req : QMPRequest) : Dispatch :=
  let notFound : QMPResponse :=
    { Return := .nil
      Error := some
        { Class := "CommandNotFound"
          Desc := "The command " ++ req.Execute ++ " has not been found" }
      ID := .nil }
  match reg.get req.Execute with
  | none => { calls := [], response := some notFound }
  | some none => { calls := [], response := none }
  | some (some cmd) =>
    if !cmd.Enabled then { calls := [], response := some notFound }
    else
      match argsJSON req with
      | none =>
        { calls := []
          response := some
            { Return := .nil
              Error := some { Class := "InvalidParameter", Desc := "could not marshal arguments" }
              ID := .nil } }
      | some args =>
        match cmd.Handler with
        | none => { calls := [], response := none }
        | some handler =>
          let call : HandlerCall := { name := req.Execute, args := args }
          match handler args with
          | .panics => { calls := [call], response := none }
          | .returns _ (some msg) =>
            { calls := [call]
              response := some
                { Return := .nil
                  Error := some { Class := "GenericError", Desc := msg }
                  ID := .nil } }
          | .returns result none =>
            { calls := [call]
              response := some { Return := result, Error := none, ID := .nil } }

/-- The handler `handleGuestPing` (ping.go, lines 19-21): it returns
`protocol.EmptyResponse{}`, a struct without fields. -/
def handleGuestPing (_req : Option JSON) : HandlerOutcome :=
  .returns (.object []) none

/-- The command registered by `init` of ping.go (lines 8-14). -/
def guestPingCommand : Command :=
  { Name := "guest-ping", Handler := some handleGuestPing, Enabled := true }

/-! ## The supervisory loop's `processMessage` (`internal/agent/agent.go`) -/

/-- One write handed to the transport: through `SendDelimitedResponse`
(`delimited`) or `SendResponse`, with the bytes `json.Marshal` produced; a
`data` of `none` is the empty byte slice. -/
structure Frame where
  delimited : Bool
  data : Option JSON

/-- How a call came back: it returned an error value (`none` is nil), or it
panicked. -/
inductive Completion where
  | returned (err : Option String)
  | panicked

/-- What one call of `processMessage` did: the handlers it called, the
frames it handed to the transport, and how it came back. -/
structure ProcessResult where
  calls : List HandlerCall
  sent : List Frame
  completion : Completion

/-- The method `sendResponse` (agent.go, lines 183-198). `send` is what the
transport returns for a frame (`none` is the nil error). -/
def sendResponse (send : Frame → Option String) (resp : QMPResponse) (useDelimiter : Bool) :
    List Frame × Option String :=
  match MarshalResponse resp with
  | none =>
    let fallbackResp : QMPResponse :=
      { NewErrorResponse "InternalError" "Failed to marshal response" with ID := resp.ID }
    let frame : Frame := { delimited := false, data := MarshalResponse fallbackResp }
    ([frame], send frame)
  | some respData =>
    let frame : Frame := { delimited := useDelimiter, data := some respData }
    ([frame], send frame)

/-- The method `processMessage` (agent.go, lines 126-180). `read` is what
the transport's `ReadMessage` returns, `send` what its send methods return
for a frame. -/
def processMessage (reg : Registry) (send : Frame → Option String)
    (read : Except String Payload) : ProcessResult :=
  match read with
  | .error err =>
    { calls := [], sent := [], completion := .returned (some ("failed to read message: " ++ err)) }
  | .ok msgData =>
    match ParseRequest msgData with
    | none =>
      let errorResp := NewErrorResponse "GenericError" "Invalid message format"
      let out := sendResponse send errorResp false
      { calls := [], sent := out.1, completion := .returned out.2 }
    | some request =>
      let handled := HandleCommand reg request
      match handled.response with
      | none => { calls := handled.calls, sent := [], completion := .panicked }
      | some handlerResponse =>
        let qmpResponse : QMPResponse :=
          { Return := handlerResponse.Return
            Error := handlerResponse.Error
            ID := match request.ID with
              | .nil => .nil
              | id => id }
        let useDelimiter : Bool := request.Execute = "guest-sync-delimited"
        let out := sendResponse send qmpResponse useDelimiter
        { calls := handled.calls, sent := out.1, completion := .returned out.2 }


/-- A frozen state whose block list holds an allow-listed name and whose
allow list holds an unrelated name. -/
def frozenBlockedState : GAState :=
  { NewGAState with
    Frozen := true, BlockedRPCs := ["guest-ping"], AllowedRPCs := ["guest-get-time"] }

/-- A state that is not frozen and lists one name in both lists. -/
def bothListsState : GAState :=
  { NewGAState with BlockedRPCs := ["guest-exec"], AllowedRPCs := ["guest-exec", "guest-ping"] }

/-- The registry after `init` of ping.go alone. -/
def pingRegistry : Registry := RegisterCommand emptyRegistry (some guestPingCommand)

/-- A transport whose send methods succeed. -/
def sendOk (_frame : Frame) : Option String := none

/-- The value of the last member of a request object whose key folds to the
given field name: the member `json.Unmarshal` leaves in the field. -/
def lastMember (name : String) : List (String × JSON) → Option JSON
  | [] => none
  | (k, v) :: rest =>
    match lastMember name rest with
    | some w => some w
    | none => if foldKey k = name then some v else none

/-- A state whose block list holds `guest-ping`. -/
def pingBlockedState : GAState :=
  { NewGAState with BlockedRPCs := ["guest-ping"] }

/-! ## Supported commands (`internal/commands/info.go`) -/

/-- The registry after a run of `RegisterCommand` calls on the empty map, in
the order of the list. -/
def registerAll (cmds : List (Option Command)) : Registry :=
  cmds.foldl RegisterCommand emptyRegistry

/-- The struct `GuestAgentCommandInfo` (types.go, lines 43-47). -/
structure GuestAgentCommandInfo where
  Name : String
  Enabled : Bool
  SuccessResponse : Bool
  deriving DecidableEq, Repr

/-- The keys of the map: each name once. -/
def Registry.keys (reg : Registry) : List String :=
  (reg.map Prod.fst).dedup

/-- The call `sort.Strings`: the names in ascending order. -/
def sortStrings (names : List String) : List String :=
  names.insertionSort stringLe

/-- The second loop of `getSupportedCommands` (info.go, lines 51-60): one
descriptor for each name, read from the registry; `none` is the nil pointer
dereference `cmd.Name` on a name without a command. -/
def commandInfos (reg : Registry) : List String → Option (List GuestAgentCommandInfo)
  | [] => some []
  | name :: rest =>
    match reg.get name, commandInfos reg rest with
    | some (some cmd), some infos =>
      some ({ Name := cmd.Name, Enabled := cmd.Enabled, SuccessResponse := true } :: infos)
    | _, _ => none

/-- The function `getSupportedCommands` (info.go, lines 42-63), reading the
registry it is given. -/
def getSupportedCommands (reg : Registry) : Option (List GuestAgentCommandInfo) :=
  let commandNames := sortStrings reg.keys
  commandInfos reg commandNames

/-! ## The sync commands (`internal/commands/sync.go`) -/

/-- The error `handleGuestSync` returns when its arguments do not decode
(sync.go, line 40); `detail` stands for the text of the `encoding/json`
error. -/
def syncArgsError (detail : String) : String :=
  "failed to parse arguments for guest-sync: " ++ detail

/-- Decoding of the members of an object into `GuestSyncArgs`, whose one
field `ID int64` is tagged `id`: a member whose key folds to `id` sets the
field from an integer in the range of `int64`, leaves it alone for `null`,
and is an error for any other value; other members are skipped. -/
def decodeSyncArgs : List (String × JSON) → Int → Option Int
  | [], id => some id
  | (k, v) :: rest, id =>
    if foldKey k = "id" then
      match v with
      | .num n => if -2 ^ 63 ≤ n ∧ n < 2 ^ 63 then decodeSyncArgs rest n else none
      | .null => decodeSyncArgs rest id
      | _ => none
    else decodeSyncArgs rest id

/-- The handler `handleGuestSync` (sync.go, lines 37-44): it decodes its
arguments into `GuestSyncArgs` and returns the `ID`. A nil or non-object
argument other than `null` does not decode. -/
def handleGuestSync (req : Option JSON) : HandlerOutcome :=
  match req with
  | none => .returns .nil (some (syncArgsError "unexpected end of JSON input"))
  | some .null => .returns (.number 0) none
  | some (.obj kvs) =>
    match decodeSyncArgs kvs 0 with
    | some id => .returns (.number id) none
    | none => .returns .nil (some (syncArgsError "json: cannot unmarshal into GuestSyncArgs.id"))
  | some _ => .returns .nil (some (syncArgsError "json: cannot unmarshal into GuestSyncArgs"))

/-- The first command registered by `init` of sync.go (lines 16-20). -/
def guestSyncCommand : Command :=
  { Name := "guest-sync", Handler := some handleGuestSync, Enabled := true }

/-- The second command registered by `init` of sync.go (lines 21-25). -/
def guestSyncIdCommand : Command :=
  { Name := "guest-sync-id", Handler := some handleGuestSync, Enabled := true }

/-- The third command registered by `init` of sync.go (lines 28-32). -/
def guestSyncDelimitedCommand : Command :=
  { Name := "guest-sync-delimited", Handler := some handleGuestSync, Enabled := true }

/-- The registry after `init` of sync.go and of ping.go. -/
def syncRegistry : Registry :=
  registerAll
    [some guestSyncCommand, some guestSyncIdCommand, some guestSyncDelimitedCommand,
      some guestPingCommand]

/-- The zero value of `QMPRequest`. -/
def zeroRequest : QMPRequest :=
  { Execute := "", Arguments := .nil, ID := .nil }

/-! ## The device transport (`internal/communication/manager.go`) -/

/-- The call `strings.Contains` on character lists: whether `sub` occurs in
the list. -/
def containsChars (sub : List Char) : List Char → Bool
  | [] => sub.isEmpty
  | c :: cs => sub.isPrefixOf (c :: cs) || containsChars sub cs

/-- The call `strings.Contains(s, sub)`. -/
def containsSubstr (s sub : String) : Bool :=
  containsChars sub.data s.data

/-- The predicate `unicode.IsSpace`, which `strings.TrimSpace` trims by. -/
def isSpace (c : Char) : Bool :=
  let n := c.toNat
  (9 ≤ n && n ≤ 13) || n = 32 || n = 0x85 || n = 0xA0 || n = 0x1680 ||
    (0x2000 ≤ n && n ≤ 0x200A) || n = 0x2028 || n = 0x2029 || n = 0x202F || n = 0x205F ||
    n = 0x3000

/-- The call `strings.TrimSpace`: the string without its leading and
trailing white space. -/
def TrimSpace (s : String) : String :=
  String.mk ((s.data.dropWhile isSpace).reverse.dropWhile isSpace).reverse

/-- A byte of a message. -/
abbrev Byte := Nat

/-- What one `Write` on the device file does with the bytes it is given: how
many of them the device took, and the error it reported (`none` is nil). -/
abbrev Device := List Byte → Nat × Option String

/-- The `bufio.Writer` of the manager together with what the device has
received: the bytes buffered, the writer's sticky error and the bytes
written to the device so far. -/
structure Writer where
  buf : List Byte
  err : Option String
  out : List Byte
  deriving DecidableEq, Repr

/-- The buffer size of `bufio.NewWriter`. -/
def bufferSize : Nat := 4096

/-- The method `Flush` of `bufio.Writer`: the buffered bytes go to the
device; a short or failed write leaves the rest buffered and sets the sticky
error. -/
def Writer.Flush (dev : Device) (w : Writer) : Option String × Writer :=
  match w.err with
  | some e => (some e, w)
  | none =>
    if w.buf.length = 0 then (none, w)
    else
      let n := (dev w.buf).1
      let e := if n < w.buf.length ∧ (dev w.buf).2 = none then some "short write" else (dev w.buf).2
      match e with
      | some msg => (some msg, { buf := w.buf.drop n, err := some msg, out := w.out ++ w.buf.take n })
      | none => (none, { buf := [], err := none, out := w.out ++ w.buf })

/-- The loop of the method `Write` of `bufio.Writer`: while the bytes do not
fit the free part of the buffer and no error is set, an empty buffer is
bypassed by a direct device write and a used one is filled and flushed. The
result is the writer and the bytes left to buffer; `none` is a loop that has
not ended within the fuel. -/
def Writer.writeLoop (dev : Device) : Nat → Writer → List Byte → Option (Writer × List Byte)
  | 0, w, p =>
    if bufferSize - w.buf.length < p.length ∧ w.err = none then none else some (w, p)
  | fuel + 1, w, p =>
    if bufferSize - w.buf.length < p.length ∧ w.err = none then
      if w.buf.length = 0 then
        let n := (dev p).1
        Writer.writeLoop dev fuel { w with err := (dev p).2, out := w.out ++ p.take n } (p.drop n)
      else
        let n := bufferSize - w.buf.length
        Writer.writeLoop dev fuel (Writer.Flush dev { w with buf := w.buf ++ p.take n }).2 (p.drop n)
    else some (w, p)

/-- The method `Write` of `bufio.Writer`: the error it returns and the
writer afterwards; `none` is a call that does not return. -/
def Writer.Write (dev : Device) (w : Writer) (p : List Byte) : Option (Option String × Writer) :=
  match Writer.writeLoop dev (p.length + 2) w p with
  | none => none
  | some (w1, rest) =>
    match w1.err with
    | some e => some (some e, w1)
    | none => some (none, { w1 with buf := w1.buf ++ rest })

/-- The struct `Manager` (manager.go, lines 16-24): the device path, the
open flag, the writer with the device behind it, and whether `stopChan` has
been closed. -/
structure Manager where
  devicePath : String
  isOpen : Bool
  writer : Writer
  stopChanClosed : Bool
  deriving DecidableEq, Repr

/-- The function `NewManager` (manager.go, lines 27-32). -/
def NewManager (devicePath : String) : Manager :=
  { devicePath := devicePath, isOpen := false
    writer := { buf := [], err := none, out := [] }, stopChanClosed := false }

/-- The method `Manager.IsOpen` (manager.go, lines 234-238). -/
def Manager.IsOpen (m : Manager) : Bool := m.isOpen

/-- The method `Manager.Open` (manager.go, lines 72-102). `detect` is what
`DetectDevice` returns and `openFile` the error of `os.OpenFile` on a path
(`none` is nil). The error returned is `none` for nil. -/
def Manager.Open (detect : Except String String) (openFile : String → Option String)
    (m : Manager) : Option String × Manager :=
  if m.isOpen then (some "设备已经打开", m)
  else
    match (if m.devicePath = "" then detect else .ok m.devicePath) with
    | .error e => (some ("检测设备失败: " ++ e), m)
    | .ok path =>
      match openFile path with
      | some e => (some ("打开设备 " ++ path ++ " 失败: " ++ e), { m with devicePath := path })
      | none =>
        (none,
          { m with
            devicePath := path, isOpen := true
            writer := { buf := [], err := none, out := m.writer.out } })

/-- The method `Manager.Close` (manager.go, lines 105-122): closing
`stopChan` a second time panics. -/
def Manager.Close (m : Manager) : Completion × Manager :=
  if !m.isOpen then (.returned none, m)
  else if m.stopChanClosed then (.panicked, m)
  else (.returned none, { m with stopChanClosed := true, isOpen := false })

/-- What `m.reader.ReadString` gives `ReadMessage`: the error `io.EOF`,
another error with its text, or a line. -/
inductive ReadOutcome where
  | eof
  | failure (msg : String)
  | line (s : String)

/-- The method `Manager.ReadMessage` (manager.go, lines 125-159): the
message or the error, and the manager afterwards. -/
def Manager.ReadMessage (m : Manager) (r : ReadOutcome) : Except String String × Manager :=
  if !m.isOpen then (.error "设备未打开", m)
  else
    match r with
    | .eof => (.error "设备连接已关闭", m)
    | .failure msg =>
      if containsSubstr msg "timeout" then (.error "read_timeout", m)
      else (.error ("读取消息失败: " ++ msg), m)
    | .line s =>
      let line := TrimSpace s
      if line = "" then (.error "empty_message", m) else (.ok line, m)

/-- The method `Manager.SendResponse` (manager.go, lines 162-192): the error
returned and the manager afterwards; `none` is a call that does not
return. -/
def Manager.SendResponse (dev : Device) (m : Manager) (data : List Byte) :
    Option (Option String × Manager) :=
  if !m.isOpen then some (some "设备未打开", m)
  else
    match m.writer.Write dev data with
    | none => none
    | some (some e, w1) => some (some ("写入响应失败: " ++ e), { m with writer := w1 })
    | some (none, w1) =>
      match w1.Write dev [10] with
      | none => none
      | some (some e, w2) => some (some ("写入换行符失败: " ++ e), { m with writer := w2 })
      | some (none, w2) =>
        match w2.Flush dev with
        | (some e, w3) => some (some ("刷新缓冲区失败: " ++ e), { m with writer := w3 })
        | (none, w3) => some (none, { m with writer := w3 })

/-- The method `Manager.SendDelimitedResponse` (manager.go, lines 195-231). -/
def Manager.SendDelimitedResponse (dev : Device) (m : Manager) (data : List Byte) :
    Option (Option String × Manager) :=
  if !m.isOpen then some (some "设备未打开", m)
  else
    match m.writer.Write dev [0xFF] with
    | none => none
    | some (some e, w0) => some (some ("写入分隔符失败: " ++ e), { m with writer := w0 })
    | some (none, w0) =>
      match w0.Write dev data with
      | none => none
      | some (some e, w1) => some (some ("写入响应失败: " ++ e), { m with writer := w1 })
      | some (none, w1) =>
        match w1.Write dev [10] with
        | none => none
        | some (some e, w2) => some (some ("写入换行符失败: " ++ e), { m with writer := w2 })
        | some (none, w2) =>
          match w2.Flush dev with
          | (some e, w3) => some (some ("刷新缓冲区失败: " ++ e), { m with writer := w3 })
          | (none, w3) => some (none, { m with writer := w3 })

/-- A device that takes every byte it is given. -/
def reliableDevice : Device := fun p => (p.length, none)

/-! ## The supervisory loop (`internal/agent/agent.go`) -/

/-- What `messageLoop` does that can be seen from outside: a handler call and
a frame sent (both inside `processMessage`), an error or info line it logs
itself, a sleep of so many milliseconds, and a call of the transport's
`Open`. -/
inductive LoopEvent where
  | call (c : HandlerCall)
  | send (f : Frame)
  | logError (msg : String)
  | logInfo (msg : String)
  | sleep (ms : Nat)
  | reopen

/-- What the environment gives one pass of the loop: whether `stopChan` is
closed at the `select`, what `ReadMessage` returns, what the send methods
return for a frame, what `IsOpen` reports and what `Open` returns when the
loop asks. -/
structure Iteration where
  stopped : Bool
  read : Except String Payload
  send : Frame → Option String
  isOpen : Bool
  reopenError : Option String

/-- How `messageLoop` stands after the passes it was given: still looping,
returned on the stop signal, or returned through the deferred `recover`
after a panic. -/
inductive LoopExit where
  | running
  | stopped
  | recovered
  deriving DecidableEq, Repr

/-- The method `messageLoop` (agent.go, lines 91-123) run over the passes
the environment allows: the events in order and how the loop stands. The
deferred `recover` is at the level of the function, outside the `for`. -/
def messageLoop (reg : Registry) : List Iteration → List LoopEvent × LoopExit
  | [] => ([], .running)
  | it :: rest =>
    if it.stopped then ([], .stopped)
    else
      let r := processMessage reg it.send it.read
      let events := r.calls.map LoopEvent.call ++ r.sent.map LoopEvent.send
      match r.completion with
      | .panicked => (events ++ [.logError "Message processing loop panicked"], .recovered)
      | .returned none =>
        let next := messageLoop reg rest
        (events ++ next.1, next.2)
      | .returned (some err) =>
        if err = "read_timeout" ∨ err = "empty_message" ∨ containsSubstr err "timeout" then
          let next := messageLoop reg rest
          (events ++ next.1, next.2)
        else
          let recovery : List LoopEvent :=
            if !it.isOpen then
              [.logInfo "Device connection lost, attempting to reconnect...", .sleep 5000,
                .reopen] ++
                (match it.reopenError with
                  | some _ => [.logError "Failed to reconnect"]
                  | none => [])
            else [.sleep 100]
          let next := messageLoop reg rest
          (events ++ [.logError "Failed to process message"] ++ recovery ++ next.1, next.2)

/-- A command whose handler panics. -/
def panickingCommand : Command :=
  { Name := "guest-fault", Handler := some (fun _ => HandlerOutcome.panics), Enabled := true }

/-- A pass of a loop that is not stopped, over an open transport whose sends
succeed, with the given read. -/
def openPass (read : Except String Payload) : Iteration :=
  { stopped := false, read := read, send := sendOk, isOpen := true, reopenError := none }

/-! ## Starting the agent (`internal/agent/agent.go`) -/

/-- The struct `Agent` (agent.go, lines 21-26) as far as `Start` reads and
writes it, with a count of the `messageLoop` goroutines started so far. -/
structure Agent where
  isRunning : Bool
  loopsStarted : Nat
  deriving DecidableEq, Repr

/-- What a call of `Start` did: the error it returned (`none` is nil), the
agent afterwards, and whether it called the transport's `Open`. -/
structure StartOutcome where
  err : Option String
  agent : Agent
  openCalled : Bool
  deriving DecidableEq, Repr

/-- The method `Agent.Start` (agent.go, lines 47-65). `openResult` is what
the transport's `Open` returns when it is called. -/
def Agent.Start (openResult : Option String) (a : Agent) : StartOutcome :=
  if a.isRunning then
    { err := some "Agent is already running", agent := a, openCalled := false }
  else
    match openResult with
    | some e =>
      { err := some ("failed to open communication device: " ++ e), agent := a
        openCalled := true }
    | none =>
      { err := none
        agent := { a with isRunning := true, loopsStarted := a.loopsStarted + 1 }
        openCalled := true }

/-! ## The test transport (`internal/communication/test_manager.go`) -/

/-- The struct `TestManager` (test_manager.go, lines 14-20): the open flag,
whether `stopChan` has been closed, and the bytes printed to standard output
so far. -/
structure TestManager where
  isOpen : Bool
  stopChanClosed : Bool
  stdout : List Byte
  deriving DecidableEq, Repr

/-- The function `NewTestManager` (test_manager.go, lines 23-27). -/
def NewTestManager : TestManager :=
  { isOpen := false, stopChanClosed := false, stdout := [] }

/-- The method `TestManager.Open` (test_manager.go, lines 30-50). -/
def TestManager.Open (m : TestManager) : Option String × TestManager :=
  if m.isOpen then (some "测试设备已经打开", m)
  else (none, { m with isOpen := true })

/-- The method `TestManager.Close` (test_manager.go, lines 53-65): closing
`stopChan` a second time panics. -/
def TestManager.Close (m : TestManager) : Completion × TestManager :=
  if !m.isOpen then (.returned none, m)
  else if m.stopChanClosed then (.panicked, m)
  else (.returned none, { m with stopChanClosed := true, isOpen := false })

/-- The UTF-8 bytes of the text `QMP响应: ` that `TestManager.SendResponse`
prints before the data. -/
def responseLabel : List Byte :=
  [81, 77, 80, 229, 147, 141, 229, 186, 148, 58, 32]

/-- The UTF-8 bytes of the text `QMP带分隔符响应[0xFF]: ` that
`TestManager.SendDelimitedResponse` prints before the data; its end is the
seven characters `[0xFF]:` and a space. -/
def delimitedLabel : List Byte :=
  [81, 77, 80, 229, 184, 166, 229, 136, 134, 233, 154, 148, 231, 172, 166, 229, 147, 141,
    229, 186, 148, 91, 48, 120, 70, 70, 93, 58, 32]

/-- The method `TestManager.SendResponse` (test_manager.go, lines 100-117):
`fmt.Printf` of the label, the data and a newline on standard output; the
`Flush` of the writer, which nothing was written to, returns nil. -/
def TestManager.SendResponse (m : TestManager) (data : List Byte) :
    Option String × TestManager :=
  if !m.isOpen then (some "测试设备未打开", m)
  else (none, { m with stdout := m.stdout ++ (responseLabel ++ data ++ [10]) })

/-- The method `TestManager.SendDelimitedResponse` (test_manager.go, lines
120-137). -/
def TestManager.SendDelimitedResponse (m : TestManager) (data : List Byte) :
    Option String × TestManager :=
  if !m.isOpen then (some "测试设备未打开", m)
  else (none, { m with stdout := m.stdout ++ (delimitedLabel ++ data ++ [10]) })

/-- A call of `Open` or of `Close` on a transport. -/
inductive TransportCall where
  | open
  | close
  deriving DecidableEq, Repr

/-- A run of `Open` and `Close` calls on a `Manager` whose device can be
detected and opened: how each call came back, up to the first panic. -/
def Manager.runCalls (openFile : String → Option String) :
    Manager → List TransportCall → List Completion
  | _, [] => []
  | m, .open :: rest =>
    let r := Manager.Open (.ok m.devicePath) openFile m
    .returned r.1 :: Manager.runCalls openFile r.2 rest
  | m, .close :: rest =>
    match Manager.Close m with
    | (.panicked, _) => [.panicked]
    | (.returned e, m1) => .returned e :: Manager.runCalls openFile m1 rest

/-- A run of `Open` and `Close` calls on a `TestManager`: how each call came
back, up to the first panic. -/
def TestManager.runCalls : TestManager → List TransportCall → List Completion
  | _, [] => []
  | m, .open :: rest =>
    let r := TestManager.Open m
    .returned r.1 :: TestManager.runCalls r.2 rest
  | m, .close :: rest =>
    match TestManager.Close m with
    | (.panicked, _) => [.panicked]
    | (.returned e, m1) => .returned e :: TestManager.runCalls m1 rest

/-! ## Channels (`internal/agent/channel.go`) -/

/-- An `io.Writer` behind a channel, with its own account of what it did:
the bytes it has taken so far, in order, the number of `Write` calls it has
served, and its behaviour, which gives for call number `k` and the bytes
handed over the count `n` and the error it returns (`none` is nil). -/
structure IoWriter where
  taken : List Byte
  calls : Nat
  policy : Nat → List Byte → Int × Option String

/-- One call of the writer's `Write` on the bytes `p`: what it returns and
the writer afterwards, which has taken the first `n` bytes of `p`. -/
def IoWriter.Write (w : IoWriter) (p : List Byte) : (Int × Option String) × IoWriter :=
  let r := w.policy w.calls p
  (r, { w with taken := w.taken ++ p.take r.1.toNat, calls := w.calls + 1 })

/-- The constants of `ChannelMethod` (channel.go, lines 34-40); `other` is
any further value of the integer type. -/
inductive ChannelMethod where
  | ChannelVirtioSerial
  | ChannelISASerial
  | ChannelUnixListen
  | ChannelVsockListen
  | ChannelTest
  | other
  deriving DecidableEq, Repr

/-- The struct `BaseChannel` (channel.go, lines 67-73) as far as the write
path reads it: the method of its config, the open flag and the writer; a
`writer` of `none` is the nil interface. -/
structure BaseChannel where
  method : ChannelMethod
  isOpen : Bool
  writer : Option IoWriter

/-- The text of a `ChannelError` (channel.go, lines 105-107). -/
def ChannelError (code message : String) : String :=
  code ++ ": " ++ message

/-- The function `NewChannel` (channel.go, lines 76-91) with the five
constructors it calls (lines 215-275): each builds a `BaseChannel` that
holds the config and nothing else. `none` is the return of
`ErrUnsupportedChannelMethod`. -/
def NewChannel (method : ChannelMethod) : Option BaseChannel :=
  match method with
  | .other => none
  | m => some { method := m, isOpen := false, writer := none }

/-- The method `BaseChannel.Open` (channel.go, lines 110-119). -/
def BaseChannel.Open (c : BaseChannel) : Option String × BaseChannel :=
  if c.isOpen then (some (ChannelError "ChannelAlreadyOpen" "通道已经打开"), c)
  else (none, { c with isOpen := true })

/-- The method `BaseChannel.Write` (channel.go, lines 170-186): what it
returns and the channel afterwards. -/
def BaseChannel.Write (c : BaseChannel) (data : List Byte) :
    (Int × Option String) × BaseChannel :=
  if !c.isOpen then ((0, some (ChannelError "ChannelNotOpen" "通道未打开")), c)
  else
    match c.writer with
    | none => ((0, some (ChannelError "NoWriter" "没有可用的写入器")), c)
    | some w => ((w.Write data).1, { c with writer := some (w.Write data).2 })

/-- The loop of `WriteAll` (channel.go, lines 197-204) from a value of
`written`: each pass writes `data[written:]` and adds the count returned;
the slice expression panics on a negative `written`. The result is how the
call came back and the channel afterwards; `none` is a loop that has not
ended within the fuel. -/
def BaseChannel.writeAllLoop (data : List Byte) :
    Nat → BaseChannel → Int → Option (Completion × BaseChannel)
  | fuel, c, written =>
    if written < data.length then
      match fuel with
      | 0 => none
      | fuel + 1 =>
        if written < 0 then some (.panicked, c)
        else
          match c.Write (data.drop written.toNat) with
          | ((_, some err), c1) => some (.returned (some err), c1)
          | ((n, none), c1) => BaseChannel.writeAllLoop data fuel c1 (written + n)
    else some (.returned none, c)

/-- The method `BaseChannel.WriteAll` (channel.go, lines 189-207) with the
given fuel for its loop. -/
def BaseChannel.WriteAll (c : BaseChannel) (fuel : Nat) (data : List Byte) :
    Option (Completion × BaseChannel) :=
  if !c.isOpen then some (.returned (some (ChannelError "ChannelNotOpen" "通道未打开")), c)
  else BaseChannel.writeAllLoop data fuel c 0

/-- A writer that has taken nothing yet and takes at most three bytes in a
call. -/
def threeByteWriter : IoWriter :=
  { taken := [], calls := 0, policy := fun _ p => ((min p.length 3 : Nat), none) }

/-! ## Memory blocks (`internal/commands/memory_commands.go`) -/

/-- The constant `MB` of memory_commands.go. -/
def MB : Int := 1024 * 1024

/-- The constant `GB` of memory_commands.go. -/
def GB : Int := 1024 * MB

/-- The struct `GuestMemoryBlock` (types.go, lines 196-200). -/
structure GuestMemoryBlock where
  PhysIndex : Int
  Online : Bool
  CanOffline : Bool
  deriving DecidableEq, Repr

/-- The block size by the `switch` on the total memory (memory_commands.go,
lines 94-101 and 167-174). -/
def initialBlockSize (totalMemory : Int) : Int :=
  if totalMemory < 4 * GB then 256 * MB
  else if totalMemory < 16 * GB then 512 * MB
  else 1 * GB

/-- The count `int(totalMemory / blockSize)`, plus one when the remainder is
positive (memory_commands.go, lines 104-107); Go's `/` and `%` truncate
toward zero. -/
def blockCount (totalMemory blockSize : Int) : Int :=
  let numBlocks := totalMemory.tdiv blockSize
  if totalMemory.tmod blockSize > 0 then numBlocks + 1 else numBlocks

/-- The block size and the number of blocks `getMemoryBlocks` arrives at
(memory_commands.go, lines 88-131). -/
def memoryBlockPlan (totalMemory : Int) : Int × Int :=
  let blockSize := initialBlockSize totalMemory
  let numBlocks := blockCount totalMemory blockSize
  let plan : Int × Int :=
    if numBlocks < 8 then
      let blockSize := totalMemory.tdiv 8
      let blockSize := if blockSize < 128 * MB then 128 * MB else blockSize
      (blockSize, blockCount totalMemory blockSize)
    else if numBlocks > 32 then
      let blockSize := totalMemory.tdiv 32
      (blockSize, blockCount totalMemory blockSize)
    else (blockSize, numBlocks)
  if plan.2 = 0 then (plan.1, 1) else plan

/-- The function `getMemoryBlocks` (memory_commands.go, lines 75-150).
`totalMemory` is what `getTotalMemory` returns. -/
def getMemoryBlocks (totalMemory : Except String Int) : Except String (List GuestMemoryBlock) :=
  match totalMemory with
  | .error err => .error err
  | .ok total =>
    let numBlocks := (memoryBlockPlan total).2
    .ok ((List.range numBlocks.toNat).map fun (i : Nat) =>
      { PhysIndex := (i : Int), Online := true, CanOffline := false })

/-- The function `getMemoryBlockInfo` (memory_commands.go, lines 153-195):
the `Size` of the `GuestMemoryBlockInfo` it returns. -/
def getMemoryBlockInfo (totalMemory : Except String Int) : Except String Int :=
  match totalMemory with
  | .error err => .error err
  | .ok total =>
    let blockSize := initialBlockSize total
    let numBlocks := blockCount total blockSize
    if numBlocks < 8 then
      let blockSize := total.tdiv 8
      .ok (if blockSize < 128 * MB then 128 * MB else blockSize)
    else if numBlocks > 32 then .ok (total.tdiv 32)
    else .ok blockSize

/-! ## String functions of the Go library used by the parsers -/

/-- The call `strings.Split(s, sep)` for a separator of one character, on
character lists: the pieces between the separators, an empty text giving one
empty piece. -/
def splitChars (sep : Char) : List Char → List (List Char)
  | [] => [[]]
  | c :: cs =>
    if c = sep then [] :: splitChars sep cs
    else
      match splitChars sep cs with
      | p :: ps => (c :: p) :: ps
      | [] => [[c]]

/-- The call `strings.Split(s, sep)` for a separator of one character. -/
def Split (s : String) (sep : Char) : List String :=
  (splitChars sep s.data).map String.mk

/-- The call `strings.SplitN(s, sep, 2)` for a separator of one character:
the text before the first separator and the text after it, or the text
alone when it holds no separator. -/
def SplitN2 (s : String) (sep : Char) : List String :=
  if s.data.contains sep then
    [String.mk (s.data.takeWhile fun c => c != sep),
      String.mk ((s.data.dropWhile fun c => c != sep).drop 1)]
  else [s]

/-- The loop of `strings.Fields` with the field being read, in reverse, as
accumulator. -/
def fieldsAux : List Char → List Char → List (List Char)
  | [], cur => if cur.isEmpty then [] else [cur.reverse]
  | c :: cs, cur =>
    if isSpace c then
      if cur.isEmpty then fieldsAux cs [] else cur.reverse :: fieldsAux cs []
    else fieldsAux cs (c :: cur)

/-- The call `strings.Fields`: the maximal runs of characters that are not
white space. -/
def Fields (s : String) : List String :=
  (fieldsAux s.data []).map String.mk

/-- The call `strings.Trim(s, " ")`. -/
def TrimBlanks (s : String) : String :=
  String.mk
    ((s.data.dropWhile fun c => c == ' ').reverse.dropWhile fun c => c == ' ').reverse

/-- The call `strings.HasPrefix`. -/
def HasPrefix (s start : String) : Bool :=
  start.data.isPrefixOf s.data

/-- The value of a run of decimal digits read after the value `acc`; `none`
when a character is not a digit. -/
def digitsValue : List Char → Nat → Option Nat
  | [], acc => some acc
  | c :: cs, acc =>
    if '0' ≤ c ∧ c ≤ '9' then digitsValue cs (acc * 10 + (c.toNat - '0'.toNat)) else none

/-- The call `strconv.ParseInt(s, 10, 64)`, which is also `strconv.Atoi` on a
64-bit platform: an optional sign and at least one decimal digit, within the
range of `int64`; `none` is an error. -/
def ParseInt (s : String) : Option Int :=
  let parse (neg : Bool) (digits : List Char) : Option Int :=
    if digits.isEmpty then none
    else
      match digitsValue digits 0 with
      | none => none
      | some v =>
        if neg then (if v ≤ 2 ^ 63 then some (-(v : Int)) else none)
        else if v < 2 ^ 63 then some (v : Int) else none
  match s.data with
  | [] => none
  | '+' :: rest => parse false rest
  | '-' :: rest => parse true rest
  | digits => parse false digits

/-! ## Disks (`internal/commands/get_disks.go`) -/

/-- The struct `GuestPCIAddress` (types.go, lines 166-171). -/
structure GuestPCIAddress where
  Domain : Int
  Bus : Int
  Slot : Int
  Function : Int
  deriving DecidableEq, Repr

/-- The struct `GuestDiskAddress` (types.go, lines 174-182). -/
structure GuestDiskAddress where
  PCIController : GuestPCIAddress
  BusType : String
  Bus : Int
  Target : Int
  Unit : Int
  Serial : String
  Dev : String
  deriving DecidableEq, Repr

/-- The struct `GuestPartitionInfo` (types.go, lines 219-223). -/
structure GuestPartitionInfo where
  Number : Int
  Name : String
  Size : Int
  deriving DecidableEq, Repr

/-- The struct `GuestDiskInfo` (types.go, lines 208-216). -/
structure GuestDiskInfo where
  Name : String
  Partition : Bool
  Address : Option GuestDiskAddress
  Alias : String
  HasMedia : Bool
  Size : Int
  Partitions : List GuestPartitionInfo
  deriving DecidableEq, Repr

/-- The state of the loop of `parseDiskUtilOutput`: the disks appended so
far and the disk being read (`none` is the nil pointer). -/
structure DiskParse where
  disks : List GuestDiskInfo
  currentDisk : Option GuestDiskInfo
  deriving DecidableEq, Repr

/-- The disk record that `parseDiskUtilOutput` starts for a header line
(get_disks.go, lines 73-97). `sizeStr` is what `getDiskSize` returns for the
name. -/
def newDisk (diskName sizeStr : String) : GuestDiskInfo :=
  let disk : GuestDiskInfo :=
    { Name := diskName
      Partition := false
      HasMedia := true
      Address := some
        { BusType := "unknown", Bus := -1, Target := -1, Unit := -1
          PCIController := { Domain := -1, Bus := -1, Slot := -1, Function := -1 }
          Serial := "", Dev := diskName }
      Alias := "", Size := 0, Partitions := [] }
  if sizeStr ≠ "" then
    match ParseInt sizeStr with
    | some size => { disk with Size := size }
    | none => disk
  else disk

/-- One pass of the loop of `parseDiskUtilOutput` (get_disks.go, lines
58-116) on a line of the output. `getDiskSize` is the function of that name,
which asks `diskutil`. -/
def parseDiskLine (getDiskSize : String → String) (st : DiskParse) (rawLine : String) :
    DiskParse :=
  let line := TrimSpace rawLine
  if line = "" then st
  else if HasPrefix line "/dev/disk" && !containsSubstr line "s" then
    let disks :=
      match st.currentDisk with
      | some d => st.disks ++ [d]
      | none => st.disks
    let diskName := (Split line ' ').headD ""
    { disks := disks, currentDisk := some (newDisk diskName (getDiskSize diskName)) }
  else
    match st.currentDisk with
    | none => st
    | some cur =>
      if containsSubstr line ":" then
        match SplitN2 line ':' with
        | [before, after] =>
          if containsSubstr before " " then
            match Fields before with
            | [] => st
            | first :: _ =>
              match ParseInt (TrimBlanks first) with
              | some num =>
                { st with
                  currentDisk := some
                    { cur with
                      Partitions :=
                        cur.Partitions ++ [{ Number := num, Name := TrimSpace after, Size := 0 }] } }
              | none => st
          else st
        | _ => st
      else st

/-- The function `parseDiskUtilOutput` (get_disks.go, lines 53-124): the
disks it returns; its error is always nil. -/
def parseDiskUtilOutput (getDiskSize : String → String) (output : String) :
    List GuestDiskInfo :=
  let st := (Split output '\n').foldl (parseDiskLine getDiskSize) { disks := [], currentDisk := none }
  match st.currentDisk with
  | some d => st.disks ++ [d]
  | none => st.disks

/-! ## Users (`internal/commands/get_users.go`) -/

/-- The struct `GuestUser` (types.go, lines 75-79); the login time is kept
as the Unix time in seconds. -/
structure GuestUser where
  User : String
  Domain : String
  LoginTime : Int
  deriving DecidableEq, Repr

/-- What a call of `parseWhoLine` comes to: it returns a pointer (`none` is
nil), or it panics. -/
inductive WhoResult where
  | returns (user : Option GuestUser)
  | panics
  deriving DecidableEq, Repr

/-- The function `parseWhoLine` (get_users.go, lines 70-103). `loginTime`
stands for lines 84-95: the Unix time worked out from the joined time text
and the clock. The slice `fields[2:5]` of a slice of length and capacity
below 5 panics. -/
def parseWhoLine (loginTime : String → Int) (line : String) : WhoResult :=
  let fields := Fields line
  if fields.length < 4 then .returns none
  else
    let username := fields.headD ""
    if fields.length < 5 then .panics
    else
      let timeStr := " ".intercalate ((fields.drop 2).take 3)
      .returns (some { User := username, LoginTime := loginTime timeStr, Domain := "" })

/-! ## Theorems: gating state -/

theorem rangeFinds_iff (cmdName : String) (xs : List String) :
    rangeFinds cmdName xs = true ↔ cmdName ∈ xs := by
  induction xs with
  | nil => simp [rangeFinds]
  | cons x xs ih =>
    by_cases h : cmdName = x
    · simp [rangeFinds, h]
    · simp [rangeFinds, h, ih]

theorem wrapInt64_add_wrap (x y : Int) : wrapInt64 (wrapInt64 x + y) = wrapInt64 (x + y) := by
  unfold wrapInt64
  omega

theorem wrapInt64_of_range (x : Int) (h1 : -(2 : Int) ^ 63 ≤ x) (h2 : x < 2 ^ 63) :
    wrapInt64 x = x := by
  unfold wrapInt64
  omega

theorem GetFdHandleTimes_values (n : Nat) :
    ∀ (s : GAState) (c : Int), s.PersistentState = some { FdCounter := c } →
      ∃ s1, GetFdHandleTimes n s =
        some ((List.range n).map (fun (i : Nat) => wrapInt64 (c + 1 + (i : Int))), s1) := by
  induction n with
  | zero => intro s c _; exact ⟨s, rfl⟩
  | succ n ih =>
    intro s c hs
    obtain ⟨s1, h1⟩ := ih { s with PersistentState := some { FdCounter := wrapInt64 (c + 1) } }
      (wrapInt64 (c + 1)) rfl
    refine ⟨s1, ?_⟩
    simp only [GetFdHandleTimes, GetFdHandle, hs, h1]
    rw [List.range_succ_eq_map]
    simp only [List.map_cons, List.map_map, Nat.cast_zero, add_zero]
    congr 3
    apply List.map_congr_left
    intro i _
    simp only [Function.comp]
    rw [add_assoc (wrapInt64 (c + 1)), wrapInt64_add_wrap]
    congr 1
    push_cast
    ring


theorem allowed_of_frozen (s : GAState) (cmdName : String) (hf : s.Frozen = true) :
    IsCommandAllowed s cmdName = true ↔ cmdName ∈ allowedWhenFrozen := by
  simp [IsCommandAllowed, hf, rangeFinds_iff]

theorem allowed_of_unfrozen (s : GAState) (cmdName : String) (hf : s.Frozen = false) :
    IsCommandAllowed s cmdName = true ↔
      cmdName ∉ s.BlockedRPCs ∧ (s.AllowedRPCs = [] ∨ cmdName ∈ s.AllowedRPCs) := by
  unfold IsCommandAllowed
  simp only [hf, Bool.false_eq_true, if_false]
  by_cases hb : cmdName ∈ s.BlockedRPCs
  · simp [(rangeFinds_iff cmdName s.BlockedRPCs).2 hb, hb]
  · have hb2 : rangeFinds cmdName s.BlockedRPCs = false := by
      rw [← Bool.not_eq_true, rangeFinds_iff]; exact hb
    by_cases ha : s.AllowedRPCs = []
    · simp [hb2, hb, ha]
    · have hlen : s.AllowedRPCs.length > 0 := List.length_pos.2 ha
      simp [hb2, hb, ha, hlen, rangeFinds_iff]

/-- C1: in a frozen state, whatever the block list and the allow list hold,
`IsCommandAllowed` accepts a name exactly when it is one of `guest-ping`,
`guest-info`, `guest-sync`, `guest-sync-delimited`, `guest-fsfreeze-status`
and `guest-fsfreeze-thaw`. -/
theorem IsCommandAllowed_frozen_iff (s : GAState) (cmdName : String) (hf : s.Frozen = true) :
    IsCommandAllowed s cmdName = true ↔
      (cmdName = "guest-ping" ∨ cmdName = "guest-info" ∨ cmdName = "guest-sync" ∨
        cmdName = "guest-sync-delimited" ∨ cmdName = "guest-fsfreeze-status" ∨
        cmdName = "guest-fsfreeze-thaw") := by
  rw [allowed_of_frozen s cmdName hf]
  simp [allowedWhenFrozen]

theorem IsCommandAllowed_frozen_iff_witness :
    frozenBlockedState.Frozen = true ∧
      (IsCommandAllowed frozenBlockedState "guest-ping" = true ↔
        ("guest-ping" = "guest-ping" ∨ "guest-ping" = "guest-info" ∨ "guest-ping" = "guest-sync" ∨
          "guest-ping" = "guest-sync-delimited" ∨ "guest-ping" = "guest-fsfreeze-status" ∨
          "guest-ping" = "guest-fsfreeze-thaw")) :=
  ⟨rfl, IsCommandAllowed_frozen_iff frozenBlockedState "guest-ping" rfl⟩

/-- C2: in a state that is not frozen, `IsCommandAllowed` accepts a name
exactly when the name is not in `BlockedRPCs` and `AllowedRPCs` is empty or
holds the name; a name in both lists is denied. -/
theorem IsCommandAllowed_unfrozen_iff (s : GAState) (cmdName : String) (hf : s.Frozen = false) :
    (IsCommandAllowed s cmdName = true ↔
      cmdName ∉ s.BlockedRPCs ∧ (s.AllowedRPCs = [] ∨ cmdName ∈ s.AllowedRPCs)) ∧
    (cmdName ∈ s.BlockedRPCs → cmdName ∈ s.AllowedRPCs → IsCommandAllowed s cmdName = false) := by
  refine ⟨allowed_of_unfrozen s cmdName hf, fun hb _ => ?_⟩
  rw [← Bool.not_eq_true, allowed_of_unfrozen s cmdName hf]
  exact fun h => h.1 hb

theorem IsCommandAllowed_unfrozen_iff_witness :
    bothListsState.Frozen = false ∧ IsCommandAllowed bothListsState "guest-exec" = false :=
  ⟨rfl, (IsCommandAllowed_unfrozen_iff bothListsState "guest-exec" rfl).2
    (by decide) (by decide)⟩

/-- C3, as stated, fails: with `guest-ping` on the block list, or with an
allow list that does not hold it, `guest-ping` is accepted in the frozen
state and denied in the state that is not frozen, the lists being the same. -/
theorem frozen_not_narrower_counterexample :
    (IsCommandAllowed (SetFrozen { NewGAState with BlockedRPCs := ["guest-ping"] } true)
        "guest-ping" = true ∧
      IsCommandAllowed (SetFrozen { NewGAState with BlockedRPCs := ["guest-ping"] } false)
        "guest-ping" = false) ∧
    (IsCommandAllowed (SetFrozen { NewGAState with AllowedRPCs := ["guest-get-time"] } true)
        "guest-ping" = true ∧
      IsCommandAllowed (SetFrozen { NewGAState with AllowedRPCs := ["guest-get-time"] } false)
        "guest-ping" = false) := by
  decide

/-- C3, amended: a name accepted in the frozen state is one of the six
frozen-mode names, and it is accepted with the same lists in the state that
is not frozen whenever it is not on the block list and the allow list is
empty or holds it. -/
theorem frozen_allowed_then_unfrozen (s : GAState) (cmdName : String)
    (h : IsCommandAllowed (SetFrozen s true) cmdName = true)
    (hb : cmdName ∉ s.BlockedRPCs) (ha : s.AllowedRPCs = [] ∨ cmdName ∈ s.AllowedRPCs) :
    cmdName ∈ allowedWhenFrozen ∧ IsCommandAllowed (SetFrozen s false) cmdName = true :=
  ⟨(allowed_of_frozen (SetFrozen s true) cmdName rfl).1 h,
    (allowed_of_unfrozen (SetFrozen s false) cmdName rfl).2 ⟨hb, ha⟩⟩

theorem frozen_allowed_then_unfrozen_witness :
    IsCommandAllowed (SetFrozen NewGAState true) "guest-sync" = true ∧
      "guest-sync" ∉ NewGAState.BlockedRPCs ∧
      ("guest-sync" ∈ allowedWhenFrozen ∧
        IsCommandAllowed (SetFrozen NewGAState false) "guest-sync" = true) :=
  ⟨by decide, by decide,
    frozen_allowed_then_unfrozen NewGAState "guest-sync" (by decide) (by decide)
      (Or.inl rfl)⟩


theorem GetFdHandleTimes_last (m : Nat) :
    ∃ vs s1, GetFdHandleTimes (m + 1) NewGAState = some (vs, s1) ∧
      vs.getLast? = some (wrapInt64 (1001 + (m : Int))) ∧
      (vs = (List.range (m + 1)).map (fun (i : Nat) => (1001 : Int) + (i : Int)) →
        wrapInt64 (1001 + (m : Int)) = 1001 + (m : Int)) := by
  obtain ⟨s1, h1⟩ := GetFdHandleTimes_values (m + 1) NewGAState 1000 rfl
  have hlast : ((List.range (m + 1)).map
      (fun (i : Nat) => wrapInt64 (1000 + 1 + (i : Int)))).getLast? =
        some (wrapInt64 (1001 + (m : Int))) := by
    rw [List.range_succ, List.map_append, List.map_singleton, List.getLast?_append]
    rw [List.getLast?_singleton, Option.or]
    norm_num
  refine ⟨_, s1, h1, hlast, ?_⟩
  intro heq
  rw [heq, List.range_succ, List.map_append, List.map_singleton, List.getLast?_append,
    List.getLast?_singleton, Option.or] at hlast
  exact (Option.some.inj hlast).symm



/-- C5, as stated, fails for the largest N: the counter is an `int64`, so
the call number 2^63 - 1000 finds it at 2^63 - 1 and returns -2^63, which is
not 1000 + N and is smaller than every value returned before it. -/
theorem GetFdHandle_wraps_counterexample :
    ∃ vs s1, GetFdHandleTimes (9223372036854774807 + 1) NewGAState = some (vs, s1) ∧
      vs.getLast? = some (-9223372036854775808) ∧
      vs ≠ (List.range (9223372036854774807 + 1)).map
        (fun (i : Nat) => (1001 : Int) + (i : Int)) := by
  obtain ⟨vs, s1, h1, h2, h3⟩ := GetFdHandleTimes_last 9223372036854774807
  have hw : wrapInt64 (1001 + ((9223372036854774807 : Nat) : Int)) = -9223372036854775808 := by
    unfold wrapInt64
    norm_num
  refine ⟨vs, s1, h1, ?_, ?_⟩
  · rw [h2, hw]
  · intro heq
    have h4 := h3 heq
    rw [hw] at h4
    norm_num at h4

/-- C5, amended: for every N from 1 to 2^63 - 1001, N calls of `GetFdHandle`
made one after the other on the state of `NewGAState` return 1001, 1002,
..., 1000 + N in that order; the first is 1001 and each later one is larger
than those before it. -/
theorem GetFdHandle_sequence (N : Nat) (h1 : 1 ≤ N) (h2 : N ≤ 9223372036854774807) :
    ∃ vs s1, GetFdHandleTimes N NewGAState = some (vs, s1) ∧
      vs = (List.range N).map (fun (i : Nat) => (1001 : Int) + (i : Int)) ∧
      vs.head? = some 1001 ∧ vs.length = N ∧ vs.Pairwise (fun a b => a < b) := by
  obtain ⟨s1, hs⟩ := GetFdHandleTimes_values N NewGAState 1000 rfl
  have hvals : (List.range N).map (fun (i : Nat) => wrapInt64 (1000 + 1 + (i : Int))) =
      (List.range N).map (fun (i : Nat) => (1001 : Int) + (i : Int)) := by
    apply List.map_congr_left
    intro i hi
    have hi2 : i < N := List.mem_range.1 hi
    rw [wrapInt64_of_range]
    · ring
    · omega
    · omega
  rw [hvals] at hs
  refine ⟨_, s1, hs, rfl, ?_, ?_, ?_⟩
  · obtain ⟨m, rfl⟩ : ∃ m, N = m + 1 := ⟨N - 1, by omega⟩
    rw [List.range_succ_eq_map]
    rfl
  · rw [List.length_map, List.length_range]
  · rw [List.pairwise_map]
    refine (List.pairwise_lt_range N).imp ?_
    intro a b hab
    omega

theorem GetFdHandle_sequence_witness :
    (1 ≤ 3 ∧ 3 ≤ 9223372036854774807) ∧
      ∃ vs s1, GetFdHandleTimes 3 NewGAState = some (vs, s1) ∧
        vs = (List.range 3).map (fun (i : Nat) => (1001 : Int) + (i : Int)) ∧
        vs.head? = some 1001 ∧ vs.length = 3 ∧ vs.Pairwise (fun a b => a < b) :=
  ⟨by decide, GetFdHandle_sequence 3 (by decide) (by decide)⟩


/-! ## Theorems: command registry and dispatch -/

theorem Registry.get_set_same (reg : Registry) (name : String) (cmd : Option Command) :
    (reg.set name cmd).get name = some cmd := by
  induction reg with
  | nil => simp [Registry.set, Registry.get]
  | cons p rest ih =>
    obtain ⟨k, v⟩ := p
    by_cases h : k = name
    · simp [Registry.set, Registry.get, h]
    · simp [Registry.set, Registry.get, h, ih]

theorem Registry.get_set_other (reg : Registry) (name other : String) (cmd : Option Command)
    (h : other ≠ name) : (reg.set name cmd).get other = reg.get other := by
  induction reg with
  | nil => simp [Registry.set, Registry.get, Ne.symm h]
  | cons p rest ih =>
    obtain ⟨k, v⟩ := p
    by_cases hk : k = name
    · subst hk
      simp [Registry.set, Registry.get, Ne.symm h]
    · by_cases ho : k = other
      · subst ho
        simp [Registry.set, Registry.get, h]
      · simp [Registry.set, Registry.get, hk, ho, ih]

/-- C10: `RegisterCommand` leaves the registry as it is for a nil command
and for a command whose name is empty; for any other command the registry
afterwards maps the command's name to the command, whatever it held under
that name before, and the entry of every other name is the one it was. -/
theorem RegisterCommand_spec (reg : Registry) (cmd : Option Command) :
    (cmd = none → RegisterCommand reg cmd = reg) ∧
    (∀ c, cmd = some c → c.Name = "" → RegisterCommand reg cmd = reg) ∧
    (∀ c, cmd = some c → c.Name ≠ "" →
      (RegisterCommand reg cmd).get c.Name = some (some c) ∧
      ∀ name, name ≠ c.Name → (RegisterCommand reg cmd).get name = reg.get name) := by
  refine ⟨?_, ?_, ?_⟩
  · intro h
    subst h
    rfl
  · intro c hc hname
    subst hc
    simp [RegisterCommand, hname]
  · intro c hc hname
    subst hc
    simp only [RegisterCommand, hname, if_false]
    exact ⟨Registry.get_set_same reg c.Name (some c),
      fun name hne => Registry.get_set_other reg c.Name name (some c) hne⟩

theorem RegisterCommand_spec_witness :
    guestPingCommand.Name ≠ "" ∧
      (RegisterCommand [("guest-ping", some { guestPingCommand with Enabled := false })]
          (some guestPingCommand)).get guestPingCommand.Name = some (some guestPingCommand) ∧
      (∀ name, name ≠ guestPingCommand.Name →
        (RegisterCommand [("guest-ping", some { guestPingCommand with Enabled := false })]
            (some guestPingCommand)).get name =
          Registry.get [("guest-ping", some { guestPingCommand with Enabled := false })] name) :=
  ⟨by decide,
    (RegisterCommand_spec [("guest-ping", some { guestPingCommand with Enabled := false })]
      (some guestPingCommand)).2.2 guestPingCommand rfl (by decide)⟩

theorem HandleCommand_unregistered (reg : Registry) (req : QMPRequest)
    (h : reg.get req.Execute = none) :
    HandleCommand reg req =
      { calls := []
        response := some
          { Return := .nil
            Error := some
              { Class := "CommandNotFound"
                Desc := "The command " ++ req.Execute ++ " has not been found" }
            ID := .nil } } := by
  simp [HandleCommand, h]

theorem HandleCommand_disabled (reg : Registry) (req : QMPRequest) (cmd : Command)
    (h : reg.get req.Execute = some (some cmd)) (hd : cmd.Enabled = false) :
    HandleCommand reg req =
      { calls := []
        response := some
          { Return := .nil
            Error := some
              { Class := "CommandNotFound"
                Desc := "The command " ++ req.Execute ++ " has not been found" }
            ID := .nil } } := by
  simp [HandleCommand, h, hd]

/-- C6: for a request whose command name has no entry in the registry, or
has an entry that is not enabled, `HandleCommand` calls no handler and
returns a response whose error has class `CommandNotFound` and whose
`Return` is nil. -/
theorem HandleCommand_not_found (reg : Registry) (req : QMPRequest)
    (h : reg.get req.Execute = none ∨
      ∃ cmd, reg.get req.Execute = some (some cmd) ∧ cmd.Enabled = false) :
    (HandleCommand reg req).calls = [] ∧
      ∃ resp, (HandleCommand reg req).response = some resp ∧
        resp.Return = .nil ∧
        resp.Error = some
          { Class := "CommandNotFound"
            Desc := "The command " ++ req.Execute ++ " has not been found" } := by
  rcases h with h | ⟨cmd, h, hd⟩
  · rw [HandleCommand_unregistered reg req h]
    exact ⟨rfl, _, rfl, rfl, rfl⟩
  · rw [HandleCommand_disabled reg req cmd h hd]
    exact ⟨rfl, _, rfl, rfl, rfl⟩

theorem HandleCommand_not_found_witness :
    (Registry.get [("guest-ping", some { guestPingCommand with Enabled := false })]
        (QMPRequest.mk "guest-ping" .nil .nil).Execute = none ∨
      ∃ cmd, Registry.get [("guest-ping", some { guestPingCommand with Enabled := false })]
        (QMPRequest.mk "guest-ping" .nil .nil).Execute = some (some cmd) ∧
          cmd.Enabled = false) ∧
    ((HandleCommand [("guest-ping", some { guestPingCommand with Enabled := false })]
        (QMPRequest.mk "guest-ping" .nil .nil)).calls = [] ∧
      ∃ resp, (HandleCommand [("guest-ping", some { guestPingCommand with Enabled := false })]
          (QMPRequest.mk "guest-ping" .nil .nil)).response = some resp ∧
        resp.Return = .nil ∧
        resp.Error = some
          { Class := "CommandNotFound"
            Desc := "The command " ++ (QMPRequest.mk "guest-ping" .nil .nil).Execute ++
              " has not been found" }) :=
  ⟨Or.inr ⟨_, rfl, rfl⟩,
    HandleCommand_not_found [("guest-ping", some { guestPingCommand with Enabled := false })]
      (QMPRequest.mk "guest-ping" .nil .nil) (Or.inr ⟨_, rfl, rfl⟩)⟩

theorem HandleCommand_invokes (reg : Registry) (req : QMPRequest) (cmd : Command)
    (handler : Option JSON → HandlerOutcome) (args : Option JSON)
    (h : reg.get req.Execute = some (some cmd)) (he : cmd.Enabled = true)
    (hh : cmd.Handler = some handler) (ha : argsJSON req = some args) :
    HandleCommand reg req =
      match handler args with
      | .panics => { calls := [{ name := req.Execute, args := args }], response := none }
      | .returns _ (some msg) =>
        { calls := [{ name := req.Execute, args := args }]
          response := some
            { Return := .nil
              Error := some { Class := "GenericError", Desc := msg }
              ID := .nil } }
      | .returns result none =>
        { calls := [{ name := req.Execute, args := args }]
          response := some { Return := result, Error := none, ID := .nil } } := by
  simp only [HandleCommand, h, he, hh, ha]
  rfl

/-- C7: for a request that names a registered, enabled command whose
handler, called on the arguments of the request, returns an error,
`HandleCommand` returns a response whose error has class `GenericError` and
the message of that error as its description, and whose `Return` is nil. -/
theorem HandleCommand_handler_error (reg : Registry) (req : QMPRequest) (cmd : Command)
    (handler : Option JSON → HandlerOutcome) (args : Option JSON) (result : GoValue)
    (msg : String)
    (h : reg.get req.Execute = some (some cmd)) (he : cmd.Enabled = true)
    (hh : cmd.Handler = some handler) (ha : argsJSON req = some args)
    (hr : handler args = .returns result (some msg)) :
    ∃ resp, (HandleCommand reg req).response = some resp ∧
      resp.Error = some { Class := "GenericError", Desc := msg } ∧
      resp.Return = .nil := by
  rw [HandleCommand_invokes reg req cmd handler args h he hh ha, hr]
  exact ⟨_, rfl, rfl, rfl⟩

theorem HandleCommand_handler_error_witness :
    ∃ resp, (HandleCommand
        [("guest-exec", some
          { Name := "guest-exec"
            Handler := some (fun _ => HandlerOutcome.returns GoValue.nil (some "not supported"))
            Enabled := true })]
        (QMPRequest.mk "guest-exec" .nil .nil)).response = some resp ∧
      resp.Error = some { Class := "GenericError", Desc := "not supported" } ∧
      resp.Return = .nil :=
  HandleCommand_handler_error _ (QMPRequest.mk "guest-exec" .nil .nil) _ _ none GoValue.nil
    "not supported" rfl rfl rfl rfl rfl

theorem HandleCommand_response_cases (reg : Registry) (req : QMPRequest) (resp : QMPResponse)
    (h : (HandleCommand reg req).response = some resp) :
    (resp.Return = .nil ∧ resp.Error ≠ none) ∨
    (resp.Error = none ∧ ∃ cmd handler args,
      reg.get req.Execute = some (some cmd) ∧ cmd.Enabled = true ∧
      cmd.Handler = some handler ∧ argsJSON req = some args ∧
      handler args = .returns resp.Return none) := by
  unfold HandleCommand at h
  cases hg : reg.get req.Execute with
  | none =>
    simp only [hg] at h
    cases Option.some.inj h
    exact Or.inl ⟨rfl, by simp⟩
  | some entry =>
    cases entry with
    | none => simp [hg] at h
    | some cmd =>
      simp only [hg] at h
      cases he : cmd.Enabled with
      | false =>
        simp only [he, Bool.not_false, if_true] at h
        cases Option.some.inj h
        exact Or.inl ⟨rfl, by simp⟩
      | true =>
        simp only [he, Bool.not_true, Bool.false_eq_true, if_false] at h
        cases ha : argsJSON req with
        | none =>
          simp only [ha] at h
          cases Option.some.inj h
          exact Or.inl ⟨rfl, by simp⟩
        | some args =>
          simp only [ha] at h
          cases hh : cmd.Handler with
          | none => simp [hh] at h
          | some handler =>
            simp only [hh] at h
            cases hr : handler args with
            | panics => simp [hr] at h
            | returns result err =>
              cases err with
              | some msg =>
                simp only [hr] at h
                cases Option.some.inj h
                exact Or.inl ⟨rfl, by simp⟩
              | none =>
                simp only [hr] at h
                cases Option.some.inj h
                refine Or.inr ⟨rfl, cmd, handler, args, ?_, ?_, ?_, ?_, ?_⟩ <;>
                  first | rfl | assumption

/-- C8, as stated, fails: a registered, enabled handler that returns a nil
result with a nil error makes `HandleCommand` return a response that has
neither a `Return` nor an `Error`. -/
theorem HandleCommand_neither_counterexample :
    ∃ resp, (HandleCommand
        [("guest-noop", some
          { Name := "guest-noop"
            Handler := some (fun _ => HandlerOutcome.returns GoValue.nil none)
            Enabled := true })]
        (QMPRequest.mk "guest-noop" .nil .nil)).response = some resp ∧
      resp.Return = .nil ∧ resp.Error = none :=
  ⟨_, rfl, rfl, rfl⟩

/-- C8, amended: a response returned by `HandleCommand` never carries both
a `Return` and an `Error`, and it carries one of them unless the handler it
called returned a nil result with a nil error. -/
theorem HandleCommand_return_or_error (reg : Registry) (req : QMPRequest) (resp : QMPResponse)
    (h : (HandleCommand reg req).response = some resp) :
    ¬ (resp.Return ≠ .nil ∧ resp.Error ≠ none) ∧
    ((resp.Return = .nil ∧ resp.Error = none) →
      ∃ cmd handler args,
        reg.get req.Execute = some (some cmd) ∧ cmd.Enabled = true ∧
        cmd.Handler = some handler ∧ argsJSON req = some args ∧
        handler args = .returns .nil none) := by
  rcases HandleCommand_response_cases reg req resp h with ⟨h1, h2⟩ | ⟨h1, cmd, handler, args, h3⟩
  · exact ⟨fun hb => hb.1 h1, fun hn => absurd hn.2 h2⟩
  · refine ⟨fun hb => hb.2 h1, fun hn => ⟨cmd, handler, args, ?_⟩⟩
    rw [hn.1] at h3
    exact h3

theorem HandleCommand_return_or_error_witness :
    (HandleCommand pingRegistry (QMPRequest.mk "guest-ping" .nil .nil)).response =
        some { Return := .object [], Error := none, ID := .nil } ∧
      ¬ ((QMPResponse.mk (.object []) none .nil).Return ≠ .nil ∧
        (QMPResponse.mk (.object []) none .nil).Error ≠ none) :=
  ⟨rfl, (HandleCommand_return_or_error pingRegistry (QMPRequest.mk "guest-ping" .nil .nil)
    { Return := .object [], Error := none, ID := .nil } rfl).1⟩

/-! ## Theorems: decoding, marshalling and `processMessage` -/

mutual
theorem marshalValue_decodeValue :
    ∀ (j : JSON) (g : GoValue), decodeValue j = some g → ∃ j1, marshalValue g = some j1
  | .null, g, h => by
    simp only [decodeValue, Option.some.injEq] at h
    subst h
    exact ⟨_, rfl⟩
  | .bool b, g, h => by
    simp only [decodeValue, Option.some.injEq] at h
    subst h
    exact ⟨_, rfl⟩
  | .num n, g, h => by
    simp only [decodeValue] at h
    cases hf : float64OfInt n with
    | none =>
      rw [hf] at h
      simp at h
    | some m =>
      rw [hf] at h
      simp only [Option.map_some', Option.some.injEq] at h
      subst h
      exact ⟨_, rfl⟩
  | .str s, g, h => by
    simp only [decodeValue, Option.some.injEq] at h
    subst h
    exact ⟨_, rfl⟩
  | .arr xs, g, h => by
    simp only [decodeValue, Option.map_eq_some'] at h
    obtain ⟨gs, hgs, rfl⟩ := h
    obtain ⟨js, hjs⟩ := marshalList_decodeList xs gs hgs
    exact ⟨.arr js, by simp [marshalValue, hjs]⟩
  | .obj kvs, g, h => by
    simp only [decodeValue, Option.map_eq_some'] at h
    obtain ⟨gs, hgs, rfl⟩ := h
    obtain ⟨js, hjs⟩ := marshalMembers_decodeMembers kvs gs hgs
    exact ⟨.obj (sortMembers js), by simp [marshalValue, hjs]⟩
theorem marshalList_decodeList :
    ∀ (js : List JSON) (gs : List GoValue), decodeList js = some gs →
      ∃ js1, marshalList gs = some js1
  | [], gs, h => by
    simp only [decodeList, Option.some.injEq] at h
    subst h
    exact ⟨_, rfl⟩
  | x :: xs, gs, h => by
    simp only [decodeList] at h
    split at h
    · rename_i g gs1 h1 h2
      simp only [Option.some.injEq] at h
      subst h
      obtain ⟨a, ha⟩ := marshalValue_decodeValue x g h1
      obtain ⟨b, hb⟩ := marshalList_decodeList xs gs1 h2
      exact ⟨a :: b, by simp [marshalList, ha, hb]⟩
    · simp at h
theorem marshalMembers_decodeMembers :
    ∀ (kvs : List (String × JSON)) (gs : List (String × GoValue)), decodeMembers kvs = some gs →
      ∃ js1, marshalMembers gs = some js1
  | [], gs, h => by
    simp only [decodeMembers, Option.some.injEq] at h
    subst h
    exact ⟨_, rfl⟩
  | (k, x) :: xs, gs, h => by
    simp only [decodeMembers] at h
    split at h
    · rename_i g gs1 h1 h2
      obtain ⟨a, ha⟩ := marshalValue_decodeValue x g h1
      obtain ⟨b, hb⟩ := marshalMembers_decodeMembers xs gs1 h2
      split at h
      · simp only [Option.some.injEq] at h
        subst h
        exact ⟨b, hb⟩
      · simp only [Option.some.injEq] at h
        subst h
        exact ⟨(k, a) :: b, by simp [marshalMembers, ha, hb]⟩
    · simp at h
end

theorem decodeMember_id (acc r : QMPRequest) (k : String) (v : JSON)
    (h : decodeMember acc k v = some r) :
    if foldKey k = "id" then decodeValue v = some r.ID else r.ID = acc.ID := by
  unfold decodeMember at h
  by_cases hid : foldKey k = "id"
  · have h1 : ¬ foldKey k = "execute" := by rw [hid]; decide
    have h2 : ¬ foldKey k = "arguments" := by rw [hid]; decide
    rw [if_neg h1, if_neg h2, if_pos hid] at h
    rw [if_pos hid]
    cases hd : decodeValue v with
    | none => rw [hd] at h; simp at h
    | some g =>
      rw [hd] at h
      simp only [Option.map_some', Option.some.injEq] at h
      subst h
      rfl
  · rw [if_neg hid]
    by_cases h1 : foldKey k = "execute"
    · rw [if_pos h1] at h
      split at h
      · cases Option.some.inj h; rfl
      · cases Option.some.inj h; rfl
      · simp at h
    · by_cases h2 : foldKey k = "arguments"
      · rw [if_neg h1, if_pos h2] at h
        cases hd : decodeValue v with
        | none => rw [hd] at h; simp at h
        | some g =>
          rw [hd] at h
          simp only [Option.map_some', Option.some.injEq] at h
          subst h
          rfl
      · rw [if_neg h1, if_neg h2, if_neg hid] at h
        cases Option.some.inj h
        rfl

theorem decodeMembersInto_id :
    ∀ (kvs : List (String × JSON)) (acc req : QMPRequest),
      decodeMembersInto acc kvs = some req →
      match lastMember "id" kvs with
      | some v => decodeValue v = some req.ID
      | none => req.ID = acc.ID
  | [], acc, req, h => by
    simp only [decodeMembersInto, Option.some.injEq] at h
    subst h
    simp [lastMember]
  | (k, v) :: rest, acc, req, h => by
    simp only [decodeMembersInto] at h
    cases hm : decodeMember acc k v with
    | none => rw [hm] at h; simp at h
    | some r =>
      rw [hm] at h
      simp only at h
      have ih := decodeMembersInto_id rest r req h
      have hk := decodeMember_id acc r k v hm
      simp only [lastMember]
      cases hl : lastMember "id" rest with
      | some w =>
        rw [hl] at ih
        simpa using ih
      | none =>
        rw [hl] at ih
        simp only at ih
        by_cases hid : foldKey k = "id"
        · simp only [hid, if_true] at hk ⊢
          rw [ih]
          exact hk
        · simp only [hid, if_false] at hk ⊢
          rw [ih]
          exact hk

theorem decodeValue_not_raw (v : JSON) (g : GoValue) (hd : decodeValue v = some g) :
    ∀ j, g ≠ .raw j := by
  intro j hj
  subst hj
  cases v with
  | null => simp [decodeValue] at hd
  | bool b => simp [decodeValue] at hd
  | num n => cases hf : float64OfInt n <;> simp [decodeValue, hf] at hd
  | str s => simp [decodeValue] at hd
  | arr xs => cases hf : decodeList xs <;> simp [decodeValue, hf] at hd
  | obj kvs => cases hf : decodeMembers kvs <;> simp [decodeValue, hf] at hd

theorem decodeMember_marshal (acc r : QMPRequest) (k : String) (v : JSON)
    (h : decodeMember acc k v = some r)
    (hi : ∃ j, marshalValue acc.ID = some j) (ha : ∃ j, marshalValue acc.Arguments = some j)
    (hr : ∀ j, acc.Arguments ≠ .raw j) :
    (∃ j, marshalValue r.ID = some j) ∧ (∃ j, marshalValue r.Arguments = some j) ∧
      ∀ j, r.Arguments ≠ .raw j := by
  unfold decodeMember at h
  by_cases h1 : foldKey k = "execute"
  · rw [if_pos h1] at h
    split at h
    · cases Option.some.inj h; exact ⟨hi, ha, hr⟩
    · cases Option.some.inj h; exact ⟨hi, ha, hr⟩
    · simp at h
  · by_cases h2 : foldKey k = "arguments"
    · rw [if_neg h1, if_pos h2] at h
      cases hd : decodeValue v with
      | none => rw [hd] at h; simp at h
      | some g =>
        rw [hd] at h
        simp only [Option.map_some', Option.some.injEq] at h
        subst h
        exact ⟨hi, marshalValue_decodeValue v g hd, decodeValue_not_raw v g hd⟩
    · by_cases h3 : foldKey k = "id"
      · rw [if_neg h1, if_neg h2, if_pos h3] at h
        cases hd : decodeValue v with
        | none => rw [hd] at h; simp at h
        | some g =>
          rw [hd] at h
          simp only [Option.map_some', Option.some.injEq] at h
          subst h
          exact ⟨marshalValue_decodeValue v g hd, ha, hr⟩
      · rw [if_neg h1, if_neg h2, if_neg h3] at h
        cases Option.some.inj h
        exact ⟨hi, ha, hr⟩

theorem decodeMembersInto_marshal :
    ∀ (kvs : List (String × JSON)) (acc req : QMPRequest),
      decodeMembersInto acc kvs = some req →
      (∃ j, marshalValue acc.ID = some j) → (∃ j, marshalValue acc.Arguments = some j) →
      (∀ j, acc.Arguments ≠ .raw j) →
      (∃ j, marshalValue req.ID = some j) ∧ (∃ j, marshalValue req.Arguments = some j) ∧
        ∀ j, req.Arguments ≠ .raw j
  | [], acc, req, h, hi, ha, hr => by
    simp only [decodeMembersInto, Option.some.injEq] at h
    subst h
    exact ⟨hi, ha, hr⟩
  | (k, v) :: rest, acc, req, h, hi, ha, hr => by
    simp only [decodeMembersInto] at h
    cases hm : decodeMember acc k v with
    | none => rw [hm] at h; simp at h
    | some r =>
      rw [hm] at h
      simp only at h
      obtain ⟨hi1, ha1, hr1⟩ := decodeMember_marshal acc r k v hm hi ha hr
      exact decodeMembersInto_marshal rest r req h hi1 ha1 hr1

theorem ParseRequest_marshal (data : Payload) (req : QMPRequest)
    (h : ParseRequest data = some req) :
    (∃ j, marshalValue req.ID = some j) ∧ (∃ j, marshalValue req.Arguments = some j) ∧
      ∀ j, req.Arguments ≠ .raw j := by
  unfold ParseRequest at h
  have hz : ∀ r : QMPRequest, r = { Execute := "", Arguments := .nil, ID := .nil } →
      (∃ j, marshalValue r.ID = some j) ∧ (∃ j, marshalValue r.Arguments = some j) ∧
        ∀ j, r.Arguments ≠ .raw j := by
    intro r hr
    subst hr
    exact ⟨⟨_, rfl⟩, ⟨_, rfl⟩, fun j hj => by cases hj⟩
  cases data with
  | invalid => simp at h
  | json j =>
    cases j with
    | null =>
      simp only [Option.some.injEq] at h
      exact hz req h.symm
    | obj kvs =>
      simp only at h
      obtain ⟨h1, h2, h3⟩ := hz _ rfl
      exact decodeMembersInto_marshal kvs _ req h h1 h2 h3
    | bool b => simp at h
    | num n => simp at h
    | str s => simp at h
    | arr xs => simp at h

theorem argsJSON_of_marshal (req : QMPRequest) (h : ∃ j, marshalValue req.Arguments = some j) :
    ∃ args, argsJSON req = some args := by
  obtain ⟨j, hj⟩ := h
  unfold argsJSON
  cases ha : req.Arguments <;> rw [ha] at hj <;> simp_all

theorem marshalOmitEmpty_cases (name : String) (v : GoValue) (h : ∃ j, marshalValue v = some j) :
    ∃ i, marshalOmitEmpty name v = some i ∧
      ((v = .nil ∧ i = []) ∨ (v ≠ .nil ∧ ∃ j, marshalValue v = some j ∧ i = [(name, j)])) := by
  obtain ⟨j, hj⟩ := h
  cases v with
  | nil => exact ⟨[], rfl, Or.inl ⟨rfl, rfl⟩⟩
  | typedNil => exact ⟨[(name, j)], by simp [marshalOmitEmpty, hj], Or.inr ⟨by simp, j, hj, rfl⟩⟩
  | bool b => exact ⟨[(name, j)], by simp [marshalOmitEmpty, hj], Or.inr ⟨by simp, j, hj, rfl⟩⟩
  | number n => exact ⟨[(name, j)], by simp [marshalOmitEmpty, hj], Or.inr ⟨by simp, j, hj, rfl⟩⟩
  | str s => exact ⟨[(name, j)], by simp [marshalOmitEmpty, hj], Or.inr ⟨by simp, j, hj, rfl⟩⟩
  | array xs => exact ⟨[(name, j)], by simp [marshalOmitEmpty, hj], Or.inr ⟨by simp, j, hj, rfl⟩⟩
  | object kvs => exact ⟨[(name, j)], by simp [marshalOmitEmpty, hj], Or.inr ⟨by simp, j, hj, rfl⟩⟩
  | raw r => exact ⟨[(name, j)], by simp [marshalOmitEmpty, hj], Or.inr ⟨by simp, j, hj, rfl⟩⟩
  | unsupported => simp [marshalValue] at hj

theorem processMessage_parsed (reg : Registry) (send : Frame → Option String) (data : Payload)
    (req : QMPRequest) (hp : ParseRequest data = some req) :
    processMessage reg send (.ok data) =
      match (HandleCommand reg req).response with
      | none => { calls := (HandleCommand reg req).calls, sent := [], completion := .panicked }
      | some hr =>
        { calls := (HandleCommand reg req).calls
          sent := (sendResponse send { Return := hr.Return, Error := hr.Error, ID := req.ID }
            (decide (req.Execute = "guest-sync-delimited"))).1
          completion := .returned
            (sendResponse send { Return := hr.Return, Error := hr.Error, ID := req.ID }
              (decide (req.Execute = "guest-sync-delimited"))).2 } := by
  have hid : (match req.ID with | .nil => GoValue.nil | id => id) = req.ID := by
    cases req.ID <;> rfl
  simp only [processMessage, hp]
  cases hh : (HandleCommand reg req).response with
  | none => rfl
  | some hr => simp only [hid]

theorem sendResponse_frames (send : Frame → Option String) (resp : QMPResponse) (d : Bool) :
    (sendResponse send resp d).1 =
      [match MarshalResponse resp with
        | some j => { delimited := d, data := some j }
        | none =>
          { delimited := false
            data := MarshalResponse
              { NewErrorResponse "InternalError" "Failed to marshal response" with
                ID := resp.ID } }] := by
  unfold sendResponse
  cases MarshalResponse resp <;> rfl

theorem MarshalResponse_error (e : QMPError) (id : GoValue)
    (hi : ∃ j, marshalValue id = some j) :
    ∃ i, marshalOmitEmpty "id" id = some i ∧
      MarshalResponse { Return := .nil, Error := some e, ID := id } =
        some (.obj (("error", .obj [("class", .str e.Class), ("desc", .str e.Desc)]) :: i)) := by
  obtain ⟨i, hi1, _⟩ := marshalOmitEmpty_cases "id" id hi
  refine ⟨i, hi1, ?_⟩
  have hr : marshalOmitEmpty "return" GoValue.nil = some [] := rfl
  simp only [MarshalResponse, hr, hi1, marshalError, List.nil_append, List.singleton_append]

/-- C4 (counterexample): `processMessage` does not evaluate the gating check.
With `guest-ping` on the block list `IsCommandAllowed` is false for it, yet a
`guest-ping` request is dispatched: the registered handler is invoked and the
response is the handler's `return`, not a `CommandNotFound` error. -/
theorem processMessage_gating_counterexample :
    IsCommandAllowed pingBlockedState "guest-ping" = false ∧
      (processMessage pingRegistry sendOk
        (.ok (.json (.obj [("execute", .str "guest-ping")])))).calls =
        [{ name := "guest-ping", args := none }] ∧
      (processMessage pingRegistry sendOk
        (.ok (.json (.obj [("execute", .str "guest-ping")])))).sent =
        [{ delimited := false, data := some (.obj [("return", .obj [])]) }] :=
  ⟨by decide, rfl, rfl⟩

/-- C4 (amended): `processMessage` dispatches a decoded request on the
registry alone, whatever `IsCommandAllowed` says of its name. Even when the
gating check of a state denies the name, a command that is registered,
enabled and has a handler is invoked exactly once, with the arguments of the
request; and a name that is not registered, or whose command is disabled, is
answered by one frame holding a `CommandNotFound` error and no `return`,
without any handler call. -/
theorem processMessage_dispatch_ungated (s : GAState) (reg : Registry)
    (send : Frame → Option String) (data : Payload) (req : QMPRequest)
    (hp : ParseRequest data = some req)
    (_hdenied : IsCommandAllowed s req.Execute = false) :
    (∀ cmd handler, reg.get req.Execute = some (some cmd) → cmd.Enabled = true →
        cmd.Handler = some handler →
        ∃ args, argsJSON req = some args ∧
          (processMessage reg send (.ok data)).calls = [{ name := req.Execute, args := args }]) ∧
      ((reg.get req.Execute = none ∨
          ∃ cmd, reg.get req.Execute = some (some cmd) ∧ cmd.Enabled = false) →
        (processMessage reg send (.ok data)).calls = [] ∧
          ∃ j, (processMessage reg send (.ok data)).sent =
              [{ delimited := decide (req.Execute = "guest-sync-delimited"), data := some j }] ∧
            j.member "error" = some (.obj [("class", .str "CommandNotFound"),
              ("desc", .str ("The command " ++ req.Execute ++ " has not been found"))]) ∧
            j.member "return" = none) := by
  obtain ⟨hi, ha, _⟩ := ParseRequest_marshal data req hp
  rw [processMessage_parsed reg send data req hp]
  constructor
  · intro cmd handler hg he hh
    obtain ⟨args, hargs⟩ := argsJSON_of_marshal req ha
    refine ⟨args, hargs, ?_⟩
    have hc : (HandleCommand reg req).calls = [{ name := req.Execute, args := args }] := by
      simp only [HandleCommand, hg, he, hargs, hh]
      cases handler args with
      | panics => rfl
      | returns r e => cases e <;> rfl
    cases hr : (HandleCommand reg req).response <;> simp only [hc]
  · intro hnf
    have hd : HandleCommand reg req =
        { calls := []
          response := some
            { Return := .nil
              Error := some
                { Class := "CommandNotFound"
                  Desc := "The command " ++ req.Execute ++ " has not been found" }
              ID := .nil } } := by
      rcases hnf with hn | ⟨cmd, hg, he⟩
      · simp only [HandleCommand, hn]
      · simp [HandleCommand, hg, he]
    obtain ⟨i, hi1, hm⟩ := MarshalResponse_error
      { Class := "CommandNotFound"
        Desc := "The command " ++ req.Execute ++ " has not been found" } req.ID hi
    obtain ⟨_, hi2, hcase⟩ := marshalOmitEmpty_cases "id" req.ID hi
    rw [hi1] at hi2
    cases Option.some.inj hi2
    simp only [hd, sendResponse_frames, hm, true_and]
    refine ⟨_, rfl, ?_, ?_⟩
    · simp [JSON.member, List.lookup]
    · rcases hcase with ⟨_, rfl⟩ | ⟨_, j, _, rfl⟩ <;> simp [JSON.member, List.lookup]

theorem processMessage_dispatch_ungated_witness :
    ∃ args, argsJSON { Execute := "guest-ping", Arguments := .nil, ID := .nil } = some args ∧
      (processMessage pingRegistry sendOk
        (.ok (.json (.obj [("execute", .str "guest-ping")])))).calls =
        [{ name := "guest-ping", args := args }] :=
  (processMessage_dispatch_ungated pingBlockedState pingRegistry sendOk
    (.json (.obj [("execute", .str "guest-ping")]))
    { Execute := "guest-ping", Arguments := .nil, ID := .nil } rfl (by decide)).1
    guestPingCommand handleGuestPing rfl rfl rfl

theorem float64OfInt_exact (n : Int) (h : n.natAbs < 2 ^ 53) : float64OfInt n = some n := by
  have hlt : n.natAbs < 2 ^ 1024 :=
    lt_of_lt_of_le h (Nat.pow_le_pow_right (by decide) (by decide))
  unfold float64OfInt roundFloat64
  rw [if_pos h, if_pos hlt]
  congr 1
  split <;> omega

theorem log2_two_pow_53_succ : Nat.log2 9007199254740993 = 53 := by
  have h1 : Nat.log2 9007199254740993 < 54 := (Nat.log2_lt (by decide)).2 (by norm_num)
  have h2 : ¬ Nat.log2 9007199254740993 < 53 := fun h =>
    absurd ((Nat.log2_lt (by decide)).1 h) (by norm_num)
  omega

theorem float64OfInt_two_pow_53_succ :
    float64OfInt 9007199254740993 = some 9007199254740992 := by
  have hlt : (9007199254740992 : Nat) < 2 ^ 1024 :=
    lt_of_lt_of_le (show (9007199254740992 : Nat) < 2 ^ 54 by norm_num)
      (Nat.pow_le_pow_right (by decide) (by decide))
  have hr : roundFloat64 9007199254740993 = 9007199254740992 := by
    unfold roundFloat64
    rw [log2_two_pow_53_succ]
    norm_num
  unfold float64OfInt
  have hn : (9007199254740993 : Int).natAbs = 9007199254740993 := rfl
  rw [hn, hr]
  simp only [hlt, if_true]
  norm_num

theorem marshalOmitEmpty_keys (name : String) (v : GoValue) (r : List (String × JSON))
    (h : marshalOmitEmpty name v = some r) : r = [] ∨ ∃ j, r = [(name, j)] := by
  unfold marshalOmitEmpty at h
  split at h
  · exact Or.inl (Option.some.inj h).symm
  · cases hm : marshalValue v with
    | none => rw [hm] at h; simp at h
    | some j =>
      rw [hm] at h
      exact Or.inr ⟨j, (Option.some.inj h).symm⟩

theorem MarshalResponse_id (resp : QMPResponse) (j v : JSON)
    (hid : marshalOmitEmpty "id" resp.ID = some [("id", v)])
    (h : MarshalResponse resp = some j) : j.member "id" = some v := by
  unfold MarshalResponse at h
  rw [hid] at h
  cases hr : marshalOmitEmpty "return" resp.Return with
  | none => rw [hr] at h; simp at h
  | some r =>
    rw [hr] at h
    simp only [Option.some.injEq] at h
    subst h
    have he : marshalError resp.Error = [] ∨ ∃ x, marshalError resp.Error = [("error", x)] := by
      cases resp.Error with
      | none => exact Or.inl rfl
      | some e => exact Or.inr ⟨_, rfl⟩
    rcases marshalOmitEmpty_keys "return" resp.Return r hr with rfl | ⟨x, rfl⟩ <;>
      rcases he with he | ⟨y, he⟩ <;> rw [he] <;> simp [JSON.member, List.lookup]

theorem ParseRequest_execute_id (s : String) (v : JSON) :
    ParseRequest (.json (.obj [("execute", .str s), ("id", v)])) =
      (decodeValue v).map fun g => { Execute := s, Arguments := .nil, ID := g } := by
  cases h : decodeValue v with
  | none =>
    have : decodeMember { Execute := s, Arguments := .nil, ID := .nil } "id" v = none := by
      have e : decodeMember { Execute := s, Arguments := .nil, ID := .nil } "id" v =
        (decodeValue v).map fun g => { Execute := s, Arguments := .nil, ID := g } := rfl
      rw [e, h]; rfl
    show (match decodeMember { Execute := s, Arguments := .nil, ID := .nil } "id" v with
      | none => none
      | some r => decodeMembersInto r []) = _
    rw [this]; rfl
  | some g =>
    have : decodeMember { Execute := s, Arguments := .nil, ID := .nil } "id" v =
        some { Execute := s, Arguments := .nil, ID := g } := by
      have e : decodeMember { Execute := s, Arguments := .nil, ID := .nil } "id" v =
        (decodeValue v).map fun g => { Execute := s, Arguments := .nil, ID := g } := rfl
      rw [e, h]; rfl
    show (match decodeMember { Execute := s, Arguments := .nil, ID := .nil } "id" v with
      | none => none
      | some r => decodeMembersInto r []) = _
    rw [this]; rfl

theorem processMessage_id_rounded_parse :
    ParseRequest (.json (.obj [("execute", .str "guest-ping"), ("id", .num 9007199254740993)])) =
      some { Execute := "guest-ping", Arguments := .nil, ID := .number 9007199254740992 } := by
  have h3 : decodeValue (.num 9007199254740993) = some (.number 9007199254740992) := by
    simp only [decodeValue, float64OfInt_two_pow_53_succ, Option.map_some']
  rw [ParseRequest_execute_id, h3]
  rfl

/-- C9 (counterexample): the `id` of a request is not always echoed. A
request whose `id` is `null` is answered without any `id` member, and a
request whose `id` is the number 2^53 + 1 is answered with the `id`
2^53, a different number. -/
theorem processMessage_id_counterexample :
    (processMessage pingRegistry sendOk
        (.ok (.json (.obj [("execute", .str "guest-ping"), ("id", .null)])))).sent =
        [{ delimited := false, data := some (.obj [("return", .obj [])]) }] ∧
      (processMessage pingRegistry sendOk
        (.ok (.json (.obj [("execute", .str "guest-ping"),
          ("id", .num 9007199254740993)])))).sent =
        [{ delimited := false
           data := some (.obj [("return", .obj []), ("id", .num 9007199254740992)]) }] := by
  constructor
  · rfl
  · rw [processMessage_parsed pingRegistry sendOk _ _ processMessage_id_rounded_parse]
    rfl

/-- C9 (amended): for every request object whose last `id` member is a
string, a boolean, or an integer of magnitude below 2^53, and whose dispatch
does not panic, `processMessage` sends exactly one frame, and that frame is a
JSON object whose `id` member is the request's `id` unchanged. -/
theorem processMessage_echoes_id (reg : Registry) (send : Frame → Option String)
    (kvs : List (String × JSON)) (req : QMPRequest) (v : JSON)
    (hp : ParseRequest (.json (.obj kvs)) = some req)
    (hv : lastMember "id" kvs = some v)
    (hs : (∃ s, v = .str s) ∨ (∃ b, v = .bool b) ∨ ∃ n, v = .num n ∧ n.natAbs < 2 ^ 53)
    (hnp : (HandleCommand reg req).response ≠ none) :
    ∃ f j, (processMessage reg send (.ok (.json (.obj kvs)))).sent = [f] ∧
      f.data = some j ∧ j.member "id" = some v := by
  have hdec : decodeValue v = some req.ID := by
    have h := decodeMembersInto_id kvs _ req hp
    rw [hv] at h
    exact h
  have hid : marshalOmitEmpty "id" req.ID = some [("id", v)] := by
    rcases hs with ⟨s, rfl⟩ | ⟨b, rfl⟩ | ⟨n, rfl, hn⟩
    · simp only [decodeValue, Option.some.injEq] at hdec
      rw [← hdec]; rfl
    · simp only [decodeValue, Option.some.injEq] at hdec
      rw [← hdec]; rfl
    · simp only [decodeValue, float64OfInt_exact n hn, Option.map_some',
        Option.some.injEq] at hdec
      rw [← hdec]; rfl
  rw [processMessage_parsed reg send _ req hp]
  cases hr : (HandleCommand reg req).response with
  | none => exact absurd hr hnp
  | some r =>
    simp only [sendResponse_frames]
    cases hm : MarshalResponse { Return := r.Return, Error := r.Error, ID := req.ID } with
    | some j =>
      exact ⟨_, j, rfl, rfl, MarshalResponse_id _ j v hid hm⟩
    | none =>
      obtain ⟨i, hi1, hm2⟩ := MarshalResponse_error
        { Class := "InternalError", Desc := "Failed to marshal response" } req.ID
        (marshalValue_decodeValue v req.ID hdec)
      refine ⟨_, _, rfl, hm2, ?_⟩
      rw [hid] at hi1
      cases Option.some.inj hi1
      simp [JSON.member, List.lookup]

theorem processMessage_echoes_id_witness :
    ∃ f j, (processMessage pingRegistry sendOk
        (.ok (.json (.obj [("execute", .str "guest-ping"), ("id", .str "a1")])))).sent = [f] ∧
      f.data = some j ∧ j.member "id" = some (.str "a1") :=
  processMessage_echoes_id pingRegistry sendOk
    [("execute", .str "guest-ping"), ("id", .str "a1")]
    { Execute := "guest-ping", Arguments := .nil, ID := .str "a1" } (.str "a1")
    rfl rfl (Or.inl ⟨"a1", rfl⟩) (by simp [HandleCommand, pingRegistry, RegisterCommand,
      guestPingCommand, emptyRegistry, Registry.set, Registry.get, argsJSON, handleGuestPing])

/-! ## Theorems: supported commands -/

theorem char_eq_of_toNat (a b : Char) (h : a.toNat = b.toNat) : a = b := by
  rw [← Char.ofNat_toNat a, ← Char.ofNat_toNat b, h]

theorem ltChars_asymm : ∀ (a b : List Char), ltChars a b = true → ltChars b a = false
  | _, [], h => by simp [ltChars] at h
  | [], _ :: _, _ => by simp [ltChars]
  | a :: as, b :: bs, h => by
    simp only [ltChars] at h ⊢
    by_cases h1 : a.toNat < b.toNat
    · have h2 : ¬ b.toNat < a.toNat := by omega
      simp [h2, h1]
    · by_cases h2 : b.toNat < a.toNat
      · simp [h1, h2] at h
      · simp only [h1, h2, if_false] at h ⊢
        exact ltChars_asymm as bs h

theorem ltChars_connected : ∀ (a b : List Char),
    ltChars a b = false → ltChars b a = false → a = b
  | [], [], _, _ => rfl
  | [], _ :: _, h, _ => by simp [ltChars] at h
  | _ :: _, [], _, h => by simp [ltChars] at h
  | a :: as, b :: bs, h, h' => by
    simp only [ltChars] at h h'
    by_cases h1 : a.toNat < b.toNat
    · simp [h1] at h
    · by_cases h2 : b.toNat < a.toNat
      · simp [h2] at h'
      · simp only [h1, h2, if_false] at h h'
        have hab : a = b := char_eq_of_toNat a b (by omega)
        rw [hab, ltChars_connected as bs h h']

theorem ltChars_le_trans : ∀ (a b c : List Char),
    ltChars b a = false → ltChars c b = false → ltChars c a = false
  | [], _, c, _, _ => by
    cases c <;> simp [ltChars]
  | _ :: _, [], _, h, _ => by simp [ltChars] at h
  | _ :: _, _ :: _, [], _, h => by simp [ltChars] at h
  | a :: as, b :: bs, c :: cs, h, h' => by
    simp only [ltChars] at h h' ⊢
    by_cases h1 : b.toNat < a.toNat
    · simp [h1] at h
    · by_cases h2 : c.toNat < b.toNat
      · simp [h2] at h'
      · by_cases h3 : a.toNat < b.toNat
        · have h4 : ¬ c.toNat < a.toNat := by omega
          have h5 : a.toNat < c.toNat := by omega
          simp [h4, h5]
        · by_cases h6 : b.toNat < c.toNat
          · have h4 : ¬ c.toNat < a.toNat := by omega
            have h5 : a.toNat < c.toNat := by omega
            simp [h4, h5]
          · simp only [h1, h2, h3, h6, if_false] at h h'
            have h4 : ¬ c.toNat < a.toNat := by omega
            have h5 : ¬ a.toNat < c.toNat := by omega
            simp only [h4, h5, if_false]
            exact ltChars_le_trans as bs cs h h'

theorem stringLe_total : IsTotal String stringLe :=
  ⟨fun a b => by
    unfold stringLe
    cases h : ltChars b.data a.data with
    | false => exact Or.inl rfl
    | true => exact Or.inr (ltChars_asymm _ _ h)⟩

theorem stringLe_trans : IsTrans String stringLe :=
  ⟨fun a b c hab hbc => ltChars_le_trans a.data b.data c.data hab hbc⟩

theorem stringLt_of_le_of_ne (a b : String) (h : stringLe a b) (hne : a ≠ b) : stringLt a b := by
  unfold stringLt
  unfold stringLe at h
  cases h2 : ltChars a.data b.data with
  | true => rfl
  | false =>
    exfalso
    apply hne
    have := ltChars_connected a.data b.data h2 h
    exact String.ext this

theorem sortStrings_ascending (names : List String) (hn : names.Nodup) :
    List.Pairwise stringLt (sortStrings names) := by
  haveI := stringLe_total
  haveI := stringLe_trans
  have hs : List.Pairwise stringLe (sortStrings names) := List.sorted_insertionSort stringLe names
  have hd : (sortStrings names).Nodup :=
    (List.perm_insertionSort stringLe names).nodup_iff.2 hn
  exact (hs.and hd).imp fun {a b} h => stringLt_of_le_of_ne a b h.1 h.2

theorem mem_sortStrings (names : List String) (x : String) :
    x ∈ sortStrings names ↔ x ∈ names :=
  (List.perm_insertionSort stringLe names).mem_iff

theorem Registry.keys_set (reg : Registry) (name : String) (cmd : Option Command) :
    (reg.set name cmd).map Prod.fst =
      if name ∈ reg.map Prod.fst then reg.map Prod.fst else reg.map Prod.fst ++ [name] := by
  induction reg with
  | nil => simp [Registry.set]
  | cons p rest ih =>
    obtain ⟨k, v⟩ := p
    by_cases h : k = name
    · subst h
      simp [Registry.set]
    · have h' : ¬ name = k := fun e => h e.symm
      simp only [Registry.set, h, if_false, List.map_cons, ih, List.mem_cons, h', false_or]
      split <;> simp

theorem Registry.get_none_of_not_mem (reg : Registry) (name : String)
    (h : name ∉ reg.map Prod.fst) : reg.get name = none := by
  induction reg with
  | nil => rfl
  | cons p rest ih =>
    obtain ⟨k, v⟩ := p
    simp only [List.map_cons, List.mem_cons, not_or] at h
    have hk : ¬ k = name := fun e => h.1 e.symm
    simp [Registry.get, hk, ih h.2]

/-- What holds of a registry that a run of `RegisterCommand` calls built
from the empty map: each key once, none empty, each the name of a command of
the run that is also the command stored under it. -/
theorem registerAll_invariant_step (done : List (Option Command)) (reg : Registry)
    (cmd : Option Command)
    (hn : (reg.map Prod.fst).Nodup)
    (hk : ∀ k, k ∈ reg.map Prod.fst ↔ ∃ c, some c ∈ done ∧ c.Name = k ∧ k ≠ "")
    (hg : ∀ k ∈ reg.map Prod.fst, ∃ c, reg.get k = some (some c) ∧ c.Name = k ∧ some c ∈ done) :
    ((RegisterCommand reg cmd).map Prod.fst).Nodup ∧
      (∀ k, k ∈ (RegisterCommand reg cmd).map Prod.fst ↔
        ∃ c, some c ∈ done ++ [cmd] ∧ c.Name = k ∧ k ≠ "") ∧
      (∀ k ∈ (RegisterCommand reg cmd).map Prod.fst,
        ∃ c, (RegisterCommand reg cmd).get k = some (some c) ∧ c.Name = k ∧
          some c ∈ done ++ [cmd]) := by
  cases cmd with
  | none =>
    refine ⟨hn, ?_, ?_⟩
    · intro k
      rw [show RegisterCommand reg none = reg from rfl, hk k]
      simp
    · intro k hkm
      obtain ⟨c, h1, h2, h3⟩ := hg k hkm
      exact ⟨c, h1, h2, by simp [h3]⟩
  | some c0 =>
    by_cases he : c0.Name = ""
    · have hr : RegisterCommand reg (some c0) = reg := by simp [RegisterCommand, he]
      rw [hr]
      refine ⟨hn, ?_, ?_⟩
      · intro k
        rw [hk k]
        constructor
        · rintro ⟨c, h1, h2, h3⟩
          exact ⟨c, by simp [h1], h2, h3⟩
        · rintro ⟨c, h1, h2, h3⟩
          simp only [List.mem_append, List.mem_singleton, Option.some.injEq] at h1
          rcases h1 with h1 | h1
          · exact ⟨c, h1, h2, h3⟩
          · subst h1
            exact absurd (h2.symm.trans he) h3
      · intro k hkm
        obtain ⟨c, h1, h2, h3⟩ := hg k hkm
        exact ⟨c, h1, h2, by simp [h3]⟩
    · have hr : RegisterCommand reg (some c0) = reg.set c0.Name (some c0) := by
        simp [RegisterCommand, he]
      rw [hr]
      have hkeys := Registry.keys_set reg c0.Name (some c0)
      refine ⟨?_, ?_, ?_⟩
      · rw [hkeys]
        split
        · exact hn
        · rename_i hnm
          exact List.Nodup.append hn (List.nodup_singleton _) (by simpa using hnm)
      · intro k
        have hmem : k ∈ (reg.set c0.Name (some c0)).map Prod.fst ↔
            k ∈ reg.map Prod.fst ∨ k = c0.Name := by
          rw [hkeys]
          split
          · rename_i hm
            constructor
            · exact Or.inl
            · rintro (h | h)
              · exact h
              · rw [h]; exact hm
          · simp
        rw [hmem, hk k]
        constructor
        · rintro (⟨c, h1, h2, h3⟩ | h)
          · exact ⟨c, by simp [h1], h2, h3⟩
          · exact ⟨c0, by simp, h.symm, by rw [h]; exact he⟩
        · rintro ⟨c, h1, h2, h3⟩
          simp only [List.mem_append, List.mem_singleton, Option.some.injEq] at h1
          rcases h1 with h1 | h1
          · exact Or.inl ⟨c, h1, h2, h3⟩
          · subst h1
            exact Or.inr h2.symm
      · intro k hkm
        by_cases hkc : k = c0.Name
        · subst hkc
          exact ⟨c0, Registry.get_set_same reg _ _, rfl, by simp⟩
        · have hkm' : k ∈ reg.map Prod.fst := by
            rw [hkeys] at hkm
            split at hkm
            · exact hkm
            · simp only [List.mem_append, List.mem_singleton] at hkm
              exact hkm.resolve_right hkc
          obtain ⟨c, h1, h2, h3⟩ := hg k hkm'
          exact ⟨c, by rw [Registry.get_set_other reg _ _ _ hkc]; exact h1, h2, by simp [h3]⟩

theorem registerAll_invariant_fold : ∀ (cmds done : List (Option Command)) (reg : Registry),
    (reg.map Prod.fst).Nodup →
    (∀ k, k ∈ reg.map Prod.fst ↔ ∃ c, some c ∈ done ∧ c.Name = k ∧ k ≠ "") →
    (∀ k ∈ reg.map Prod.fst, ∃ c, reg.get k = some (some c) ∧ c.Name = k ∧ some c ∈ done) →
    ((cmds.foldl RegisterCommand reg).map Prod.fst).Nodup ∧
      (∀ k, k ∈ (cmds.foldl RegisterCommand reg).map Prod.fst ↔
        ∃ c, some c ∈ done ++ cmds ∧ c.Name = k ∧ k ≠ "") ∧
      (∀ k ∈ (cmds.foldl RegisterCommand reg).map Prod.fst,
        ∃ c, (cmds.foldl RegisterCommand reg).get k = some (some c) ∧ c.Name = k ∧
          some c ∈ done ++ cmds)
  | [], done, reg, hn, hk, hg => by
    rw [List.append_nil]
    exact ⟨hn, hk, hg⟩
  | cmd :: rest, done, reg, hn, hk, hg => by
    obtain ⟨hn1, hk1, hg1⟩ := registerAll_invariant_step done reg cmd hn hk hg
    have h := registerAll_invariant_fold rest (done ++ [cmd]) (RegisterCommand reg cmd) hn1 hk1 hg1
    rw [List.append_assoc, List.singleton_append] at h
    exact h

theorem registerAll_invariant (cmds : List (Option Command)) :
    ((registerAll cmds).map Prod.fst).Nodup ∧
      (∀ k, k ∈ (registerAll cmds).map Prod.fst ↔ ∃ c, some c ∈ cmds ∧ c.Name = k ∧ k ≠ "") ∧
      (∀ k ∈ (registerAll cmds).map Prod.fst,
        ∃ c, (registerAll cmds).get k = some (some c) ∧ c.Name = k ∧ some c ∈ cmds) := by
  have h := registerAll_invariant_fold cmds [] emptyRegistry (by simp [emptyRegistry])
    (by simp [emptyRegistry]) (by simp [emptyRegistry])
  rw [List.nil_append] at h
  exact h

theorem commandInfos_spec (reg : Registry) : ∀ (names : List String),
    (∀ k ∈ names, ∃ c, reg.get k = some (some c) ∧ c.Name = k) →
    ∃ out, commandInfos reg names = some out ∧ out.map (fun e => e.Name) = names ∧
      ∀ e ∈ out, ∃ c, reg.get e.Name = some (some c) ∧
        e = { Name := c.Name, Enabled := c.Enabled, SuccessResponse := true }
  | [], _ => ⟨[], rfl, rfl, by simp⟩
  | name :: rest, h => by
    obtain ⟨c, hc, hcn⟩ := h name (by simp)
    obtain ⟨out, ho, hm, he⟩ := commandInfos_spec reg rest (fun k hk => h k (by simp [hk]))
    refine ⟨{ Name := c.Name, Enabled := c.Enabled, SuccessResponse := true } :: out, ?_, ?_, ?_⟩
    · simp [commandInfos, hc, ho]
    · simp [hm, hcn]
    · intro e hmem
      rcases List.mem_cons.1 hmem with rfl | hmem
      · exact ⟨c, by simpa [hcn] using hc, rfl⟩
      · exact he e hmem

/-- C11: for a registry built only by `RegisterCommand` calls,
`getSupportedCommands` returns a list whose names are in strictly ascending
order (so no name comes twice), hold exactly the non-empty names of the
registered commands, and each entry carries the name and the `Enabled` flag
of the command the registry holds under that name, with `SuccessResponse`
true. -/
theorem getSupportedCommands_spec (cmds : List (Option Command)) :
    ∃ out, getSupportedCommands (registerAll cmds) = some out ∧
      List.Pairwise stringLt (out.map fun e => e.Name) ∧
      (∀ name, name ∈ (out.map fun e => e.Name) ↔
        ∃ c, some c ∈ cmds ∧ c.Name = name ∧ name ≠ "") ∧
      ∀ e ∈ out, ∃ c, (registerAll cmds).get e.Name = some (some c) ∧ some c ∈ cmds ∧
        e = { Name := c.Name, Enabled := c.Enabled, SuccessResponse := true } := by
  obtain ⟨hn, hk, hg⟩ := registerAll_invariant cmds
  have hkeys : (registerAll cmds).keys = (registerAll cmds).map Prod.fst := hn.dedup
  have hnames : ∀ k ∈ sortStrings (registerAll cmds).keys,
      ∃ c, (registerAll cmds).get k = some (some c) ∧ c.Name = k := by
    intro k hkm
    rw [mem_sortStrings, hkeys] at hkm
    obtain ⟨c, h1, h2, _⟩ := hg k hkm
    exact ⟨c, h1, h2⟩
  obtain ⟨out, ho, hm, he⟩ := commandInfos_spec (registerAll cmds) _ hnames
  refine ⟨out, ho, ?_, ?_, ?_⟩
  · rw [hm]
    exact sortStrings_ascending _ (by rw [hkeys]; exact hn)
  · intro name
    rw [hm, mem_sortStrings, hkeys]
    exact hk name
  · intro e hmem
    obtain ⟨c, h1, h2⟩ := he e hmem
    have hmemk : e.Name ∈ (registerAll cmds).map Prod.fst := by
      have : e.Name ∈ out.map (fun e => e.Name) := List.mem_map_of_mem _ hmem
      rw [hm, mem_sortStrings, hkeys] at this
      exact this
    obtain ⟨c1, h3, _, h5⟩ := hg e.Name hmemk
    have hcc : c = c1 := by
      rw [h1] at h3
      exact Option.some.inj (Option.some.inj h3)
    subst hcc
    exact ⟨c, h1, h5, h2⟩

/-! ## Theorems: decoding of the command name -/

theorem decodeMember_execute (acc r : QMPRequest) (k : String) (v : JSON)
    (h : decodeMember acc k v = some r) :
    if foldKey k = "execute" then
      match v with
      | .str s => r.Execute = s
      | _ => True
    else r.Execute = acc.Execute := by
  unfold decodeMember at h
  by_cases h1 : foldKey k = "execute"
  · rw [if_pos h1] at h
    rw [if_pos h1]
    cases v with
    | str s =>
      simp only [Option.some.injEq] at h
      subst h
      rfl
    | null => trivial
    | bool b => trivial
    | num n => trivial
    | arr xs => trivial
    | obj kvs => trivial
  · rw [if_neg h1] at h
    rw [if_neg h1]
    by_cases h2 : foldKey k = "arguments"
    · rw [if_pos h2] at h
      cases hd : decodeValue v with
      | none => rw [hd] at h; simp at h
      | some g =>
        rw [hd] at h
        simp only [Option.map_some', Option.some.injEq] at h
        subst h
        rfl
    · rw [if_neg h2] at h
      by_cases h3 : foldKey k = "id"
      · rw [if_pos h3] at h
        cases hd : decodeValue v with
        | none => rw [hd] at h; simp at h
        | some g =>
          rw [hd] at h
          simp only [Option.map_some', Option.some.injEq] at h
          subst h
          rfl
      · rw [if_neg h3] at h
        cases Option.some.inj h
        rfl

theorem decodeMembersInto_execute :
    ∀ (kvs : List (String × JSON)) (acc req : QMPRequest),
      decodeMembersInto acc kvs = some req →
      match lastMember "execute" kvs with
      | none => req.Execute = acc.Execute
      | some (.str s) => req.Execute = s
      | some _ => True
  | [], acc, req, h => by
    simp only [decodeMembersInto, Option.some.injEq] at h
    subst h
    simp [lastMember]
  | (k, v) :: rest, acc, req, h => by
    simp only [decodeMembersInto] at h
    cases hm : decodeMember acc k v with
    | none => rw [hm] at h; simp at h
    | some r =>
      rw [hm] at h
      simp only at h
      have ih := decodeMembersInto_execute rest r req h
      have hk := decodeMember_execute acc r k v hm
      simp only [lastMember]
      cases hl : lastMember "execute" rest with
      | some w =>
        rw [hl] at ih
        cases w <;> exact ih
      | none =>
        rw [hl] at ih
        simp only at ih
        by_cases hx : foldKey k = "execute"
        · rw [if_pos hx] at hk
          simp only [hx, if_true]
          cases v with
          | str s =>
            simp only at hk ⊢
            rw [ih, hk]
          | null => trivial
          | bool b => trivial
          | num n => trivial
          | arr xs => trivial
          | obj kvs => trivial
        · rw [if_neg hx] at hk
          simp only [hx, if_false]
          rw [ih, hk]

/-- C12 (counterexample): `ParseRequest` does not require the command. The
object without members and the object whose `execute` is the empty string
both decode, to the zero request. -/
theorem ParseRequest_requires_execute_counterexample :
    ParseRequest (.json (.obj [])) = some zeroRequest ∧
      ParseRequest (.json (.obj [("execute", .str "")])) = some zeroRequest :=
  ⟨rfl, rfl⟩

/-- C12 (amended): `ParseRequest` decodes without validating the command.
Whenever an object that has no `execute` member, or whose last `execute`
member is the empty string, decodes, the request it gives has the empty
command name, and `HandleCommand` on a registry built by `RegisterCommand`
calls answers it with the `CommandNotFound` error without calling a
handler. -/
theorem ParseRequest_without_execute (cmds : List (Option Command))
    (kvs : List (String × JSON)) (req : QMPRequest)
    (hp : ParseRequest (.json (.obj kvs)) = some req)
    (hx : lastMember "execute" kvs = none ∨ lastMember "execute" kvs = some (.str "")) :
    req.Execute = "" ∧
      HandleCommand (registerAll cmds) req =
        { calls := []
          response := some
            { Return := .nil
              Error := some
                { Class := "CommandNotFound"
                  Desc := "The command " ++ "" ++ " has not been found" }
              ID := .nil } } := by
  have he : req.Execute = "" := by
    have h := decodeMembersInto_execute kvs _ req hp
    rcases hx with hx | hx <;> rw [hx] at h <;> exact h
  refine ⟨he, ?_⟩
  obtain ⟨_, hk, _⟩ := registerAll_invariant cmds
  have hnone : (registerAll cmds).get req.Execute = none := by
    apply Registry.get_none_of_not_mem
    rw [hk, he]
    rintro ⟨c, _, _, h3⟩
    exact h3 rfl
  rw [HandleCommand_unregistered _ _ hnone, he]

theorem ParseRequest_without_execute_witness :
    zeroRequest.Execute = "" ∧
      HandleCommand (registerAll [some guestPingCommand]) zeroRequest =
        { calls := []
          response := some
            { Return := .nil
              Error := some
                { Class := "CommandNotFound"
                  Desc := "The command " ++ "" ++ " has not been found" }
              ID := .nil } } :=
  ParseRequest_without_execute [some guestPingCommand] [] zeroRequest rfl (Or.inl rfl)

/-! ## Theorems: the parse failure branch and framing -/

/-- C13: when `ParseRequest` fails on the message read, `processMessage`
calls no handler and hands the transport exactly one frame, through
`SendResponse` (not delimited), whose JSON is the object with the single
member `error` of class `GenericError` and desc `Invalid message format`: no
`return` and no `id`. -/
theorem processMessage_parse_failure (reg : Registry) (send : Frame → Option String)
    (data : Payload) (hp : ParseRequest data = none) :
    (processMessage reg send (.ok data)).calls = [] ∧
      (processMessage reg send (.ok data)).sent =
        [{ delimited := false
           data := some (.obj [("error", .obj [("class", .str "GenericError"),
             ("desc", .str "Invalid message format")])]) }] := by
  have h : processMessage reg send (.ok data) =
      { calls := []
        sent := (sendResponse send (NewErrorResponse "GenericError" "Invalid message format")
          false).1
        completion := .returned
          (sendResponse send (NewErrorResponse "GenericError" "Invalid message format")
            false).2 } := by
    simp only [processMessage, hp]
  rw [h]
  exact ⟨rfl, rfl⟩

theorem processMessage_parse_failure_witness :
    (processMessage pingRegistry sendOk (.ok .invalid)).calls = [] ∧
      (processMessage pingRegistry sendOk (.ok .invalid)).sent =
        [{ delimited := false
           data := some (.obj [("error", .obj [("class", .str "GenericError"),
             ("desc", .str "Invalid message format")])]) }] :=
  processMessage_parse_failure pingRegistry sendOk .invalid rfl

theorem handleGuestSync_cases (args : Option JSON) :
    (∃ n, handleGuestSync args = .returns (.number n) none) ∨
      ∃ msg, handleGuestSync args = .returns .nil (some msg) := by
  unfold handleGuestSync
  cases args with
  | none => exact Or.inr ⟨_, rfl⟩
  | some j =>
    cases j with
    | null => exact Or.inl ⟨0, rfl⟩
    | obj kvs =>
      cases h : decodeSyncArgs kvs 0 with
      | some id => exact Or.inl ⟨id, by simp only [h]⟩
      | none =>
        exact Or.inr ⟨syncArgsError "json: cannot unmarshal into GuestSyncArgs.id",
          by simp only [h]⟩
    | bool b => exact Or.inr ⟨_, rfl⟩
    | num n => exact Or.inr ⟨_, rfl⟩
    | str s => exact Or.inr ⟨_, rfl⟩
    | arr xs => exact Or.inr ⟨_, rfl⟩

theorem HandleCommand_sync_response (reg : Registry) (req : QMPRequest) (cmd : Command)
    (args : Option JSON)
    (hg : reg.get req.Execute = some (some cmd)) (he : cmd.Enabled = true)
    (hh : cmd.Handler = some handleGuestSync) (ha : argsJSON req = some args) :
    (HandleCommand reg req).response =
      match handleGuestSync args with
      | .panics => none
      | .returns _ (some msg) =>
        some ({ Return := .nil, Error := some { Class := "GenericError", Desc := msg },
                ID := .nil } : QMPResponse)
      | .returns result none => some { Return := result, Error := none, ID := .nil } := by
  rw [HandleCommand_invokes reg req cmd handleGuestSync args hg he hh ha]
  cases handleGuestSync args with
  | panics => rfl
  | returns r e => cases e <;> rfl

theorem sync_response_marshals (args : Option JSON) (id : GoValue)
    (hi : ∃ j, marshalValue id = some j) :
    ∃ (hr : QMPResponse) (j : JSON),
      (match handleGuestSync args with
        | .panics => none
        | .returns _ (some msg) =>
          some ({ Return := .nil, Error := some { Class := "GenericError", Desc := msg },
                  ID := .nil } : QMPResponse)
        | .returns result none => some { Return := result, Error := none, ID := .nil }) =
        some hr ∧
      MarshalResponse { Return := hr.Return, Error := hr.Error, ID := id } = some j := by
  obtain ⟨i, hi1, _⟩ := marshalOmitEmpty_cases "id" id hi
  rcases handleGuestSync_cases args with ⟨n, hn⟩ | ⟨msg, hm⟩
  · rw [hn]
    have hr : marshalOmitEmpty "return" (GoValue.number n) = some [("return", .num n)] := rfl
    refine ⟨_, .obj ([("return", .num n)] ++ marshalError none ++ i), rfl, ?_⟩
    simp only [MarshalResponse, hr, hi1]
  · rw [hm]
    have hr : marshalOmitEmpty "return" GoValue.nil = some [] := rfl
    refine ⟨_, .obj ([] ++ marshalError (some { Class := "GenericError", Desc := msg }) ++ i),
      rfl, ?_⟩
    simp only [MarshalResponse, hr, hi1]

theorem argsJSON_congr (r1 r2 : QMPRequest) (h : r1.Arguments = r2.Arguments) :
    argsJSON r1 = argsJSON r2 := by
  unfold argsJSON
  rw [h]

/-- C14: in a registry that holds the sync commands of sync.go, for every
decoded request each frame `processMessage` hands to the transport is
delimited exactly when the command name is `guest-sync-delimited`, and a
`guest-sync-delimited` request is answered by one delimited frame; a
`guest-sync` and a `guest-sync-delimited` request with the same arguments
and id are answered by one frame each, undelimited and delimited, holding the
same payload. -/
theorem processMessage_delimiter (reg : Registry) (send : Frame → Option String)
    (hs : reg.get "guest-sync" = some (some guestSyncCommand))
    (hd : reg.get "guest-sync-delimited" = some (some guestSyncDelimitedCommand)) :
    (∀ data req, ParseRequest data = some req →
        (∀ f ∈ (processMessage reg send (.ok data)).sent,
          f.delimited = true ↔ req.Execute = "guest-sync-delimited") ∧
        (req.Execute = "guest-sync-delimited" →
          ∃ j, (processMessage reg send (.ok data)).sent =
            [{ delimited := true, data := some j }])) ∧
      ∀ data1 data2 req1 req2, ParseRequest data1 = some req1 → ParseRequest data2 = some req2 →
        req1.Execute = "guest-sync" → req2.Execute = "guest-sync-delimited" →
        req1.Arguments = req2.Arguments → req1.ID = req2.ID →
        ∃ j, (processMessage reg send (.ok data1)).sent =
            [{ delimited := false, data := some j }] ∧
          (processMessage reg send (.ok data2)).sent = [{ delimited := true, data := some j }] := by
  have key : ∀ data req (cmd : Command), ParseRequest data = some req →
      reg.get req.Execute = some (some cmd) → cmd.Enabled = true →
      cmd.Handler = some handleGuestSync →
      ∃ (args : Option JSON) (hr : QMPResponse) (j : JSON), argsJSON req = some args ∧
        (match handleGuestSync args with
          | .panics => none
          | .returns _ (some msg) =>
            some ({ Return := .nil, Error := some { Class := "GenericError", Desc := msg },
                    ID := .nil } : QMPResponse)
          | .returns result none => some { Return := result, Error := none, ID := .nil }) =
          some hr ∧
        MarshalResponse { Return := hr.Return, Error := hr.Error, ID := req.ID } = some j ∧
        (processMessage reg send (.ok data)).sent =
          [{ delimited := decide (req.Execute = "guest-sync-delimited"), data := some j }] := by
    intro data req cmd hp hg he hh
    obtain ⟨hi, ha, _⟩ := ParseRequest_marshal data req hp
    obtain ⟨args, hargs⟩ := argsJSON_of_marshal req ha
    obtain ⟨hr, j, h1, h2⟩ := sync_response_marshals args req.ID hi
    refine ⟨args, hr, j, hargs, h1, h2, ?_⟩
    rw [processMessage_parsed reg send data req hp,
      HandleCommand_sync_response reg req cmd args hg he hh hargs, h1]
    simp only [sendResponse_frames, h2]
  constructor
  · intro data req hp
    have hdel : req.Execute = "guest-sync-delimited" →
        ∃ j, (processMessage reg send (.ok data)).sent =
          [{ delimited := true, data := some j }] := by
      intro hx
      obtain ⟨_, _, j, _, _, _, h⟩ :=
        key data req guestSyncDelimitedCommand hp (by rw [hx]; exact hd) rfl rfl
      exact ⟨j, by rw [h]; simp [hx]⟩
    refine ⟨?_, hdel⟩
    intro f hf
    by_cases hx : req.Execute = "guest-sync-delimited"
    · obtain ⟨j, hj⟩ := hdel hx
      rw [hj] at hf
      simp only [List.mem_singleton] at hf
      subst hf
      simp [hx]
    · rw [processMessage_parsed reg send data req hp] at hf
      cases hr : (HandleCommand reg req).response with
      | none =>
        rw [hr] at hf
        simp at hf
      | some r =>
        rw [hr] at hf
        simp only [sendResponse_frames, List.mem_singleton] at hf
        subst hf
        cases MarshalResponse { Return := r.Return, Error := r.Error, ID := req.ID } <;>
          simp [hx]
  · intro data1 data2 req1 req2 hp1 hp2 hx1 hx2 hargs hid
    obtain ⟨a1, r1, j1, ha1, hr1, hm1, hs1⟩ :=
      key data1 req1 guestSyncCommand hp1 (by rw [hx1]; exact hs) rfl rfl
    obtain ⟨a2, r2, j2, ha2, hr2, hm2, hs2⟩ :=
      key data2 req2 guestSyncDelimitedCommand hp2 (by rw [hx2]; exact hd) rfl rfl
    have haa : a1 = a2 := by
      rw [argsJSON_congr req1 req2 hargs, ha2] at ha1
      exact (Option.some.inj ha1).symm
    subst haa
    have hrr : r1 = r2 := by
      rw [hr1] at hr2
      exact Option.some.inj hr2
    subst hrr
    have hjj : j1 = j2 := by
      rw [hid, hm2] at hm1
      exact (Option.some.inj hm1).symm
    subst hjj
    refine ⟨j1, ?_, ?_⟩
    · rw [hs1, hx1]
      rfl
    · rw [hs2, hx2]
      rfl

theorem processMessage_delimiter_witness :
    ∃ j, (processMessage syncRegistry sendOk
          (.ok (.json (.obj [("execute", .str "guest-sync"), ("id", .str "a")])))).sent =
        [{ delimited := false, data := some j }] ∧
      (processMessage syncRegistry sendOk
          (.ok (.json (.obj [("execute", .str "guest-sync-delimited"), ("id", .str "a")])))).sent =
        [{ delimited := true, data := some j }] :=
  (processMessage_delimiter syncRegistry sendOk rfl rfl).2
    (.json (.obj [("execute", .str "guest-sync"), ("id", .str "a")]))
    (.json (.obj [("execute", .str "guest-sync-delimited"), ("id", .str "a")]))
    { Execute := "guest-sync", Arguments := .nil, ID := .str "a" }
    { Execute := "guest-sync-delimited", Arguments := .nil, ID := .str "a" }
    rfl rfl rfl rfl rfl rfl

/-! ## Theorems: `guest-sync` -/

theorem ParseRequest_execute_arguments (s : String) (v : JSON) :
    ParseRequest (.json (.obj [("execute", .str s), ("arguments", v)])) =
      (decodeValue v).map fun g => { Execute := s, Arguments := g, ID := .nil } := by
  have e : decodeMember { Execute := s, Arguments := .nil, ID := .nil } "arguments" v =
      (decodeValue v).map fun g => { Execute := s, Arguments := g, ID := .nil } := rfl
  show (match decodeMember { Execute := s, Arguments := .nil, ID := .nil } "arguments" v with
    | none => none
    | some r => decodeMembersInto r []) = _
  rw [e]
  cases decodeValue v <;> rfl

theorem decodeValue_single_member (k : String) (x : JSON) (g : GoValue)
    (h : decodeValue x = some g) :
    decodeValue (.obj [(k, x)]) = some (.object [(k, g)]) := by
  have h4 : decodeMembers [(k, x)] = some [(k, g)] := by
    simp only [decodeMembers, h, List.any_nil]
    rfl
  simp only [decodeValue, h4, Option.map_some']

theorem decodeValue_two_pow_53_succ :
    decodeValue (.num 9007199254740993) = some (.number 9007199254740992) := by
  simp only [decodeValue, float64OfInt_two_pow_53_succ, Option.map_some']

theorem decodeValue_sync_args_rounded :
    decodeValue (.obj [("id", .num 9007199254740993)]) =
      some (.object [("id", .number 9007199254740992)]) :=
  decodeValue_single_member _ _ _ decodeValue_two_pow_53_succ

/-- C16 (the code at the failing input): the request
`{"execute":"guest-sync","arguments":{"id":9007199254740993}}` decodes, and
`HandleCommand` answers it with the return value 9007199254740992, which
`processMessage` sends as `{"return":9007199254740992}`: not the id that was
passed in. -/
theorem guestSync_rounds_id :
    (ParseRequest (.json (.obj [("execute", .str "guest-sync"),
        ("arguments", .obj [("id", .num 9007199254740993)])]))).map
        (fun req => (HandleCommand syncRegistry req).response) =
      some (some { Return := .number 9007199254740992, Error := none, ID := .nil }) ∧
    (processMessage syncRegistry sendOk
        (.ok (.json (.obj [("execute", .str "guest-sync"),
          ("arguments", .obj [("id", .num 9007199254740993)])])))).sent =
      [{ delimited := false, data := some (.obj [("return", .num 9007199254740992)]) }] := by
  have hp : ParseRequest (.json (.obj [("execute", .str "guest-sync"),
      ("arguments", .obj [("id", .num 9007199254740993)])])) =
      some { Execute := "guest-sync", Arguments := .object [("id", .number 9007199254740992)],
             ID := .nil } := by
    rw [ParseRequest_execute_arguments, decodeValue_sync_args_rounded]
    rfl
  constructor
  · rw [hp]
    rfl
  · rw [processMessage_parsed syncRegistry sendOk _ _ hp]
    rfl

/-! ## Theorems: the device transport -/

theorem Writer.Flush_reliable (w : Writer) (h : w.err = none) :
    Writer.Flush reliableDevice w = (none, { buf := [], err := none, out := w.out ++ w.buf }) := by
  obtain ⟨buf, err, out⟩ := w
  simp only at h
  subst h
  unfold Writer.Flush
  by_cases hb : buf.length = 0
  · have : buf = [] := List.length_eq_zero.1 hb
    subst this
    simp
  · simp [hb, reliableDevice]

theorem Writer.writeLoop_fits (dev : Device) (fuel : Nat) (w : Writer) (p : List Byte)
    (h : ¬ bufferSize - w.buf.length < p.length) :
    Writer.writeLoop dev fuel w p = some (w, p) := by
  cases fuel <;> simp [Writer.writeLoop, h]

theorem Writer.writeLoop_reliable (fuel : Nat) (w : Writer) (p : List Byte)
    (h : w.err = none) :
    ∃ w1 rest, Writer.writeLoop reliableDevice (fuel + 2) w p = some (w1, rest) ∧
      w1.err = none ∧ w1.out ++ (w1.buf ++ rest) = w.out ++ (w.buf ++ p) := by
  obtain ⟨buf, err, out⟩ := w
  simp only at h
  subst h
  by_cases hfit : bufferSize - buf.length < p.length
  · cases buf with
    | nil =>
      refine ⟨{ buf := [], err := none, out := out ++ p }, [], ?_, rfl, ?_⟩
      · have hstep : Writer.writeLoop reliableDevice (fuel + 2) { buf := [], err := none, out := out } p =
            Writer.writeLoop reliableDevice (fuel + 1)
              { buf := [], err := none, out := out ++ p } [] := by
          have hfit0 : bufferSize - 0 < p.length := by simpa using hfit
          rw [Writer.writeLoop]
          simp only [hfit0, and_self, and_true, if_true, List.length_nil, reliableDevice,
            List.take_length, List.drop_length]
        rw [hstep]
        exact Writer.writeLoop_fits reliableDevice (fuel + 1) _ [] (by simp)
      · simp
    | cons b bs =>
      have hflush := Writer.Flush_reliable
        { buf := (b :: bs) ++ p.take (bufferSize - (b :: bs).length), err := none, out := out } rfl
      have hstep : Writer.writeLoop reliableDevice (fuel + 2)
            { buf := b :: bs, err := none, out := out } p =
          Writer.writeLoop reliableDevice (fuel + 1)
            { buf := [], err := none
              out := out ++ ((b :: bs) ++ p.take (bufferSize - (b :: bs).length)) }
            (p.drop (bufferSize - (b :: bs).length)) := by
        rw [Writer.writeLoop]
        have hne : ¬ (b :: bs).length = 0 := by simp
        simp only [hfit, and_self, and_true, if_true, hne, if_false, hflush]
      rw [hstep]
      by_cases hfit2 : bufferSize - 0 < (p.drop (bufferSize - (b :: bs).length)).length
      · refine ⟨{ buf := [], err := none
                  out := out ++ ((b :: bs) ++ p.take (bufferSize - (b :: bs).length)) ++
                    p.drop (bufferSize - (b :: bs).length) }, [], ?_, rfl, ?_⟩
        · rw [Writer.writeLoop]
          simp only [List.length_nil, hfit2, and_self, and_true, if_true, reliableDevice,
            List.take_length, List.drop_length]
          exact Writer.writeLoop_fits reliableDevice fuel _ [] (by simp)
        · simp only [List.nil_append, List.append_nil, List.append_assoc, List.take_append_drop]
      · refine ⟨_, _, Writer.writeLoop_fits _ _ _ _ (by simpa using hfit2), rfl, ?_⟩
        simp only [List.nil_append, List.append_assoc, List.take_append_drop]
  · exact ⟨_, p, Writer.writeLoop_fits _ _ _ _ hfit, rfl, rfl⟩

theorem Writer.Write_reliable (w : Writer) (p : List Byte) (h : w.err = none) :
    ∃ w1, Writer.Write reliableDevice w p = some (none, w1) ∧ w1.err = none ∧
      w1.out ++ w1.buf = w.out ++ w.buf ++ p := by
  obtain ⟨w1, rest, h1, h2, h3⟩ := Writer.writeLoop_reliable p.length w p h
  refine ⟨{ w1 with buf := w1.buf ++ rest }, ?_, h2, ?_⟩
  · simp only [Writer.Write, h1, h2]
  · rw [List.append_assoc]
    exact h3

theorem Manager.SendResponse_reliable (m : Manager) (data : List Byte)
    (ho : m.isOpen = true) (he : m.writer.err = none) (hb : m.writer.buf = []) :
    Manager.SendResponse reliableDevice m data =
      some (none,
        { m with writer := { buf := [], err := none, out := m.writer.out ++ (data ++ [10]) } }) := by
  obtain ⟨w1, h1, e1, o1⟩ := Writer.Write_reliable m.writer data he
  obtain ⟨w2, h2, e2, o2⟩ := Writer.Write_reliable w1 [10] e1
  have h3 := Writer.Flush_reliable w2 e2
  simp only [Manager.SendResponse, ho, h1, h2, h3]
  rw [o2, o1, hb]
  simp

theorem Manager.SendDelimitedResponse_reliable (m : Manager) (data : List Byte)
    (ho : m.isOpen = true) (he : m.writer.err = none) (hb : m.writer.buf = []) :
    Manager.SendDelimitedResponse reliableDevice m data =
      some (none,
        { m with
          writer :=
            { buf := [], err := none, out := m.writer.out ++ ([0xFF] ++ (data ++ [10])) } }) := by
  obtain ⟨w0, h0, e0, o0⟩ := Writer.Write_reliable m.writer [0xFF] he
  obtain ⟨w1, h1, e1, o1⟩ := Writer.Write_reliable w0 data e0
  obtain ⟨w2, h2, e2, o2⟩ := Writer.Write_reliable w1 [10] e1
  have h3 := Writer.Flush_reliable w2 e2
  simp only [Manager.SendDelimitedResponse, ho, h0, h1, h2, h3]
  rw [o2, o1, o0, hb]
  simp

/-- C15: on an open manager whose writer is clean (no pending error, nothing
buffered) and whose device takes every byte, `SendResponse` returns nil
having written exactly the data and one newline byte to the device, and
`SendDelimitedResponse` returns nil having written exactly the byte 0xFF,
the data and one newline byte; nothing stays buffered. -/
theorem Manager_send_bytes (m : Manager) (data : List Byte)
    (ho : m.isOpen = true) (he : m.writer.err = none) (hb : m.writer.buf = []) :
    Manager.SendResponse reliableDevice m data =
        some (none,
          { m with writer := { buf := [], err := none, out := m.writer.out ++ (data ++ [10]) } }) ∧
      Manager.SendDelimitedResponse reliableDevice m data =
        some (none,
          { m with
            writer :=
              { buf := [], err := none, out := m.writer.out ++ ([0xFF] ++ (data ++ [10])) } }) :=
  ⟨Manager.SendResponse_reliable m data ho he hb,
    Manager.SendDelimitedResponse_reliable m data ho he hb⟩

theorem Manager_send_bytes_witness :
    Manager.SendResponse reliableDevice { NewManager "/dev/x" with isOpen := true } [123, 125] =
        some (none,
          { NewManager "/dev/x" with
            isOpen := true
            writer := { buf := [], err := none, out := [] ++ ([123, 125] ++ [10]) } }) ∧
      Manager.SendDelimitedResponse reliableDevice { NewManager "/dev/x" with isOpen := true }
          [123, 125] =
        some (none,
          { NewManager "/dev/x" with
            isOpen := true
            writer := { buf := [], err := none, out := [] ++ ([0xFF] ++ ([123, 125] ++ [10])) } }) :=
  Manager_send_bytes { NewManager "/dev/x" with isOpen := true } [123, 125] rfl rfl rfl

/-! ## Theorems: the supervisory loop -/

theorem wrapped_read_error_timeout (e : String) :
    containsSubstr ("failed to read message: " ++ e) "timeout" = containsSubstr e "timeout" := by
  have hd : ("failed to read message: " ++ e).data =
      ['f', 'a', 'i', 'l', 'e', 'd', ' ', 't', 'o', ' ', 'r', 'e', 'a', 'd', ' ',
        'm', 'e', 's', 's', 'a', 'g', 'e', ':', ' '] ++ e.data := by
    rw [String.data_append]
  have ht : ("timeout" : String).data = ['t', 'i', 'm', 'e', 'o', 'u', 't'] := rfl
  unfold containsSubstr
  rw [hd, ht]
  simp [containsChars, List.isPrefixOf]

theorem wrapped_read_error_ne (e : String) :
    "failed to read message: " ++ e ≠ "read_timeout" ∧
      "failed to read message: " ++ e ≠ "empty_message" := by
  have hd : ("failed to read message: " ++ e).data =
      ['f', 'a', 'i', 'l', 'e', 'd', ' ', 't', 'o', ' ', 'r', 'e', 'a', 'd', ' ',
        'm', 'e', 's', 's', 'a', 'g', 'e', ':', ' '] ++ e.data := by
    rw [String.data_append]
  constructor
  · intro h
    have h2 := congrArg String.data h
    rw [hd] at h2
    have h3 : ("read_timeout" : String).data =
        ['r', 'e', 'a', 'd', '_', 't', 'i', 'm', 'e', 'o', 'u', 't'] := rfl
    rw [h3] at h2
    simp at h2
  · intro h
    have h2 := congrArg String.data h
    rw [hd] at h2
    have h3 : ("empty_message" : String).data =
        ['e', 'm', 'p', 't', 'y', '_', 'm', 'e', 's', 's', 'a', 'g', 'e'] := rfl
    rw [h3] at h2
    simp at h2

theorem processMessage_read_error (reg : Registry) (send : Frame → Option String) (e : String) :
    processMessage reg send (.error e) =
      { calls := [], sent := []
        completion := .returned (some ("failed to read message: " ++ e)) } := rfl

/-- C17 (the code at the failing input): an open manager that reads an empty
line reports `empty_message`; on that read error the loop logs `Failed to
process message` and sleeps 100 ms before its next pass, while on
`read_timeout` it goes on without any event. -/
theorem messageLoop_empty_message_backoff :
    (Manager.ReadMessage { NewManager "/dev/x" with isOpen := true } (.line "\n")).1 =
        .error "empty_message" ∧
      messageLoop pingRegistry [openPass (.error "empty_message")] =
        ([.logError "Failed to process message", .sleep 100], .running) ∧
      messageLoop pingRegistry [openPass (.error "read_timeout")] = ([], .running) :=
  ⟨rfl, rfl, rfl⟩

/-- C18: on a read failure whose text does not hold `timeout`, a pass of the
loop logs the failure and then, when the transport reports itself closed,
sleeps 5 s and calls `Open` (logging a failed reopen), and otherwise sleeps
100 ms without calling `Open`; in each case, also after a failed reopen, the
loop goes on with its next pass. -/
theorem messageLoop_read_failure (reg : Registry) (it : Iteration) (rest : List Iteration)
    (e : String) (hs : it.stopped = false) (hr : it.read = .error e)
    (ht : containsSubstr e "timeout" = false) :
    messageLoop reg (it :: rest) =
      ([LoopEvent.logError "Failed to process message"] ++
          (if it.isOpen then [LoopEvent.sleep 100]
            else
              [LoopEvent.logInfo "Device connection lost, attempting to reconnect...",
                LoopEvent.sleep 5000, LoopEvent.reopen] ++
                (match it.reopenError with
                  | some _ => [LoopEvent.logError "Failed to reconnect"]
                  | none => [])) ++
          (messageLoop reg rest).1,
        (messageLoop reg rest).2) := by
  have h1 := wrapped_read_error_timeout e
  obtain ⟨h2, h3⟩ := wrapped_read_error_ne e
  rw [ht] at h1
  rw [messageLoop]
  simp only [hs, hr, processMessage_read_error, h1, h2, h3, Bool.false_eq_true, if_false,
    or_self, List.map_nil, List.nil_append, List.append_nil]
  cases it.isOpen <;> simp

theorem messageLoop_read_failure_witness :
    messageLoop pingRegistry
        [{ stopped := false, read := .error "设备连接已关闭", send := sendOk, isOpen := false
           reopenError := some "设备已经打开" }] =
      ([LoopEvent.logError "Failed to process message"] ++
          (if false then [LoopEvent.sleep 100]
            else
              [LoopEvent.logInfo "Device connection lost, attempting to reconnect...",
                LoopEvent.sleep 5000, LoopEvent.reopen] ++
                (match some "设备已经打开" with
                  | some _ => [LoopEvent.logError "Failed to reconnect"]
                  | none => [])) ++
          (messageLoop pingRegistry []).1,
        (messageLoop pingRegistry []).2) :=
  messageLoop_read_failure pingRegistry
    { stopped := false, read := .error "设备连接已关闭", send := sendOk, isOpen := false
      reopenError := some "设备已经打开" } [] "设备连接已关闭" rfl rfl (by decide)

/-- C19 (the code on every input): `ReadMessage` returns the manager as it
found it, so after a read that fails with end of file or another error on an
open manager `IsOpen` is still true. -/
theorem ReadMessage_keeps_isOpen (m : Manager) (r : ReadOutcome) :
    (Manager.ReadMessage m r).2 = m ∧
      (Manager.ReadMessage { NewManager "/dev/x" with isOpen := true } .eof).1 =
        .error "设备连接已关闭" ∧
      (Manager.ReadMessage { NewManager "/dev/x" with isOpen := true } .eof).2.IsOpen = true := by
  refine ⟨?_, rfl, rfl⟩
  unfold Manager.ReadMessage
  cases m.isOpen
  · rfl
  · cases r with
    | eof => rfl
    | failure msg => simp only [Bool.not_true, Bool.false_eq_true, if_false]; split <;> rfl
    | line s => simp only [Bool.not_true, Bool.false_eq_true, if_false]; split <;> rfl

/-- C20 (the code at the failing input): with a command whose handler panics
registered next to `guest-ping`, a request for it followed by a `guest-ping`
request makes the loop call the handler, log the panic from the deferred
`recover` and return; the `guest-ping` request is never read or answered. -/
theorem messageLoop_panic_exits :
    messageLoop (registerAll [some panickingCommand, some guestPingCommand])
        [openPass (.ok (.json (.obj [("execute", .str "guest-fault")]))),
          openPass (.ok (.json (.obj [("execute", .str "guest-ping")])))] =
      ([.call { name := "guest-fault", args := none },
          .logError "Message processing loop panicked"], .recovered) ∧
      messageLoop (registerAll [some panickingCommand, some guestPingCommand])
        [openPass (.ok (.json (.obj [("execute", .str "guest-ping")])))] =
      ([.call { name := "guest-ping", args := none },
          .send { delimited := false, data := some (.obj [("return", .obj [])]) }], .running) :=
  ⟨rfl, rfl⟩

/-! ## Theorems: starting the agent and closing a transport -/

/-- C21: `Start` returns an error exactly when the agent is already running
or the transport's `Open` fails; with an error the agent is left as it was
(`isRunning` unchanged, no loop started); an agent that is already running
does not call `Open`; and without an error `isRunning` is true and one loop
has been started. -/
theorem Agent.Start_spec (openResult : Option String) (a : Agent) :
    ((Agent.Start openResult a).err ≠ none ↔ (a.isRunning = true ∨ openResult ≠ none)) ∧
      ((Agent.Start openResult a).err ≠ none → (Agent.Start openResult a).agent = a) ∧
      (a.isRunning = true → (Agent.Start openResult a).openCalled = false) ∧
      ((Agent.Start openResult a).err = none →
        (Agent.Start openResult a).agent.isRunning = true ∧
          (Agent.Start openResult a).agent.loopsStarted = a.loopsStarted + 1 ∧
          (Agent.Start openResult a).openCalled = true) := by
  unfold Agent.Start
  cases hr : a.isRunning <;> cases openResult <;> simp

/-- C22 (the code at the failing input): on a `Manager` whose device opens,
and on a `TestManager`, the calls `Open`, `Close`, `Open` return nil and the
`Close` that follows panics, `stopChan` being closed a second time; a `Close`
on a transport that is already closed returns nil. -/
theorem Close_after_reopen_panics :
    Manager.runCalls (fun _ => none) (NewManager "/dev/x") [.open, .close, .open, .close] =
        [.returned none, .returned none, .returned none, .panicked] ∧
      TestManager.runCalls NewTestManager [.open, .close, .open, .close] =
        [.returned none, .returned none, .returned none, .panicked] ∧
      Manager.runCalls (fun _ => none) (NewManager "/dev/x") [.open, .close, .close] =
        [.returned none, .returned none, .returned none] ∧
      TestManager.runCalls NewTestManager [.open, .close, .close] =
        [.returned none, .returned none, .returned none] :=
  ⟨rfl, rfl, rfl, rfl⟩

/-! ## Theorems: trimming of the line read -/

theorem TrimSpace_data (s : String) :
    (TrimSpace s).data = (s.data.dropWhile isSpace).rdropWhile isSpace := rfl

theorem TrimSpace_ends (s : String) (h : TrimSpace s ≠ "") :
    (∀ c, (TrimSpace s).data.head? = some c → isSpace c = false) ∧
      ∀ c, (TrimSpace s).data.getLast? = some c → isSpace c = false := by
  have hne : (s.data.dropWhile isSpace).rdropWhile isSpace ≠ [] := by
    intro h0
    apply h
    apply String.ext
    rw [TrimSpace_data, h0]
  rw [TrimSpace_data]
  constructor
  · intro c hc
    obtain ⟨u, hu⟩ := List.rdropWhile_prefix isSpace (l := s.data.dropWhile isSpace)
    have hd := List.head?_dropWhile_not isSpace s.data
    cases ht : (s.data.dropWhile isSpace).rdropWhile isSpace with
    | nil => exact absurd ht hne
    | cons a t =>
      rw [ht] at hc hu
      simp only [List.head?_cons, Option.some.injEq] at hc
      subst hc
      rw [← hu] at hd
      simpa using hd
  · intro c hc
    have hl := List.rdropWhile_last_not isSpace (s.data.dropWhile isSpace) hne
    rw [List.getLast?_eq_getLast _ hne] at hc
    simp only [Option.some.injEq] at hc
    subst hc
    simpa using hl

/-- C23: on an open manager a line read gives the error `empty_message`
exactly when the line is empty after `TrimSpace`, and no message then: a
`processMessage` whose read is that result calls no handler and sends
nothing, whatever the payload decoding would be. Otherwise `ReadMessage`
returns the trimmed line, which is not empty and neither begins nor ends
with white space, a newline in particular. -/
theorem ReadMessage_trims (m : Manager) (s : String) (ho : m.isOpen = true) :
    ((Manager.ReadMessage m (.line s)).1 = .error "empty_message" ↔ TrimSpace s = "") ∧
      (TrimSpace s = "" →
        ∀ (decode : String → Payload) (reg : Registry) (send : Frame → Option String),
          (processMessage reg send ((Manager.ReadMessage m (.line s)).1.map decode)).calls = [] ∧
            (processMessage reg send ((Manager.ReadMessage m (.line s)).1.map decode)).sent =
              []) ∧
      (TrimSpace s ≠ "" →
        (Manager.ReadMessage m (.line s)).1 = .ok (TrimSpace s) ∧
          (∀ c, (TrimSpace s).data.head? = some c → isSpace c = false) ∧
          (∀ c, (TrimSpace s).data.getLast? = some c → isSpace c = false) ∧
          (TrimSpace s).data.head? ≠ some '\n' ∧ (TrimSpace s).data.getLast? ≠ some '\n') := by
  have hread : (Manager.ReadMessage m (.line s)).1 =
      if TrimSpace s = "" then .error "empty_message" else .ok (TrimSpace s) := by
    simp only [Manager.ReadMessage, ho, Bool.not_true, Bool.false_eq_true, if_false]
    split <;> rfl
  refine ⟨?_, ?_, ?_⟩
  · rw [hread]
    by_cases h : TrimSpace s = "" <;> simp [h]
  · intro h decode reg send
    rw [hread, if_pos h]
    exact ⟨rfl, rfl⟩
  · intro h
    obtain ⟨h1, h2⟩ := TrimSpace_ends s h
    refine ⟨by rw [hread, if_neg h], h1, h2, ?_, ?_⟩
    · intro hc
      have := h1 _ hc
      simp [isSpace] at this
    · intro hc
      have := h2 _ hc
      simp [isSpace] at this

theorem ReadMessage_trims_witness :
    ((Manager.ReadMessage { NewManager "/dev/x" with isOpen := true }
          (.line "  {}\n")).1 = .error "empty_message" ↔ TrimSpace "  {}\n" = "") ∧
      (Manager.ReadMessage { NewManager "/dev/x" with isOpen := true } (.line "  {}\n")).1 =
        .ok "{}" :=
  ⟨(ReadMessage_trims { NewManager "/dev/x" with isOpen := true } "  {}\n" rfl).1,
    ((ReadMessage_trims { NewManager "/dev/x" with isOpen := true } "  {}\n" rfl).2.2
      (by decide)).1⟩

/-! ## Theorems: the fallback of `sendResponse` -/

theorem sendResponse_marshalled_id (send : Frame → Option String) (resp : QMPResponse)
    (useDelimiter : Bool) (hid : ∃ j, marshalValue resp.ID = some j) :
    ∃ f j, sendResponse send resp useDelimiter = ([f], send f) ∧ f.data = some j ∧
      (∀ j1, MarshalResponse resp = some j1 → j = j1 ∧ f.delimited = useDelimiter) ∧
      (MarshalResponse resp = none →
        f.delimited = false ∧
          j.member "error" = some (.obj [("class", .str "InternalError"),
            ("desc", .str "Failed to marshal response")]) ∧
          j.member "return" = none ∧
          (resp.ID = .nil → j.member "id" = none) ∧
          (resp.ID ≠ .nil → j.member "id" = marshalValue resp.ID)) := by
  cases hm : MarshalResponse resp with
  | some j1 =>
    refine ⟨{ delimited := useDelimiter, data := some j1 }, j1, ?_, rfl, ?_, ?_⟩
    · simp only [sendResponse, hm]
    · intro j2 h2
      exact ⟨Option.some.inj h2, rfl⟩
    · intro h
      cases h
  | none =>
    obtain ⟨i, hi1, hfb⟩ := MarshalResponse_error
      { Class := "InternalError", Desc := "Failed to marshal response" } resp.ID hid
    obtain ⟨i2, hi2, hcase⟩ := marshalOmitEmpty_cases "id" resp.ID hid
    rw [hi1] at hi2
    cases Option.some.inj hi2
    have hfb2 : MarshalResponse
        { NewErrorResponse "InternalError" "Failed to marshal response" with ID := resp.ID } =
        some (.obj (("error", .obj [("class", .str "InternalError"),
          ("desc", .str "Failed to marshal response")]) :: i)) := hfb
    refine ⟨{ delimited := false, data := some (.obj (("error", .obj [("class", .str "InternalError"),
      ("desc", .str "Failed to marshal response")]) :: i)) }, _, ?_, rfl, ?_, ?_⟩
    · simp only [sendResponse, hm, hfb2]
    · intro j1 h1
      cases h1
    · intro _
      refine ⟨rfl, by simp [JSON.member, List.lookup], ?_, ?_, ?_⟩
      · rcases hcase with ⟨_, rfl⟩ | ⟨_, j, _, rfl⟩ <;> simp [JSON.member, List.lookup]
      · intro hnil
        rcases hcase with ⟨_, rfl⟩ | ⟨hne, _⟩
        · simp [JSON.member, List.lookup]
        · exact absurd hnil hne
      · intro hne
        rcases hcase with ⟨hnil, _⟩ | ⟨_, j, hj, rfl⟩
        · exact absurd hnil hne
        · rw [hj]
          simp [JSON.member, List.lookup]

theorem ParseRequest_id_decoded (data : Payload) (req : QMPRequest)
    (hp : ParseRequest data = some req) : ∃ v, decodeValue v = some req.ID := by
  unfold ParseRequest at hp
  cases data with
  | invalid => simp at hp
  | json j =>
    cases j with
    | null =>
      simp only [Option.some.injEq] at hp
      subst hp
      exact ⟨.null, rfl⟩
    | obj kvs =>
      simp only at hp
      have h := decodeMembersInto_id kvs _ req hp
      cases hl : lastMember "id" kvs with
      | some v =>
        rw [hl] at h
        exact ⟨v, h⟩
      | none =>
        rw [hl] at h
        simp only at h
        exact ⟨.null, by rw [h]; rfl⟩
    | bool b => simp at hp
    | num n => simp at hp
    | str s => simp at hp
    | arr xs => simp at hp

theorem processMessage_frames_hold_data (reg : Registry) (send : Frame → Option String)
    (read : Except String Payload) :
    (processMessage reg send read).sent.length ≤ 1 ∧
      ∀ f ∈ (processMessage reg send read).sent, ∃ j, f.data = some j := by
  cases read with
  | error e => exact ⟨by simp [processMessage], by simp [processMessage]⟩
  | ok data =>
    cases hp : ParseRequest data with
    | none =>
      have h : (processMessage reg send (.ok data)).sent =
          (sendResponse send (NewErrorResponse "GenericError" "Invalid message format")
            false).1 := by
        simp only [processMessage, hp]
      rw [h, sendResponse_frames]
      refine ⟨by simp, ?_⟩
      intro f hf
      rw [List.mem_singleton.1 hf]
      exact ⟨_, rfl⟩
    | some req =>
      obtain ⟨hi, _, _⟩ := ParseRequest_marshal data req hp
      rw [processMessage_parsed reg send data req hp]
      cases hr : (HandleCommand reg req).response with
      | none => exact ⟨by simp, by simp⟩
      | some r =>
        simp only [sendResponse_frames, List.length_singleton, le_refl, List.mem_singleton,
          true_and]
        intro f hf
        subst hf
        cases hm : MarshalResponse { Return := r.Return, Error := r.Error, ID := req.ID } with
        | some j => exact ⟨j, rfl⟩
        | none =>
          obtain ⟨i, _, hfb⟩ := MarshalResponse_error
            { Class := "InternalError", Desc := "Failed to marshal response" } req.ID hi
          exact ⟨_, hfb⟩

/-- C24: `sendResponse` always has something to send. For every response
whose `ID` is a value decoded by `json.Unmarshal`, which is what the `ID` of
every parsed request is, it hands the transport exactly one frame, with a
JSON object as data, and returns what the transport returns for it. When the
response marshals the frame holds it, with the framing asked for; when it
does not, the frame is undelimited and holds an `error` of class
`InternalError` and desc `Failed to marshal response`, no `return`, and the
`id` of the response when it is not nil. So every frame that
`processMessage` sends, at most one for a message, has data. -/
theorem sendResponse_always_succeeds (send : Frame → Option String) (resp : QMPResponse)
    (useDelimiter : Bool) (hid : ∃ v, decodeValue v = some resp.ID) :
    (∃ f j, sendResponse send resp useDelimiter = ([f], send f) ∧ f.data = some j ∧
      (∀ j1, MarshalResponse resp = some j1 → j = j1 ∧ f.delimited = useDelimiter) ∧
      (MarshalResponse resp = none →
        f.delimited = false ∧
          j.member "error" = some (.obj [("class", .str "InternalError"),
            ("desc", .str "Failed to marshal response")]) ∧
          j.member "return" = none ∧
          (resp.ID = .nil → j.member "id" = none) ∧
          (resp.ID ≠ .nil → j.member "id" = marshalValue resp.ID))) ∧
      (∀ data req, ParseRequest data = some req → ∃ v, decodeValue v = some req.ID) ∧
      ∀ (reg : Registry) (read : Except String Payload),
        (processMessage reg send read).sent.length ≤ 1 ∧
          ∀ f ∈ (processMessage reg send read).sent, ∃ j, f.data = some j := by
  obtain ⟨v, hv⟩ := hid
  exact ⟨sendResponse_marshalled_id send resp useDelimiter (marshalValue_decodeValue v _ hv),
    ParseRequest_id_decoded, fun reg read => processMessage_frames_hold_data reg send read⟩

theorem sendResponse_always_succeeds_witness :
    ∃ f j, sendResponse sendOk { Return := .unsupported, Error := none, ID := .str "a" } true =
        ([f], sendOk f) ∧ f.data = some j ∧
      (∀ j1, MarshalResponse { Return := .unsupported, Error := none, ID := .str "a" } = some j1 →
        j = j1 ∧ f.delimited = true) ∧
      (MarshalResponse { Return := .unsupported, Error := none, ID := .str "a" } = none →
        f.delimited = false ∧
          j.member "error" = some (.obj [("class", .str "InternalError"),
            ("desc", .str "Failed to marshal response")]) ∧
          j.member "return" = none ∧
          ((GoValue.str "a") = .nil → j.member "id" = none) ∧
          ((GoValue.str "a") ≠ .nil → j.member "id" = marshalValue (.str "a"))) :=
  (sendResponse_always_succeeds sendOk { Return := .unsupported, Error := none, ID := .str "a" }
    true ⟨.str "a", rfl⟩).1

/-! ## Theorems: `WriteAll` -/

theorem BaseChannel.writeAllLoop_done (data : List Byte) (fuel : Nat) (c : BaseChannel)
    (written : Int) (h : ¬ written < data.length) :
    BaseChannel.writeAllLoop data fuel c written = some (.returned none, c) := by
  unfold BaseChannel.writeAllLoop
  rw [if_neg h]

theorem BaseChannel.writeAllLoop_step (data : List Byte) (fuel : Nat) (c : BaseChannel)
    (written : Int) (h : written < data.length) (h0 : 0 ≤ written) :
    BaseChannel.writeAllLoop data (fuel + 1) c written =
      match c.Write (data.drop written.toNat) with
      | ((_, some err), c1) => some (.returned (some err), c1)
      | ((n, none), c1) => BaseChannel.writeAllLoop data fuel c1 (written + n) := by
  have h1 : ¬ written < 0 := by omega
  rw [BaseChannel.writeAllLoop]
  simp only [h, if_true, h1, if_false]

theorem BaseChannel.Write_open (c : BaseChannel) (w : IoWriter) (p : List Byte)
    (ho : c.isOpen = true) (hw : c.writer = some w) :
    c.Write p =
      (w.policy w.calls p,
        { c with
          writer := some
            { w with
              taken := w.taken ++ p.take (w.policy w.calls p).1.toNat
              calls := w.calls + 1 } }) := by
  simp [BaseChannel.Write, ho, hw, IoWriter.Write]

theorem BaseChannel.writeAllLoop_drains (data : List Byte)
    (pol : Nat → List Byte → Int × Option String)
    (hacc : ∀ k p, p ≠ [] → (pol k p).2 = none ∧ 1 ≤ (pol k p).1 ∧ (pol k p).1 ≤ p.length) :
    ∀ (fuel : Nat) (c : BaseChannel) (w : IoWriter) (n : Nat),
      c.isOpen = true → c.writer = some w → w.policy = pol →
      n ≤ data.length → data.length - n ≤ fuel →
      ∃ c1 w1, BaseChannel.writeAllLoop data fuel c (n : Int) = some (.returned none, c1) ∧
        c1.writer = some w1 ∧ w1.taken = w.taken ++ data.drop n ∧
        w1.calls ≤ w.calls + (data.length - n) := by
  intro fuel
  induction fuel with
  | zero =>
    intro c w n _ hw _ hn hf
    have hlen : n = data.length := by omega
    refine ⟨c, w, BaseChannel.writeAllLoop_done data 0 c n (by omega), hw, ?_, by omega⟩
    simp [hlen]
  | succ f ih =>
    intro c w n ho hw hp hn hf
    subst hp
    by_cases hlt : n < data.length
    · have hchunk : data.drop n ≠ [] := by
        intro h0
        have := congrArg List.length h0
        simp at this
        omega
      have hlen : (data.drop n).length = data.length - n := by simp
      obtain ⟨he, h1, h2⟩ := hacc w.calls (data.drop n) hchunk
      rw [BaseChannel.writeAllLoop_step data f c n (by exact_mod_cast hlt) (by omega)]
      simp only [Int.toNat_ofNat, BaseChannel.Write_open c w _ ho hw]
      rcases hpol : w.policy w.calls (data.drop n) with ⟨m, e⟩
      rw [hpol] at he h1 h2
      simp only at he h1 h2
      subst he
      simp only
      have hm : (m.toNat : Int) = m := Int.toNat_of_nonneg (by omega)
      have hsum : (n : Int) + m = ((n + m.toNat : Nat) : Int) := by
        push_cast
        omega
      rw [hsum]
      obtain ⟨c1, w1, hr, hw1, ht, hc⟩ := ih
        { c with
          writer := some
            { w with taken := w.taken ++ (data.drop n).take m.toNat, calls := w.calls + 1 } }
        { w with taken := w.taken ++ (data.drop n).take m.toNat, calls := w.calls + 1 }
        (n + m.toNat) ho rfl rfl (by omega) (by omega)
      refine ⟨c1, w1, hr, hw1, ?_, ?_⟩
      · rw [ht]
        simp only [List.append_assoc]
        congr 1
        rw [← List.drop_drop]
        exact List.take_append_drop _ _
      · simp only at hc
        omega
    · have hlen : n = data.length := by omega
      refine ⟨c, w, BaseChannel.writeAllLoop_done data (f + 1) c n (by omega), hw, ?_, by omega⟩
      simp [hlen]

theorem BaseChannel.writeAllLoop_success (data : List Byte)
    (pol : Nat → List Byte → Int × Option String)
    (hbound : ∀ k p, p ≠ [] → 0 ≤ (pol k p).1 ∧ (pol k p).1 ≤ p.length) :
    ∀ (fuel : Nat) (c c1 : BaseChannel) (w : IoWriter) (n : Nat),
      c.isOpen = true → c.writer = some w → w.policy = pol → n ≤ data.length →
      BaseChannel.writeAllLoop data fuel c (n : Int) = some (.returned none, c1) →
      ∃ w1, c1.writer = some w1 ∧ w1.taken = w.taken ++ data.drop n := by
  intro fuel
  induction fuel with
  | zero =>
    intro c c1 w n _ hw _ hn hr
    by_cases hlt : n < data.length
    · have hlt2 : (n : Int) < data.length := by exact_mod_cast hlt
      rw [BaseChannel.writeAllLoop] at hr
      simp [hlt2] at hr
    · rw [BaseChannel.writeAllLoop_done data 0 c n (by omega)] at hr
      simp only [Option.some.injEq, Prod.mk.injEq, true_and] at hr
      subst hr
      have hlen : n = data.length := by omega
      exact ⟨w, hw, by simp [hlen]⟩
  | succ f ih =>
    intro c c1 w n ho hw hp hn hr
    subst hp
    by_cases hlt : n < data.length
    · have hlen : (data.drop n).length = data.length - n := by simp
      have hchunk : data.drop n ≠ [] := by
        intro h0
        have := congrArg List.length h0
        simp at this
        omega
      obtain ⟨h1, h2⟩ := hbound w.calls (data.drop n) hchunk
      rw [BaseChannel.writeAllLoop_step data f c n (by exact_mod_cast hlt) (by omega)] at hr
      simp only [Int.toNat_ofNat, BaseChannel.Write_open c w _ ho hw] at hr
      rcases hpol : w.policy w.calls (data.drop n) with ⟨m, e⟩
      rw [hpol] at h1 h2 hr
      simp only at h1 h2 hr
      cases e with
      | some err => simp at hr
      | none =>
        simp only at hr
        have hsum : (n : Int) + m = ((n + m.toNat : Nat) : Int) := by
          push_cast
          omega
        rw [hsum] at hr
        obtain ⟨w1, hw1, ht⟩ := ih
          { c with
            writer := some
              { w with taken := w.taken ++ (data.drop n).take m.toNat, calls := w.calls + 1 } }
          c1
          { w with taken := w.taken ++ (data.drop n).take m.toNat, calls := w.calls + 1 }
          (n + m.toNat) ho rfl rfl (by omega) hr
        refine ⟨w1, hw1, ?_⟩
        rw [ht]
        simp only [List.append_assoc]
        congr 1
        rw [← List.drop_drop]
        exact List.take_append_drop _ _
    · rw [BaseChannel.writeAllLoop_done data (f + 1) c n (by omega)] at hr
      simp only [Option.some.injEq, Prod.mk.injEq, true_and] at hr
      subst hr
      have hlen : n = data.length := by omega
      exact ⟨w, hw, by simp [hlen]⟩

/-- C25: on an open channel whose writer takes, in every call on a
non-empty slice and without error, at least one byte and no more than it is
given, `WriteAll` ends within as many passes as the data has bytes and
returns nil, and the writer has then taken, by its own account, exactly the
bytes of the data after what it held before, in order; with any fuel, a
return of nil comes only with the writer having taken exactly those bytes.
Whenever a `Write` of the loop returns an error, `WriteAll` returns that
error at once. A channel built by `NewChannel` has no writer: once opened,
its `WriteAll` returns the `NoWriter` error of `Write` for data that is not
empty, and nil for empty data. -/
theorem WriteAll_drains (c : BaseChannel) (w : IoWriter) (data : List Byte)
    (ho : c.isOpen = true) (hw : c.writer = some w)
    (hacc : ∀ k p, p ≠ [] →
      (w.policy k p).2 = none ∧ 1 ≤ (w.policy k p).1 ∧ (w.policy k p).1 ≤ p.length) :
    (∃ c1 w1, BaseChannel.WriteAll c data.length data = some (.returned none, c1) ∧
        c1.writer = some w1 ∧ w1.taken = w.taken ++ data ∧
        w1.calls ≤ w.calls + data.length) ∧
      (∀ fuel c1, BaseChannel.WriteAll c fuel data = some (.returned none, c1) →
        ∃ w1, c1.writer = some w1 ∧ w1.taken = w.taken ++ data) ∧
      (∀ (c0 : BaseChannel) (fuel : Nat) (written : Int) (e : String),
        0 ≤ written → written < data.length →
        (c0.Write (data.drop written.toNat)).1.2 = some e →
        BaseChannel.writeAllLoop data (fuel + 1) c0 written =
          some (.returned (some e), (c0.Write (data.drop written.toNat)).2)) ∧
      ∀ m c0, NewChannel m = some c0 →
        (c0.Open).1 = none ∧
          ((c0.Open).2.WriteAll data.length data).map Prod.fst =
            some (if data = [] then .returned none
              else .returned (some (ChannelError "NoWriter" "没有可用的写入器"))) := by
  refine ⟨?_, ?_, ?_, ?_⟩
  · obtain ⟨c1, w1, hr, hw1, ht, hc⟩ := BaseChannel.writeAllLoop_drains data w.policy hacc
      data.length c w 0 ho hw rfl (Nat.zero_le _) (by omega)
    refine ⟨c1, w1, ?_, hw1, by simpa using ht, by simpa using hc⟩
    simpa [BaseChannel.WriteAll, ho] using hr
  · intro fuel c1 hr
    have hr2 : BaseChannel.writeAllLoop data fuel c ((0 : Nat) : Int) =
        some (.returned none, c1) := by
      simpa [BaseChannel.WriteAll, ho] using hr
    obtain ⟨w1, hw1, ht⟩ := BaseChannel.writeAllLoop_success data w.policy
      (fun k p hp => ⟨by have := (hacc k p hp).2.1; omega, (hacc k p hp).2.2⟩)
      fuel c c1 w 0 ho hw rfl (Nat.zero_le _) hr2
    exact ⟨w1, hw1, by simpa using ht⟩
  · intro c0 fuel written e h0 hlt he
    rw [BaseChannel.writeAllLoop_step data fuel c0 written hlt h0]
    rcases hwr : c0.Write (data.drop written.toNat) with ⟨⟨n, e1⟩, c1⟩
    rw [hwr] at he
    simp only at he
    subst he
    rfl
  · intro m c0 hc0
    have hc : c0.isOpen = false ∧ c0.writer = none := by
      cases m <;> simp [NewChannel] at hc0 <;> subst hc0 <;> exact ⟨rfl, rfl⟩
    obtain ⟨hco, hcw⟩ := hc
    have hopen : c0.Open = (none, { c0 with isOpen := true }) := by
      simp [BaseChannel.Open, hco]
    rw [hopen]
    refine ⟨rfl, ?_⟩
    cases data with
    | nil =>
      simp [BaseChannel.WriteAll, BaseChannel.writeAllLoop_done]
    | cons a t =>
      have hstep := BaseChannel.writeAllLoop_step (a :: t) t.length
        { c0 with isOpen := true } 0 (by simp) (le_refl _)
      simp only [BaseChannel.WriteAll, Bool.not_true, Bool.false_eq_true, if_false,
        List.length_cons, hstep]
      simp [BaseChannel.Write, hcw]

theorem WriteAll_drains_witness :
    ∃ c1 w1,
      BaseChannel.WriteAll
          { method := .ChannelTest, isOpen := true, writer := some threeByteWriter }
          [1, 2, 3, 4, 5, 6, 7].length [1, 2, 3, 4, 5, 6, 7] = some (.returned none, c1) ∧
        c1.writer = some w1 ∧ w1.taken = threeByteWriter.taken ++ [1, 2, 3, 4, 5, 6, 7] ∧
        w1.calls ≤ threeByteWriter.calls + [1, 2, 3, 4, 5, 6, 7].length :=
  (WriteAll_drains { method := .ChannelTest, isOpen := true, writer := some threeByteWriter }
    threeByteWriter [1, 2, 3, 4, 5, 6, 7] rfl rfl
    (by
      intro k p hp
      cases p with
      | nil => exact absurd rfl hp
      | cons a t =>
        simp only [threeByteWriter, List.length_cons]
        refine ⟨trivial, ?_, ?_⟩ <;> omega)).1

/-! ## Theorems: memory blocks -/

theorem blockCount_eq (a b : Int) (ha : 0 ≤ a) (hb : 0 ≤ b) :
    blockCount a b = if a % b > 0 then a / b + 1 else a / b := by
  unfold blockCount
  rw [Int.tdiv_eq_ediv ha hb, Int.tmod_eq_emod ha hb]

theorem blockCount_div8 (t : Int) (h : 8 < t / 8) :
    blockCount t (t / 8) = if t % 8 > 0 then 9 else 8 := by
  have hq : (0 : Int) < t / 8 := by omega
  have hu := (Int.ediv_emod_unique (a := t) (q := 8) (r := t % 8) hq).2
    ⟨by omega, by omega, by omega⟩
  rw [blockCount_eq t (t / 8) (by omega) (by omega), hu.1, hu.2]
  split <;> rfl

theorem blockCount_div32 (t : Int) (h : 32 < t / 32) :
    blockCount t (t / 32) = if t % 32 > 0 then 33 else 32 := by
  have hq : (0 : Int) < t / 32 := by omega
  have hu := (Int.ediv_emod_unique (a := t) (q := 32) (r := t % 32) hq).2
    ⟨by omega, by omega, by omega⟩
  rw [blockCount_eq t (t / 32) (by omega) (by omega), hu.1, hu.2]
  split <;> rfl

theorem blockCount_ceil (a b : Int) (ha : 0 < a) (hb : 0 < b) :
    (blockCount a b - 1) * b < a ∧ a ≤ blockCount a b * b := by
  rw [blockCount_eq a b ha.le hb.le]
  have h1 := Int.emod_add_ediv a b
  have h2 := Int.emod_nonneg a hb.ne'
  have h3 := Int.emod_lt_of_pos a hb
  split
  · rename_i hr
    constructor
    · have : (a / b + 1 - 1) * b = b * (a / b) := by ring
      rw [this]
      omega
    · have : (a / b + 1) * b = b * (a / b) + b := by ring
      rw [this]
      omega
  · rename_i hr
    have hr0 : a % b = 0 := by omega
    constructor
    · have : (a / b - 1) * b = b * (a / b) - b := by ring
      rw [this]
      omega
    · have : a / b * b = b * (a / b) := by ring
      rw [this]
      omega

theorem memoryBlockPlan_unfold (t : Int) (ht : 0 < t) :
    memoryBlockPlan t =
      (let blockSize : Int :=
        if t < 4294967296 then 268435456 else if t < 17179869184 then 536870912 else 1073741824
      let numBlocks := blockCount t blockSize
      let plan : Int × Int :=
        if numBlocks < 8 then
          (if t / 8 < 134217728 then 134217728 else t / 8,
            blockCount t (if t / 8 < 134217728 then 134217728 else t / 8))
        else if numBlocks > 32 then (t / 32, blockCount t (t / 32))
        else (blockSize, numBlocks)
      if plan.2 = 0 then (plan.1, 1) else plan) := by
  have e4 : 4 * GB = 4294967296 := by norm_num [GB, MB]
  have e16 : 16 * GB = 17179869184 := by norm_num [GB, MB]
  have e1 : 1 * GB = 1073741824 := by norm_num [GB, MB]
  have e256 : 256 * MB = 268435456 := by norm_num [MB]
  have e512 : 512 * MB = 536870912 := by norm_num [MB]
  have e128 : 128 * MB = 134217728 := by norm_num [MB]
  have d8 : t.tdiv 8 = t / 8 := Int.tdiv_eq_ediv ht.le (by norm_num)
  have d32 : t.tdiv 32 = t / 32 := Int.tdiv_eq_ediv ht.le (by norm_num)
  simp only [memoryBlockPlan, initialBlockSize, e4, e16, e1, e256, e512, e128, d8, d32]

/-- The block size and the block count of `getMemoryBlocks` for a positive
total, by the size of the total. -/
theorem memoryBlockPlan_pos (t : Int) (ht : 0 < t) :
    memoryBlockPlan t =
      if t < 1073741824 then
        (134217728, if t % 134217728 > 0 then t / 134217728 + 1 else t / 134217728)
      else if t ≤ 1879048192 then (t / 8, if t % 8 > 0 then 9 else 8)
      else if t < 4294967296 then
        (268435456, if t % 268435456 > 0 then t / 268435456 + 1 else t / 268435456)
      else if t < 17179869184 then
        (536870912, if t % 536870912 > 0 then t / 536870912 + 1 else t / 536870912)
      else if t ≤ 34359738368 then
        (1073741824, if t % 1073741824 > 0 then t / 1073741824 + 1 else t / 1073741824)
      else (t / 32, if t % 32 > 0 then 33 else 32) := by
  rw [memoryBlockPlan_unfold t ht]
  have c128 := blockCount_eq t 134217728 ht.le (by norm_num)
  have c256 := blockCount_eq t 268435456 ht.le (by norm_num)
  have c512 := blockCount_eq t 536870912 ht.le (by norm_num)
  have c1024 := blockCount_eq t 1073741824 ht.le (by norm_num)
  by_cases r1 : t < 1073741824
  · have h4 : t < 4294967296 := by omega
    have hn : blockCount t 268435456 < 8 := by rw [c256]; split <;> omega
    have h8 : t / 8 < 134217728 := by omega
    have hz : ¬ blockCount t 134217728 = 0 := by rw [c128]; split <;> omega
    simp only [h4, if_true, hn, h8, hz, if_false, r1]
    rw [c128]
  · by_cases r2 : t ≤ 1879048192
    · have h4 : t < 4294967296 := by omega
      have hn : blockCount t 268435456 < 8 := by rw [c256]; split <;> omega
      have h8 : ¬ t / 8 < 134217728 := by omega
      have hc := blockCount_div8 t (by omega)
      have hz : ¬ blockCount t (t / 8) = 0 := by rw [hc]; split <;> omega
      simp only [h4, if_true, hn, h8, hz, if_false, r1, r2]
      rw [hc]
    · by_cases r3 : t < 4294967296
      · have hn : ¬ blockCount t 268435456 < 8 := by rw [c256]; split <;> omega
        have hn2 : ¬ blockCount t 268435456 > 32 := by rw [c256]; split <;> omega
        have hz : ¬ blockCount t 268435456 = 0 := by omega
        simp only [r3, if_true, hn, hn2, hz, if_false, r1, r2]
        rw [c256]
      · by_cases r4 : t < 17179869184
        · have hn : ¬ blockCount t 536870912 < 8 := by rw [c512]; split <;> omega
          have hn2 : ¬ blockCount t 536870912 > 32 := by rw [c512]; split <;> omega
          have hz : ¬ blockCount t 536870912 = 0 := by omega
          simp only [r3, r4, if_true, hn, hn2, hz, if_false, r1, r2]
          rw [c512]
        · by_cases r5 : t ≤ 34359738368
          · have hn : ¬ blockCount t 1073741824 < 8 := by rw [c1024]; split <;> omega
            have hn2 : ¬ blockCount t 1073741824 > 32 := by rw [c1024]; split <;> omega
            have hz : ¬ blockCount t 1073741824 = 0 := by omega
            simp only [r3, r4, r5, if_true, hn, hn2, hz, if_false, r1, r2]
            rw [c1024]
          · have hn : ¬ blockCount t 1073741824 < 8 := by rw [c1024]; split <;> omega
            have hn2 : blockCount t 1073741824 > 32 := by rw [c1024]; split <;> omega
            have hc := blockCount_div32 t (by omega)
            have hz : ¬ blockCount t (t / 32) = 0 := by rw [hc]; split <;> omega
            simp only [r3, r4, r5, if_true, hn, hn2, hz, if_false, r1, r2]
            rw [hc]

theorem memoryBlockPlan_bounds (t : Int) (ht : 0 < t) :
    0 < (memoryBlockPlan t).1 ∧ 1 ≤ (memoryBlockPlan t).2 ∧
      ((memoryBlockPlan t).2 - 1) * (memoryBlockPlan t).1 < t ∧
      t ≤ (memoryBlockPlan t).2 * (memoryBlockPlan t).1 ∧
      (t < 1073741824 → (memoryBlockPlan t).2 ≤ 8) ∧
      (1073741824 ≤ t → 8 ≤ (memoryBlockPlan t).2) ∧
      (t ≤ 34359738368 ∨ t % 32 = 0 → (memoryBlockPlan t).2 ≤ 32) := by
  rw [memoryBlockPlan_pos t ht]
  split_ifs <;> simp only [] <;> refine ⟨?_, ?_, ?_, ?_, ?_, ?_, ?_⟩ <;> omega

theorem getMemoryBlockInfo_eq_plan (t : Int) (ht : 0 < t) :
    getMemoryBlockInfo (.ok t) = .ok (memoryBlockPlan t).1 := by
  have e4 : 4 * GB = 4294967296 := by norm_num [GB, MB]
  have e16 : 16 * GB = 17179869184 := by norm_num [GB, MB]
  have e1 : 1 * GB = 1073741824 := by norm_num [GB, MB]
  have e256 : 256 * MB = 268435456 := by norm_num [MB]
  have e512 : 512 * MB = 536870912 := by norm_num [MB]
  have e128 : 128 * MB = 134217728 := by norm_num [MB]
  have d8 : t.tdiv 8 = t / 8 := Int.tdiv_eq_ediv ht.le (by norm_num)
  have d32 : t.tdiv 32 = t / 32 := Int.tdiv_eq_ediv ht.le (by norm_num)
  rw [memoryBlockPlan_unfold t ht]
  simp only [getMemoryBlockInfo, initialBlockSize, e4, e16, e1, e256, e512, e128, d8, d32]
  split_ifs <;> rfl

theorem getMemoryBlocks_length (t : Int) :
    ∃ blocks, getMemoryBlocks (.ok t) = .ok blocks ∧
      blocks.length = (memoryBlockPlan t).2.toNat ∧
      blocks = (List.range blocks.length).map fun (i : Nat) =>
        { PhysIndex := (i : Int), Online := true, CanOffline := false } := by
  refine ⟨_, rfl, by simp, by simp⟩

/-- C26 (counterexample): a total of 512 MiB gives 4 blocks, fewer than 8,
and a total of 32 GiB and one byte gives 33 blocks, more than 32. -/
theorem getMemoryBlocks_range_counterexample :
    (∃ blocks, getMemoryBlocks (.ok (512 * MB)) = .ok blocks ∧ blocks.length = 4) ∧
      ∃ blocks, getMemoryBlocks (.ok (32 * GB + 1)) = .ok blocks ∧ blocks.length = 33 :=
  ⟨⟨_, rfl, rfl⟩, ⟨_, rfl, rfl⟩⟩

/-- C26 (amended): for every total memory size greater than zero
`getMemoryBlocks` returns at least one block; at least 8 blocks when the
total is 1 GiB or more, and at most 8 below that, where the block size is
held at its minimum of 128 MiB; and at most 32 blocks when the total is at
most 32 GiB or a multiple of 32. -/
theorem getMemoryBlocks_count_bounds (total : Int) (ht : 0 < total) :
    ∃ blocks, getMemoryBlocks (.ok total) = .ok blocks ∧ 1 ≤ blocks.length ∧
      (total < GB → blocks.length ≤ 8) ∧ (GB ≤ total → 8 ≤ blocks.length) ∧
      (total ≤ 32 * GB ∨ total % 32 = 0 → blocks.length ≤ 32) := by
  have eGB : GB = 1073741824 := by norm_num [GB, MB]
  obtain ⟨blocks, hb, hlen, _⟩ := getMemoryBlocks_length total
  obtain ⟨_, h1, _, _, h2, h3, h4⟩ := memoryBlockPlan_bounds total ht
  refine ⟨blocks, hb, ?_, ?_, ?_, ?_⟩
  · omega
  · intro h
    have := h2 (by omega)
    omega
  · intro h
    have := h3 (by omega)
    omega
  · intro h
    have := h4 (by omega)
    omega

theorem getMemoryBlocks_count_bounds_witness :
    ∃ blocks, getMemoryBlocks (.ok (8 * GB)) = .ok blocks ∧ 1 ≤ blocks.length ∧
      (8 * GB < GB → blocks.length ≤ 8) ∧ (GB ≤ 8 * GB → 8 ≤ blocks.length) ∧
      (8 * GB ≤ 32 * GB ∨ 8 * GB % 32 = 0 → blocks.length ≤ 32) :=
  getMemoryBlocks_count_bounds (8 * GB) (by decide)

/-- C27: for every total memory size greater than zero the size `S` that
`getMemoryBlockInfo` reports is positive and is the block size
`getMemoryBlocks` ends with, and `getMemoryBlocks` returns the least number
of blocks of size `S` that cover the total, with `PhysIndex` 0, 1, ... in
order, each online and not offline-able. -/
theorem getMemoryBlockInfo_consistent (total : Int) (ht : 0 < total) :
    ∃ S blocks, getMemoryBlockInfo (.ok total) = .ok S ∧
      getMemoryBlocks (.ok total) = .ok blocks ∧
      S = (memoryBlockPlan total).1 ∧ 0 < S ∧
      ((blocks.length : Int) - 1) * S < total ∧ total ≤ (blocks.length : Int) * S ∧
      blocks = (List.range blocks.length).map fun (i : Nat) =>
        { PhysIndex := (i : Int), Online := true, CanOffline := false } := by
  obtain ⟨blocks, hb, hlen, hlist⟩ := getMemoryBlocks_length total
  obtain ⟨h0, h1, h2, h3, _⟩ := memoryBlockPlan_bounds total ht
  have hcast : (blocks.length : Int) = (memoryBlockPlan total).2 := by
    rw [hlen]
    exact Int.toNat_of_nonneg (by omega)
  refine ⟨_, blocks, getMemoryBlockInfo_eq_plan total ht, hb, rfl, h0, ?_, ?_, hlist⟩
  · rw [hcast]; exact h2
  · rw [hcast]; exact h3

theorem getMemoryBlockInfo_consistent_witness :
    ∃ S blocks, getMemoryBlockInfo (.ok (8 * GB)) = .ok S ∧
      getMemoryBlocks (.ok (8 * GB)) = .ok blocks ∧
      S = (memoryBlockPlan (8 * GB)).1 ∧ 0 < S ∧
      ((blocks.length : Int) - 1) * S < 8 * GB ∧ 8 * GB ≤ (blocks.length : Int) * S ∧
      blocks = (List.range blocks.length).map fun (i : Nat) =>
        { PhysIndex := (i : Int), Online := true, CanOffline := false } :=
  getMemoryBlockInfo_consistent (8 * GB) (by decide)

/-! ## Theorems: the parsers of command output -/

theorem contains_s_of_disk_start (line : String) (h : HasPrefix line "/dev/disk" = true) :
    containsSubstr line "s" = true := by
  unfold HasPrefix at h
  have hp : ("/dev/disk" : String).data = ['/', 'd', 'e', 'v', '/', 'd', 'i', 's', 'k'] := rfl
  have hs : ("s" : String).data = ['s'] := rfl
  rw [hp] at h
  obtain ⟨t, ht⟩ := List.isPrefixOf_iff_prefix.1 h
  unfold containsSubstr
  rw [hs, ← ht]
  simp [containsChars, List.isPrefixOf]

theorem parseDiskLine_idle (getDiskSize : String → String) (rawLine : String) :
    parseDiskLine getDiskSize { disks := [], currentDisk := none } rawLine =
      { disks := [], currentDisk := none } := by
  unfold parseDiskLine
  by_cases h1 : TrimSpace rawLine = ""
  · simp only [h1, if_true]
  · by_cases h2 : HasPrefix (TrimSpace rawLine) "/dev/disk" = true
    · have h3 := contains_s_of_disk_start _ h2
      simp only [h1, if_false, h2, h3, Bool.not_true, Bool.and_false, Bool.false_eq_true]
    · have h2f : HasPrefix (TrimSpace rawLine) "/dev/disk" = false := by
        cases hx : HasPrefix (TrimSpace rawLine) "/dev/disk"
        · rfl
        · exact absurd hx h2
      simp only [h1, if_false, h2f, Bool.false_and, Bool.false_eq_true]

theorem parseDiskLines_idle (getDiskSize : String → String) (lines : List String) :
    lines.foldl (parseDiskLine getDiskSize) { disks := [], currentDisk := none } =
      { disks := [], currentDisk := none } := by
  induction lines with
  | nil => rfl
  | cons l rest ih => rw [List.foldl_cons, parseDiskLine_idle, ih]

/-- C28 (the code on every input): `parseDiskUtilOutput` returns no disk at
all, whatever the output holds. A header line is taken for one only when it
begins with `/dev/disk` and holds no letter `s`, and `/dev/disk` itself
holds an `s`; so for the header line `/dev/disk0 (internal, physical):` no
entry named `/dev/disk0` is returned. -/
theorem parseDiskUtilOutput_empty (getDiskSize : String → String) (output : String) :
    parseDiskUtilOutput getDiskSize output = [] ∧
      parseDiskUtilOutput getDiskSize
        "/dev/disk0 (internal, physical):\n   0: GUID_partition_scheme *500.3 GB disk0\n" = [] := by
  have h : ∀ out, parseDiskUtilOutput getDiskSize out = [] := by
    intro out
    unfold parseDiskUtilOutput
    simp only [parseDiskLines_idle]
  exact ⟨h _, h _⟩

/-- C29 (the code at the failing input): a line of exactly four fields makes
`parseWhoLine` panic, on the slice `fields[2:5]`; a line of fewer than four
fields gives nil, and a line of five or more a record whose `User` is the
first field. -/
theorem parseWhoLine_four_fields (loginTime : String → Int) :
    parseWhoLine loginTime "user console Jun 29" = .panics ∧
      (∀ line, (Fields line).length = 4 → parseWhoLine loginTime line = .panics) ∧
      (∀ line, (Fields line).length < 4 → parseWhoLine loginTime line = .returns none) ∧
      ∀ line, 5 ≤ (Fields line).length →
        ∃ u, parseWhoLine loginTime line = .returns (some u) ∧
          some u.User = (Fields line).head? := by
  have h4 : ∀ line, (Fields line).length = 4 → parseWhoLine loginTime line = .panics := by
    intro line h
    simp [parseWhoLine, h]
  refine ⟨h4 _ (by decide), h4, ?_, ?_⟩
  · intro line h
    simp [parseWhoLine, h]
  · intro line h
    have h1 : ¬ (Fields line).length < 4 := by omega
    have h2 : ¬ (Fields line).length < 5 := by omega
    refine ⟨{ User := (Fields line).headD "", Domain := ""
              LoginTime := loginTime (" ".intercalate ((Fields line).drop 2 |>.take 3)) },
      by simp only [parseWhoLine, h1, h2, if_false], ?_⟩
    cases hf : Fields line with
    | nil => rw [hf] at h; simp at h
    | cons a t => rfl

/-- C30 (counterexample): on an open `TestManager` the data `{}` is printed
by `SendResponse` after the label `QMP响应: `, not alone, and by
`SendDelimitedResponse` after a label in text, without any byte 0xFF. -/
theorem TestManager_send_counterexample :
    (TestManager.SendResponse { NewTestManager with isOpen := true } [123, 125]).2.stdout =
        [81, 77, 80, 229, 147, 141, 229, 186, 148, 58, 32, 123, 125, 10] ∧
      (TestManager.SendResponse { NewTestManager with isOpen := true } [123, 125]).2.stdout ≠
        [123, 125, 10] ∧
      (TestManager.SendDelimitedResponse { NewTestManager with isOpen := true }
        [123, 125]).2.stdout ≠ [0xFF, 123, 125, 10] ∧
      0xFF ∉ (TestManager.SendDelimitedResponse { NewTestManager with isOpen := true }
        [123, 125]).2.stdout := by
  decide

/-- C30 (amended): the two transports do not emit the same bytes. On an open
`Manager` with a clean writer and a device that takes every byte,
`SendResponse` emits the data and a newline and `SendDelimitedResponse` the
byte 0xFF, the data and a newline. On an open `TestManager` `SendResponse`
prints the label `QMP响应: `, the data and a newline, and
`SendDelimitedResponse` prints the label `QMP带分隔符响应[0xFF]: `, the data
and a newline, the label holding no byte 0xFF. All four return nil. -/
theorem send_contracts (m : Manager) (tm : TestManager) (data : List Byte)
    (ho : m.isOpen = true) (he : m.writer.err = none) (hb : m.writer.buf = [])
    (hto : tm.isOpen = true) :
    Manager.SendResponse reliableDevice m data =
        some (none,
          { m with writer := { buf := [], err := none, out := m.writer.out ++ (data ++ [10]) } }) ∧
      Manager.SendDelimitedResponse reliableDevice m data =
        some (none,
          { m with
            writer :=
              { buf := [], err := none, out := m.writer.out ++ ([0xFF] ++ (data ++ [10])) } }) ∧
      TestManager.SendResponse tm data =
        (none, { tm with stdout := tm.stdout ++ (responseLabel ++ data ++ [10]) }) ∧
      TestManager.SendDelimitedResponse tm data =
        (none, { tm with stdout := tm.stdout ++ (delimitedLabel ++ data ++ [10]) }) ∧
      0xFF ∉ delimitedLabel := by
  refine ⟨Manager.SendResponse_reliable m data ho he hb,
    Manager.SendDelimitedResponse_reliable m data ho he hb, ?_, ?_, by decide⟩
  · simp [TestManager.SendResponse, hto]
  · simp [TestManager.SendDelimitedResponse, hto]

theorem send_contracts_witness :
    (TestManager.SendResponse { NewTestManager with isOpen := true } [123, 125]).1 = none ∧
      (Manager.SendResponse reliableDevice { NewManager "/dev/x" with isOpen := true }
        [123, 125]).isSome = true :=
  ⟨congrArg Prod.fst
      (send_contracts { NewManager "/dev/x" with isOpen := true }
        { NewTestManager with isOpen := true } [123, 125] rfl rfl rfl rfl).2.2.1,
    by
      rw [(send_contracts { NewManager "/dev/x" with isOpen := true }
        { NewTestManager with isOpen := true } [123, 125] rfl rfl rfl rfl).1]
      rfl⟩

end GuestAgent
